import Mathlib

/-!
# Log writers and translation files of `sw.golibs`

A shallow embedding of the three stream decorators of `log/writers.go`
(`TimeWriter`, `RotateWriter`, `CollapsingWriter`), in the namespace `Log`,
and of `FindTranslation` (`ts/ts.go`), `escapeString` and `removeDuplicate`
(`ts/extractor.go`), in the namespace `Ts`, with the properties proved about
them.

Conventions of the embedding.

* Go strings and byte slices are `Bytes = List Char`, one `Char` per byte.
* Go `int` / `int64` values are `Int`, and an operation that can leave the
  range of its type is reduced to it: the products of `computeMaxSize` and the
  sums on `size` are taken in `int64` (`wrapInt64`), the sums on `count` in
  `int`, of 32 or 64 bits (`wrapInt`, with the width as an argument). Lengths
  of slices and sizes of files are natural numbers; a theorem that needs them
  to be `int` or `int64` values says so.
* The operating system is an explicit state `FS` passed through every call.
  It holds the directory entries, the open descriptors, the clock, a table of
  injected failures (indexed by the number of the system call) and the trace
  of the system calls made so far, each with its outcome.
* A path is kept split in its directory and its last element, so that
  `filepath.Dir`, `filepath.Base` and `filepath.Join` are projections and the
  constructor.
* An `*os.File` is denoted by the path it was opened on; a nil `*os.File` is
  `none`.
* The pattern of `populate` is a `RegularExpression Char` of Mathlib, matched
  against the whole name with `rmatch`; `compilePattern` says how the text of
  the pattern, with the stem inside `\Q...\E`, is read.
* The loop of `appendSuffixToFile` runs on fuel; the functions that reach it
  return an `Option`, and `appendSuffixToFile_terminates` shows that the fuel
  given is always enough.
* `RotateWriter.rotateStep` and `RotateWriter.payloadStep` are the two halves
  of the body of `Write`; `Write_eq_steps` shows that `Write` is their
  composition.
* Names are compared as lists of bytes in lexical order, the order in which
  `ioutil.ReadDir` returns the entries of a directory, and the order of
  `sort.Strings`.
* In the package `ts` a pointer is an `Option`, `none` for nil, and a call
  that dereferences nil has the outcome `panicked`. `html.UnescapeString` is
  an argument of `FindTranslation`; `html.EscapeString` and
  `strings.ReplaceAll` are written out (`htmlEscapeString`,
  `stringsReplaceAll`).
-/

namespace Log

/-! ## Bytes, errors, decimal formatting, time -/

/-- Go strings and byte slices. -/
abbrev Bytes := List Char

/-- A Go `error`, kept as its message. -/
abbrev Err := List Char

/-- The message of `os.ErrInvalid`. -/
def ErrInvalid : Err := "invalid argument".toList

/-- The message of `os.ErrClosed`. -/
def ErrClosed : Err := "file already closed".toList

/-- The message of `syscall.ENOENT`. -/
def ErrNotExist : Err := "no such file or directory".toList

/-- The message of `syscall.EISDIR`. -/
def ErrIsDir : Err := "is a directory".toList

/-- The message of `syscall.ENOTEMPTY`. -/
def ErrNotEmpty : Err := "directory not empty".toList

/-- Decimal form of a natural number (`strconv.Itoa` on a non-negative int). -/
def Itoa (n : Nat) : Bytes := Nat.toDigits 10 n

/-- The verb `%d` of package `fmt` applied to an integer. -/
def fmtInt : Int → Bytes
  | Int.ofNat n => Itoa n
  | Int.negSucc n => '-' :: Itoa (n + 1)

/-- Decimal form padded with zeros on the left up to `width` digits, as the
layouts of `time.Format` print their numeric fields. -/
def padInt (width n : Nat) : Bytes :=
  List.replicate (width - (Itoa n).length) '0' ++ Itoa n

/-- A wall-clock reading, as `time.Now()` returns it, by civil fields. -/
structure Time where
  year : Nat
  month : Nat
  day : Nat
  hour : Nat
  minute : Nat
  second : Nat
deriving DecidableEq

/-- The layout `"20060102T150405"`. -/
def Time.formatCompact (t : Time) : Bytes :=
  padInt 4 t.year ++ padInt 2 t.month ++ padInt 2 t.day ++ ['T'] ++
    padInt 2 t.hour ++ padInt 2 t.minute ++ padInt 2 t.second

/-- The layout `"[2006-01-02 15:04:05] "`. -/
def Time.formatLine (t : Time) : Bytes :=
  ['['] ++ padInt 4 t.year ++ ['-'] ++ padInt 2 t.month ++ ['-'] ++ padInt 2 t.day ++ [' '] ++
    padInt 2 t.hour ++ [':'] ++ padInt 2 t.minute ++ [':'] ++ padInt 2 t.second ++ [']', ' ']

/-! ## The file system -/

/-- A path, split in the directory and the last element. -/
structure Path where
  dir : Bytes
  base : Bytes
deriving DecidableEq

/-- What a directory entry holds. -/
inductive Node where
  | file (content : Bytes)
  | dir
deriving DecidableEq

/-- The result of `os.Stat`. -/
structure FileInfo where
  isDir : Bool
  size : Nat
deriving DecidableEq

/-- The system calls the writers make. -/
inductive Op where
  | stat (p : Path)
  | readDir (d : Bytes)
  | rename (src dst : Path)
  | remove (p : Path)
  | openFile (p : Path)
  | close (h : Path)
  | write (h : Path) (b : Bytes)
deriving DecidableEq

/-- One system call of the trace with its outcome: the number of bytes it
accepted (writes only) and its error, if any. -/
structure Event where
  op : Op
  n : Nat
  err : Option Err
deriving DecidableEq

/-- An injected failure: the error, and for a write the number of bytes
accepted before it. -/
structure Fault where
  err : Err
  accepted : Nat
deriving DecidableEq

/-- The state of the operating system. -/
structure FS where
  /-- Directories that exist and can be listed. -/
  dirs : List Bytes
  /-- Directory entries. -/
  nodes : List (Path × Node)
  /-- Open descriptors. -/
  opened : List Path
  /-- The clock. -/
  now : Time
  /-- Injected failures: `(k, f)` makes system call number `k` fail with `f`. -/
  faults : List (Nat × Fault)
  /-- The system calls made so far. -/
  trace : List Event
deriving DecidableEq

/-- Record a system call in the trace. -/
def FS.log (fs : FS) (op : Op) (n : Nat) (err : Option Err) : FS :=
  { fs with trace := fs.trace ++ [⟨op, n, err⟩] }

/-- Replace the directory entries. -/
def FS.setNodes (fs : FS) (nodes : List (Path × Node)) : FS :=
  { fs with nodes := nodes }

/-- Replace the table of open descriptors. -/
def FS.setOpened (fs : FS) (opened : List Path) : FS :=
  { fs with opened := opened }

/-- The failure injected on the next system call, if any. -/
def FS.fault (fs : FS) : Option Fault :=
  (fs.faults.find? (fun e => e.1 = fs.trace.length)).map Prod.snd

/-- The entry at a path, if any. -/
def FS.find (fs : FS) (p : Path) : Option Node :=
  (fs.nodes.find? (fun e => e.1 = p)).map Prod.snd

/-- The call `os.Stat`. -/
def osStat (p : Path) (fs : FS) : Except Err FileInfo × FS :=
  match fs.fault with
  | some f => (.error f.err, fs.log (.stat p) 0 (some f.err))
  | none =>
    match fs.find p with
    | none => (.error ErrNotExist, fs.log (.stat p) 0 (some ErrNotExist))
    | some (.file c) => (.ok ⟨false, c.length⟩, fs.log (.stat p) 0 none)
    | some .dir => (.ok ⟨true, 0⟩, fs.log (.stat p) 0 none)

/-- The call `ioutil.ReadDir`, reduced to the names of the entries; they come sorted
by name. -/
def ioutilReadDir (d : Bytes) (fs : FS) : Except Err (List Bytes) × FS :=
  match fs.fault with
  | some f => (.error f.err, fs.log (.readDir d) 0 (some f.err))
  | none =>
    if d ∈ fs.dirs then
      (.ok (((fs.nodes.filter (fun e => e.1.dir = d)).map (fun e => e.1.base)).insertionSort
        (fun a b => a ≤ b)), fs.log (.readDir d) 0 none)
    else (.error ErrNotExist, fs.log (.readDir d) 0 (some ErrNotExist))

/-- The call `os.Rename`: the entry at `src` moves to `dst`, replacing what was there. -/
def osRename (src dst : Path) (fs : FS) : Option Err × FS :=
  match fs.fault with
  | some f => (some f.err, fs.log (.rename src dst) 0 (some f.err))
  | none =>
    match fs.find src with
    | none => (some ErrNotExist, fs.log (.rename src dst) 0 (some ErrNotExist))
    | some _ =>
      if src = dst then (none, fs.log (.rename src dst) 0 none)
      else
        (none, (fs.setNodes ((fs.nodes.filter (fun e => e.1 ≠ dst)).map
          (fun e => if e.1 = src then (dst, e.2) else e))).log (.rename src dst) 0 none)

/-- The entries inside the directory at a path: those whose directory is
that path, `filepath.Join(p.dir, p.base)`. -/
def FS.inside (fs : FS) (p : Path) : List (Path × Node) :=
  fs.nodes.filter (fun e => e.1.dir = p.dir ++ ['/'] ++ p.base)

/-- The call `os.Remove`: it removes a file or an empty directory, and fails
on a directory that holds entries. -/
def osRemove (p : Path) (fs : FS) : Option Err × FS :=
  match fs.fault with
  | some f => (some f.err, fs.log (.remove p) 0 (some f.err))
  | none =>
    match fs.find p with
    | none => (some ErrNotExist, fs.log (.remove p) 0 (some ErrNotExist))
    | some nd =>
      if nd = .dir ∧ fs.inside p ≠ [] then
        (some ErrNotEmpty, fs.log (.remove p) 0 (some ErrNotEmpty))
      else (none, (fs.setNodes (fs.nodes.filter (fun e => e.1 ≠ p))).log (.remove p) 0 none)

/-- The call `os.OpenFile(name, os.O_CREATE+os.O_WRONLY+os.O_APPEND, os.ModePerm)`. -/
def osOpenFile (p : Path) (fs : FS) : Except Err Path × FS :=
  match fs.fault with
  | some f => (.error f.err, fs.log (.openFile p) 0 (some f.err))
  | none =>
    if p.dir ∈ fs.dirs then
      match fs.find p with
      | some .dir => (.error ErrIsDir, fs.log (.openFile p) 0 (some ErrIsDir))
      | some (.file _) =>
        (.ok p, (fs.setOpened (p :: fs.opened)).log (.openFile p) 0 none)
      | none =>
        (.ok p, ((fs.setNodes (fs.nodes ++ [(p, .file [])])).setOpened
          (p :: fs.opened)).log (.openFile p) 0 none)
    else (.error ErrNotExist, fs.log (.openFile p) 0 (some ErrNotExist))

/-- Append bytes to the regular file at a path. -/
def FS.append (fs : FS) (h : Path) (b : Bytes) : FS :=
  fs.setNodes (fs.nodes.map (fun e =>
    if e.1 = h then
      match e.2 with
      | .file c => (e.1, .file (c ++ b))
      | .dir => e
    else e))

/-- The method `(*os.File).Write`. On a nil receiver it returns
`(0, os.ErrInvalid)` without any system call. -/
def fileWrite (file : Option Path) (b : Bytes) (fs : FS) : (Int × Option Err) × FS :=
  match file with
  | none => ((0, some ErrInvalid), fs)
  | some h =>
    if h ∈ fs.opened then
      match fs.fault with
      | some f =>
        ((((min f.accepted b.length : Nat) : Int), some f.err),
          (fs.append h (b.take (min f.accepted b.length))).log (.write h b)
            (min f.accepted b.length) (some f.err))
      | none => (((b.length : Int), none), (fs.append h b).log (.write h b) b.length none)
    else ((0, some ErrClosed), fs.log (.write h b) 0 (some ErrClosed))

/-- The method `(*os.File).Close` on a non-nil receiver. -/
def fileClose (h : Path) (fs : FS) : Option Err × FS :=
  if h ∈ fs.opened then
    match fs.fault with
    | some f => (some f.err, (fs.setOpened (fs.opened.erase h)).log (.close h) 0 (some f.err))
    | none => (none, (fs.setOpened (fs.opened.erase h)).log (.close h) 0 none)
  else (some ErrClosed, fs.log (.close h) 0 (some ErrClosed))

/-- An `io.Writer` over a state `σ`: the bytes to write and the state before
give the returned pair `(n, err)` and the state after. -/
abbrev Writer (σ : Type) := Bytes → σ → (Int × Option Err) × σ

/-- The writer of a `bytes.Buffer`: it accepts everything. -/
def bufferWriter : Writer Bytes :=
  fun p buf => (((p.length : Int), none), buf ++ p)

/-! ## `TimeWriter` -/

/-- The method `TimeWriter.Write`; `now` is the value of `time.Now()`. -/
def TimeWriter.Write {σ : Type} (writer : Writer σ) (now : Time) (p : Bytes) (s : σ) :
    (Int × Option Err) × σ :=
  let date := now.formatLine
  let p := date ++ p
  match writer p s with
  | ((n, some err), s1) =>
    if n ≥ (date.length : Int) then ((n - date.length, some err), s1)
    else ((0, some err), s1)
  | ((n, none), s1) => ((n, none), s1)

/-! ## Machine integers -/

/-- Reduction of a value to the range of `int64`: the result of an `int64`
operation whose exact value is `x`. -/
def wrapInt64 (x : Int) : Int :=
  (x + 2 ^ 63) % 2 ^ 64 - 2 ^ 63

/-- The widths that the Go type `int` can have, by the target of the build:
32 or 64 bits. -/
inductive IntSize where
  | bits32
  | bits64
deriving DecidableEq

/-- The number of bits of an `int`, the constant `strconv.IntSize`. -/
def IntSize.bits : IntSize → Nat
  | .bits32 => 32
  | .bits64 => 64

/-- Reduction of a value to the range of `int`: the result of an `int`
operation whose exact value is `x`. -/
def wrapInt (intSize : IntSize) (x : Int) : Int :=
  (x + 2 ^ (intSize.bits - 1)) % 2 ^ intSize.bits - 2 ^ (intSize.bits - 1)

/-! ## `CollapsingWriter` -/

/-- The fields `last` and `count` of a `CollapsingWriter`; the wrapped writer
`w` is an argument of `Write`. -/
structure CollapsingWriter where
  last : Bytes
  count : Int
deriving DecidableEq

/-- The line `fmt.Fprintf(w.w, " ...x%d\n", n)` writes. -/
def summaryLine (n : Int) : Bytes :=
  " ...x".toList ++ fmtInt n ++ ['\n']

/-- The method `CollapsingWriter.Write`; `count` is an `int` of `intSize`
bits, so that `w.count++` and `w.count+1` are taken in that width. -/
def CollapsingWriter.Write {σ : Type} (intSize : IntSize) (sink : Writer σ)
    (w : CollapsingWriter) (p : Bytes) (s : σ) : (Int × Option Err) × CollapsingWriter × σ :=
  if w.last = p then ((0, none), { w with count := wrapInt intSize (w.count + 1) }, s)
  else
    match (if w.count > 0 then
        (({ w with count := 0 } : CollapsingWriter),
          (sink (summaryLine (wrapInt intSize (w.count + 1))) s).2)
      else (w, s)) with
    | (w1, s1) =>
      match sink p s1 with
      | (r, s2) => (r, { w1 with last := p }, s2)

/-! ## `RotateWriter` -/

/-- The fields of a `RotateWriter`. -/
structure RotateWriter where
  filename : Path
  maxFiles : Int
  maxSize : Int
  size : Int
  inBytes : Bool
  file : Option Path
  history : List Path
deriving DecidableEq

/-- What a call that may fail or crash comes to: a value, a returned error, a
Go run-time crash, or an input on which the embedding does not say what the
library does. -/
inductive Outcome (α : Type) where
  | ok (a : α)
  | error (e : Err)
  | panicked
  | unmodelled
deriving DecidableEq

/-- The function `computeMaxSize`; the products are taken in `int64`. -/
def computeMaxSize (maxSize : Int) (sizeUnit : Bytes) : Int :=
  if sizeUnit = "kbytes".toList then wrapInt64 (maxSize * 1024)
  else if sizeUnit = "mbytes".toList then wrapInt64 (maxSize * 1048576)
  else maxSize

/-- The method `RotateWriter.computeSize`. -/
def RotateWriter.computeSize (w : RotateWriter) (info : FileInfo) : Int :=
  if w.inBytes then (info.size : Int)
  else (info.size : Int) / 200

/-- The function `filepath.Ext` on the last element of a path: the part from the last dot
on, empty when there is no dot. -/
def filepathExt : Bytes → Bytes
  | [] => []
  | c :: cs =>
    match filepathExt cs with
    | [] => if c = '.' then c :: cs else []
    | e => e

/-- The function `strings.TrimSuffix`. -/
def TrimSuffix (s suffix : Bytes) : Bytes :=
  if suffix <:+ s then s.take (s.length - suffix.length) else s

/-- The class `\d`. -/
def reDigit : RegularExpression Char :=
  "0123456789".toList.foldr (fun c r => .plus (.char c) r) .zero

/-- The repetition `r{n}`. -/
def reRepeat (r : RegularExpression Char) : Nat → RegularExpression Char
  | 0 => .epsilon
  | n + 1 => .comp r (reRepeat r n)

/-- A sequence of literal characters. -/
def reLiteral (s : Bytes) : RegularExpression Char :=
  s.foldr (fun c r => .comp (.char c) r) .epsilon

/-- The text of the pattern of `populate` after the quoted stem,
`\.\d{8}T\d{6}\.log(\.\d+)*$` in the Go source. -/
def rotatedTailText : Bytes := "\\.\\d\x7b8\x7dT\\d\x7b6\x7d\\.log(\\.\\d+)*$".toList

/-- The expression `\.\d{8}T\d{6}\.log(\.\d+)*` that `rotatedTailText`
denotes; the closing `$` and the opening `^` make the match a match of the
whole name, which is what `RegularExpression.rmatch` decides. -/
def reRotatedTail : RegularExpression Char :=
  .comp (.char '.') (.comp (reRepeat reDigit 8) (.comp (.char 'T') (.comp (reRepeat reDigit 6)
    (.comp (reLiteral ".log".toList)
      (.star (.comp (.char '.') (.comp reDigit (.star reDigit))))))))

/-- The text after `\Q` is cut at its first `\E`: the part before is taken
literally, the part after is parsed as a pattern again. -/
def cutQuote : Bytes → Option (Bytes × Bytes)
  | [] => none
  | c :: t =>
    if c = '\\' ∧ t.head? = some 'E' then some ([], t.tail)
    else (cutQuote t).map (fun r => (c :: r.1, r.2))

/-- The scan of `utf8.ValidString`: `pending` continuation bytes are still
due, the next of which must lie between `lo` and `hi`. -/
def validUTF8From : Nat → Nat → Nat → Bytes → Bool
  | 0, _, _, [] => true
  | _ + 1, _, _, [] => false
  | 0, _, _, b :: rest =>
    if b.toNat < 0x80 then validUTF8From 0 0 0 rest
    else if 0xC2 ≤ b.toNat ∧ b.toNat ≤ 0xDF then validUTF8From 1 0x80 0xBF rest
    else if b.toNat = 0xE0 then validUTF8From 2 0xA0 0xBF rest
    else if b.toNat = 0xED then validUTF8From 2 0x80 0x9F rest
    else if 0xE1 ≤ b.toNat ∧ b.toNat ≤ 0xEF then validUTF8From 2 0x80 0xBF rest
    else if b.toNat = 0xF0 then validUTF8From 3 0x90 0xBF rest
    else if b.toNat = 0xF4 then validUTF8From 3 0x80 0x8F rest
    else if 0xF1 ≤ b.toNat ∧ b.toNat ≤ 0xF3 then validUTF8From 3 0x80 0xBF rest
    else false
  | pending + 1, lo, hi, b :: rest =>
    if lo ≤ b.toNat ∧ b.toNat ≤ hi then validUTF8From pending 0x80 0xBF rest else false

/-- The function `utf8.ValidString` on a string given by its bytes. -/
def validUTF8 (s : Bytes) : Bool :=
  validUTF8From 0 0 0 s

/-- What `regexp.MustCompile` makes of a pattern. -/
inductive Compiled where
  | regex (re : RegularExpression Char)
  | panicked
  | unmodelled

/-- The call
`regexp.MustCompile("^\\Q" + stem + "\\E\\.\\d{8}T\\d{6}\\.log(\\.\\d+)*$")`.
The quotation opened by `\Q` ends at the first `\E` of the text that follows
it. When that is the `\E` of the pattern itself, the stem is matched
literally. When it lies inside the stem, the rest of the stem is parsed as a
pattern: if it starts with letters and digits (literals) followed by an `\E`,
that `\E` is an invalid escape sequence and `MustCompile` panics; other rests
are not modelled. The text always holds the `\E` of the pattern itself, so
the cut never fails. Before all that the parser checks that the pattern is
valid UTF-8, which the rest of the pattern is: on a stem that is not,
`MustCompile` panics. -/
def compilePattern (stem : Bytes) : Compiled :=
  if validUTF8 stem = false then .panicked
  else
    match cutQuote (stem ++ "\\E".toList ++ rotatedTailText) with
    | none => .unmodelled
    | some (lit, rest) =>
      if rest = rotatedTailText then .regex (.comp (reLiteral lit) reRotatedTail)
      else if (rest.dropWhile Char.isAlphanum).take 2 = "\\E".toList then .panicked
      else .unmodelled

/-- The method `RotateWriter.Close`. -/
def RotateWriter.Close (w : RotateWriter) (fs : FS) : Option Err × RotateWriter × FS :=
  match w.file with
  | some h =>
    match fileClose h fs with
    | (err, fs1) => (err, { w with file := none }, fs1)
  | none => (none, w, fs)

/-- The loop of `populate` over the entries of the directory. -/
def populateLoop (re : RegularExpression Char) (dir : Bytes) :
    List Bytes → List Path → List Path
  | [], history => history
  | name :: entries, history =>
    if re.rmatch name then populateLoop re dir entries (history ++ [⟨dir, name⟩])
    else populateLoop re dir entries history

/-- The method `RotateWriter.populate`. -/
def RotateWriter.populate (w : RotateWriter) (fs : FS) : Outcome RotateWriter × FS :=
  match ioutilReadDir w.filename.dir fs with
  | (.error err, fs1) => (.error err, fs1)
  | (.ok entries, fs1) =>
    match compilePattern (TrimSuffix w.filename.base (filepathExt w.filename.base)) with
    | .panicked => (.panicked, fs1)
    | .unmodelled => (.unmodelled, fs1)
    | .regex re =>
      (.ok { w with history := populateLoop re w.filename.dir entries w.history }, fs1)

/-- The candidate `filename + "." + strconv.Itoa(suffix)`. -/
def withSuffix (filename : Path) (suffix : Nat) : Path :=
  ⟨filename.dir, filename.base ++ ['.'] ++ Itoa suffix⟩

/-- The loop of `appendSuffixToFile`, entered with `err == nil` for the
candidate of number `suffix`; `none` when the fuel runs out. -/
def appendSuffixLoop (filename : Path) : Nat → Nat → FS → Option (Path × FS)
  | 0, _, _ => none
  | fuel + 1, suffix, fs =>
    match osStat (withSuffix filename (suffix + 1)) fs with
    | (.ok _, fs1) => appendSuffixLoop filename fuel (suffix + 1) fs1
    | (.error _, fs1) => some (withSuffix filename (suffix + 1), fs1)

/-- The local `filename` of `appendSuffixToFile`: the path with the time
`now` in the layout `"20060102T150405"` put before its extension. -/
def rotatedName (src : Path) (now : Time) : Path :=
  ⟨src.dir, TrimSuffix src.base (filepathExt src.base) ++ ['.'] ++ now.formatCompact ++
    filepathExt src.base⟩

/-- The function `appendSuffixToFile`. The loop gets one more unit of fuel than there are
directory entries. -/
def appendSuffixToFile (src : Path) (fs : FS) : Option (Path × FS) :=
  match osStat (rotatedName src fs.now) fs with
  | (.error _, fs1) => some (rotatedName src fs.now, fs1)
  | (.ok _, fs1) => appendSuffixLoop (rotatedName src fs.now) (fs.nodes.length + 1) 0 fs1

/-- The method `RotateWriter.rotate`; `none` when the search of a free name runs out of
fuel. -/
def RotateWriter.rotate (w : RotateWriter) (fs : FS) :
    Option (Option Err × RotateWriter × FS) :=
  match (match w.file with
      | some h =>
        match fileClose h fs with
        | (err, fs1) => (err, { w with file := none }, fs1)
      | none => ((none : Option Err), w, fs)) with
  | (some err, w1, fs1) => some (some err, w1, fs1)
  | (none, w1, fs1) =>
    match osStat w1.filename fs1 with
    | (.error _, fs2) => some (none, { w1 with size := 0 }, fs2)
    | (.ok _, fs2) =>
      match appendSuffixToFile w1.filename fs2 with
      | none => none
      | some (filename, fs3) =>
        match osRename w1.filename filename fs3 with
        | (some err, fs4) => some (some err, { w1 with size := 0 }, fs4)
        | (none, fs4) =>
          some (none, { w1 with size := 0, history := w1.history ++ [filename] }, fs4)

/-- The loop of `prune`, on the history. -/
def pruneLoop (maxFiles : Int) : List Path → FS → Option Err × List Path × FS
  | [], fs => (none, [], fs)
  | h :: t, fs =>
    if ((h :: t).length : Int) ≥ maxFiles then
      match osRemove h fs with
      | (some err, fs1) => (some err, h :: t, fs1)
      | (none, fs1) => pruneLoop maxFiles t fs1
    else (none, h :: t, fs)

/-- The method `RotateWriter.prune`. -/
def RotateWriter.prune (w : RotateWriter) (fs : FS) : Option Err × RotateWriter × FS :=
  if w.maxFiles < 0 then (none, w, fs)
  else
    match pruneLoop w.maxFiles w.history fs with
    | (err, history, fs1) => (err, { w with history := history }, fs1)

/-- The method `RotateWriter.increaseSize`; the sums are taken in `int64`. -/
def RotateWriter.increaseSize (w : RotateWriter) (size : Int) : RotateWriter :=
  if w.inBytes then { w with size := wrapInt64 (w.size + size) }
  else { w with size := wrapInt64 (w.size + 1) }

/-- The function `lineCount`. -/
def lineCount (p : Bytes) : Int :=
  (p.count '\n' : Nat)

/-- The statement `size, _ := fmt.Fprintf(w.file, format, err)` followed by
`w.increaseSize(size)`, for the line `line` that the format gives. -/
def RotateWriter.report (w : RotateWriter) (line : Bytes) (fs : FS) : RotateWriter × FS :=
  match fileWrite w.file line fs with
  | ((size, _), fs1) => (w.increaseSize size, fs1)

/-- The body of the first `if` of `RotateWriter.Write`: rotate, then prune,
each failure reported with `fmt.Fprintf(w.file, ...)`. -/
def RotateWriter.rotateAndPrune (w : RotateWriter) (fs : FS) : Option (RotateWriter × FS) :=
  match w.rotate fs with
  | none => none
  | some (err, w1, fs1) =>
    match (match err with
        | some e => w1.report ("failed to rotate log file: ".toList ++ e ++ ['\n']) fs1
        | none => (w1, fs1)) with
    | (w2, fs2) =>
      match w2.prune fs2 with
      | (some e, w3, fs3) =>
        some (w3.report ("failed to prune log file: ".toList ++ e ++ ['\n']) fs3)
      | (none, w3, fs3) => some (w3, fs3)

/-- The method `RotateWriter.Write`; `none` when the call does not return. -/
def RotateWriter.Write (w : RotateWriter) (p : Bytes) (fs : FS) :
    Option ((Int × Option Err) × RotateWriter × FS) :=
  if w.maxFiles = 0 then some (((p.length : Int), none), w, fs)
  else
    match (if w.maxSize > 0 ∧ w.size ≥ w.maxSize ∧ w.file ≠ none then w.rotateAndPrune fs
        else some (w, fs)) with
    | none => none
    | some (w1, fs1) =>
      match (match w1.file with
          | none =>
            match osOpenFile w1.filename fs1 with
            | (.error err, fs2) => (some err, w1, fs2)
            | (.ok file, fs2) => (none, { w1 with file := some file }, fs2)
          | some _ => ((none : Option Err), w1, fs1)) with
      | (some err, w2, fs2) => some ((0, some err), w2, fs2)
      | (none, w2, fs2) =>
        match fileWrite w2.file p fs2 with
        | ((size, err), fs3) =>
          some ((size, err),
            (if w2.inBytes then w2.increaseSize size
             else { w2 with size := wrapInt64 (w2.size + lineCount p) }), fs3)

/-- The function `NewRotateWriter`; `none` when the call does not return. -/
def NewRotateWriter (filename : Path) (maxFiles : Int) (maxSize : Int) (sizeUnit : Bytes)
    (truncate : Bool) (fs : FS) : Option (Outcome RotateWriter × FS) :=
  match RotateWriter.populate
      { filename := filename, maxFiles := maxFiles,
        maxSize := computeMaxSize maxSize sizeUnit, size := 0,
        inBytes := decide (sizeUnit = "bytes".toList ∨ sizeUnit = "kbytes".toList ∨
          sizeUnit = "mbytes".toList),
        file := none, history := [] } fs with
  | (.error err, fs1) => some (.error err, fs1)
  | (.panicked, fs1) => some (.panicked, fs1)
  | (.unmodelled, fs1) => some (.unmodelled, fs1)
  | (.ok w, fs1) =>
    match (match osStat w.filename fs1 with
        | (.ok info, fs2) =>
          if info.isDir then some (some "invalid filename".toList, w, fs2)
          else if truncate then ({ w with size := w.computeSize info } : RotateWriter).rotate fs2
          else some (none, { w with size := w.computeSize info }, fs2)
        | (.error _, fs2) => some (none, w, fs2)) with
    | none => none
    | some (some err, _, fs2) => some (.error err, fs2)
    | some (none, w2, fs2) =>
      match w2.prune fs2 with
      | (some err, _, fs3) => some (.error err, fs3)
      | (none, w3, fs3) =>
        match w3.Write [] fs3 with
        | none => none
        | some ((_, some err), _, fs4) => some (.error err, fs4)
        | some ((_, none), w4, fs4) => some (.ok w4, fs4)

/-! ## Runs and test writers -/

/-- Successive calls of `CollapsingWriter.Write`, one for each payload. -/
def CollapsingWriter.WriteAll {σ : Type} (intSize : IntSize) (sink : Writer σ) :
    List Bytes → CollapsingWriter → σ → CollapsingWriter × σ
  | [], w, s => (w, s)
  | p :: ps, w, s =>
    match CollapsingWriter.Write intSize sink w p s with
    | (_, w1, s1) => CollapsingWriter.WriteAll intSize sink ps w1 s1

/-- A writer that fails every write with `err` after `n` bytes. -/
def failingWriter (n : Int) (err : Err) : Writer Unit :=
  fun _ s => ((n, some err), s)

/-- The number a string of decimal digits denotes. -/
def decimalValue (l : Bytes) : Nat :=
  l.foldl (fun acc c => 10 * acc + (c.toNat - 48)) 0

/-- Record several system calls in the trace. -/
def FS.logAll (fs : FS) (evs : List Event) : FS :=
  { fs with trace := fs.trace ++ evs }

/-- A system call of `rotate` or `prune` that failed: a close, a rename or a
remove with an error. -/
def Event.failedRotateOrPrune (ev : Event) : Bool :=
  match ev.op, ev.err with
  | .close _, some _ => true
  | .rename _ _, some _ => true
  | .remove _, some _ => true
  | _, _ => false

/-- Successive calls of `RotateWriter.Write`, one for each payload, with the
results of all of them. -/
def RotateWriter.WriteAll : List Bytes → RotateWriter → FS →
    Option (List (Int × Option Err) × RotateWriter × FS)
  | [], w, fs => some ([], w, fs)
  | p :: ps, w, fs =>
    match w.Write p fs with
    | none => none
    | some (r, w1, fs1) =>
      match RotateWriter.WriteAll ps w1 fs1 with
      | none => none
      | some (rs, w2, fs2) => some (r :: rs, w2, fs2)

/-- The content of the regular file at a path, if there is one. -/
def FS.content (fs : FS) (p : Path) : Option Bytes :=
  match fs.find p with
  | some (.file c) => some c
  | _ => none

/-- The ten decimal digits, the characters of the class `\d`. -/
def decimalDigits : Bytes := "0123456789".toList

/-- The names of rotated files in the words of the specification: the stem,
a dot, eight digits, `T`, six digits, `.log`, then any number of groups made
of a dot and at least one digit. -/
def IsRotatedName (stem name : Bytes) : Prop :=
  ∃ (date time : Bytes) (groups : List Bytes),
    name = stem ++ ['.'] ++ date ++ ['T'] ++ time ++ ".log".toList ++ groups.flatten ∧
    date.length = 8 ∧ (∀ c ∈ date, c ∈ decimalDigits) ∧
    time.length = 6 ∧ (∀ c ∈ time, c ∈ decimalDigits) ∧
    ∀ g ∈ groups, ∃ ds, g = '.' :: ds ∧ ds ≠ [] ∧ ∀ c ∈ ds, c ∈ decimalDigits

/-- The target of the examples, `tmp/filename.log`. -/
def exTarget : Path := ⟨"tmp".toList, "filename.log".toList⟩

/-- The clock of the examples, 2013-09-16 11:55:00. -/
def exClock : Time := ⟨2013, 9, 16, 11, 55, 0⟩

/-- The failure injected in the examples. -/
def exDenied : Fault := ⟨"permission denied".toList, 0⟩

/-! ## The steps of `Write`, clock readings, generated names and further examples -/

/-- The kinds of system calls. -/
inductive OpKind where
  | stat | readDir | rename | remove | openFile | close | write
deriving DecidableEq

/-- The kind of a system call. -/
def Op.kind : Op → OpKind
  | .stat _ => .stat
  | .readDir _ => .readDir
  | .rename _ _ => .rename
  | .remove _ => .remove
  | .openFile _ => .openFile
  | .close _ => .close
  | .write _ _ => .write

/-- The first `if` of `RotateWriter.Write`, reached when `maxFiles` is not 0:
the writer and the file system when it is over. -/
def RotateWriter.rotateStep (w : RotateWriter) (fs : FS) : Option (RotateWriter × FS) :=
  if w.maxSize > 0 ∧ w.size ≥ w.maxSize ∧ w.file ≠ none then w.rotateAndPrune fs
  else some (w, fs)

/-- The rest of `RotateWriter.Write`: the open of the target when there is no
handle, then the write of the payload and the update of the size. -/
def RotateWriter.payloadStep (w1 : RotateWriter) (p : Bytes) (fs1 : FS) :
    (Int × Option Err) × RotateWriter × FS :=
  match (match w1.file with
      | none =>
        match osOpenFile w1.filename fs1 with
        | (.error err, fs2) => (some err, w1, fs2)
        | (.ok file, fs2) => (none, { w1 with file := some file }, fs2)
      | some _ => ((none : Option Err), w1, fs1)) with
  | (some err, w2, fs2) => ((0, some err), w2, fs2)
  | (none, w2, fs2) =>
    match fileWrite w2.file p fs2 with
    | ((size, err), fs3) =>
      ((size, err),
        (if w2.inBytes then w2.increaseSize size
         else { w2 with size := wrapInt64 (w2.size + lineCount p) }), fs3)

/-- A clock reading with civil fields in their ranges and a year of at most
four digits. -/
abbrev Time.valid (t : Time) : Prop :=
  t.year ≤ 9999 ∧ 1 ≤ t.month ∧ t.month ≤ 12 ∧ 1 ≤ t.day ∧ t.day ≤ 31 ∧ t.hour ≤ 23 ∧
    t.minute ≤ 59 ∧ t.second ≤ 59

/-- Chronological order of two clock readings, field by field. -/
abbrev Time.earlier (t1 t2 : Time) : Prop :=
  t1.year < t2.year ∨ (t1.year = t2.year ∧
    (t1.month < t2.month ∨ (t1.month = t2.month ∧
      (t1.day < t2.day ∨ (t1.day = t2.day ∧
        (t1.hour < t2.hour ∨ (t1.hour = t2.hour ∧
          (t1.minute < t2.minute ∨ (t1.minute = t2.minute ∧ t1.second < t2.second)))))))))

/-- A name that `appendSuffixToFile` can return for `target` at the time
`t`: the rotated name, or the rotated name with a suffix `.<n>`, `n ≥ 1`. -/
def IsGeneratedName (target : Path) (t : Time) (name : Path) : Prop :=
  name = rotatedName target t ∨ ∃ n, 0 < n ∧ name = withSuffix (rotatedName target t) n

/-- The rotated name of the example target at the example clock. -/
def exRotated : Path := ⟨"tmp".toList, "filename.20130916T115500.log".toList⟩

/-- A directory after ten rotations of the example target within the second
of the example clock: the target, its rotated name and the suffixes 1 to 9. -/
def exCrowded : FS :=
  ⟨["tmp".toList],
    [(exTarget, .file []), (exRotated, .file []), (withSuffix exRotated 1, .file []),
      (withSuffix exRotated 2, .file []), (withSuffix exRotated 3, .file []),
      (withSuffix exRotated 4, .file []), (withSuffix exRotated 5, .file []),
      (withSuffix exRotated 6, .file []), (withSuffix exRotated 7, .file []),
      (withSuffix exRotated 8, .file []), (withSuffix exRotated 9, .file [])],
    [], exClock, [], []⟩

/-- A directory with two rotated files of the example target, of the day
before the example clock, and the target itself holding `"old"`. -/
def exRelisted : FS :=
  ⟨["tmp".toList],
    [(⟨"tmp".toList, "filename.20130915T101500.log".toList⟩, .file []),
      (⟨"tmp".toList, "filename.20130915T101501.log".toList⟩, .file []),
      (exTarget, .file "old".toList)],
    [], exClock, [], []⟩

/-- The directory `exRelisted` after a constructor call with retention 2 and
truncation. -/
def exRelistedAfter : FS :=
  ⟨["tmp".toList], [(exRotated, .file "old".toList), (exTarget, .file [])], [exTarget], exClock, [],
    [⟨.readDir "tmp".toList, 0, none⟩, ⟨.stat exTarget, 0, none⟩, ⟨.stat exTarget, 0, none⟩,
      ⟨.stat exRotated, 0, some ErrNotExist⟩, ⟨.rename exTarget exRotated, 0, none⟩,
      ⟨.remove ⟨"tmp".toList, "filename.20130915T101500.log".toList⟩, 0, none⟩,
      ⟨.remove ⟨"tmp".toList, "filename.20130915T101501.log".toList⟩, 0, none⟩,
      ⟨.openFile exTarget, 0, none⟩, ⟨.write exTarget [], 0, none⟩]⟩

/-- A directory that holds the example target alone, a file of 450 bytes. -/
def exLong : FS :=
  ⟨["tmp".toList], [(exTarget, .file (List.replicate 450 'x'))], [], exClock, [], []⟩

/-- The fields of a `RotateWriter` that no method assigns after the
constructor: `filename`, `maxFiles`, `maxSize` and `inBytes`. -/
def RotateWriter.config (w : RotateWriter) : Path × Int × Int × Bool :=
  (w.filename, w.maxFiles, w.maxSize, w.inBytes)

/-- The states of a `RotateWriter` that a program can reach: the writer a
constructor call returned, and every writer that a call of `Write` or of
`Close` leaves from a reachable one, whatever the state of the system at the
time of the call. -/
inductive Reachable : RotateWriter → Prop where
  | construct (target : Path) (maxFiles maxSize : Int) (sizeUnit : Bytes) (truncate : Bool)
      (fs fs1 : FS) (w : RotateWriter) :
      NewRotateWriter target maxFiles maxSize sizeUnit truncate fs = some (.ok w, fs1) →
      Reachable w
  | write (w w1 : RotateWriter) (p : Bytes) (fs fs1 : FS) (r : Int × Option Err) :
      Reachable w → w.Write p fs = some (r, w1, fs1) → Reachable w1
  | close (w : RotateWriter) (fs : FS) :
      Reachable w → Reachable (w.Close fs).2.1

/-- The reachable states with a bound on what the size can have counted: the
size of the target found by the constructor call, plus `len(p) + 2` for every
call `Write(p)` since (the payload, and one unit for each of the two reports
that a failed rotation and a failed pruning make). -/
inductive ReachableWithin : Int → RotateWriter → Prop where
  | construct (target : Path) (maxFiles maxSize : Int) (sizeUnit : Bytes) (truncate : Bool)
      (fs fs1 : FS) (w : RotateWriter) (B : Nat) :
      (∀ c, fs.find target = some (.file c) → c.length ≤ B) →
      NewRotateWriter target maxFiles maxSize sizeUnit truncate fs = some (.ok w, fs1) →
      ReachableWithin B w
  | write (b : Int) (w w1 : RotateWriter) (p : Bytes) (fs fs1 : FS) (r : Int × Option Err) :
      ReachableWithin b w → w.Write p fs = some (r, w1, fs1) →
      ReachableWithin (b + p.length + 2) w1
  | close (b : Int) (w : RotateWriter) (fs : FS) :
      ReachableWithin b w → ReachableWithin b (w.Close fs).2.1

/-- The directory `exCrowded` after one more rotation within the same
second: the target now bears the suffix 10, the newest of the eleven rotated
files. -/
def exEleven : FS :=
  ⟨["tmp".toList],
    [(withSuffix exRotated 10, .file []), (exRotated, .file []),
      (withSuffix exRotated 1, .file []), (withSuffix exRotated 2, .file []),
      (withSuffix exRotated 3, .file []), (withSuffix exRotated 4, .file []),
      (withSuffix exRotated 5, .file []), (withSuffix exRotated 6, .file []),
      (withSuffix exRotated 7, .file []), (withSuffix exRotated 8, .file []),
      (withSuffix exRotated 9, .file [])],
    [], exClock, [], []⟩

/-- The file system after the constructor call
`NewRotateWriter("tmp/filename.log", 2, 0, "bytes", true)` in an empty
directory `tmp`. -/
def exOpened : FS :=
  ⟨["tmp".toList], [(exTarget, .file [])], [exTarget], exClock, [],
    [⟨.readDir "tmp".toList, 0, none⟩, ⟨.stat exTarget, 0, some ErrNotExist⟩,
      ⟨.openFile exTarget, 0, none⟩, ⟨.write exTarget [], 0, none⟩]⟩

end Log

/-! ## Package `ts`: translation files (`ts/ts.go`) and extraction (`ts/extractor.go`) -/

namespace Ts

open Log

/-! ### `FindTranslation` -/

/-- The type `Translation` of `ts.go`. -/
structure Translation where
  type : Bytes
  text : Bytes
deriving DecidableEq

/-- The type `Source`. -/
structure Source where
  text : Bytes
deriving DecidableEq

/-- The type `TranslatorComment`. -/
structure TranslatorComment where
  text : Bytes
deriving DecidableEq

/-- The type `OldSource`. -/
structure OldSource where
  text : Bytes
deriving DecidableEq

/-- The type `Message`; a field of pointer type is an `Option`, `none` for
the nil pointer. -/
structure Message where
  numerus : Bytes
  source : Option Source
  translatorComment : Option TranslatorComment
  translation : Option Translation
  id : Bytes
  oldSource : Option OldSource
  utf8 : Bool
deriving DecidableEq

/-- The type `Context`; `Messages` is a slice of pointers. -/
structure Context where
  name : Bytes
  messages : List (Option Message)
deriving DecidableEq

/-- The type `TS`; `Contexts` is a slice of pointers. -/
structure TS where
  lang : Bytes
  sourceLanguage : Bytes
  version : Bytes
  contexts : List (Option Context)
  path : Bytes
deriving DecidableEq

/-- The inner loop of `FindTranslation` over the messages of one context:
`none` when the loop ends without a `return`. Reading `message.Source.Text`
through a nil `message` or a nil `Source` is a run-time panic. The function
`html.UnescapeString` of the Go library is the argument `unescape`. -/
def findInMessages (unescape : Bytes → Bytes) (source : Bytes) :
    List (Option Message) → Option (Outcome (Option Translation))
  | [] => none
  | none :: _ => some .panicked
  | some message :: rest =>
    match message.source with
    | none => some .panicked
    | some src =>
      if unescape src.text = unescape source then some (.ok message.translation)
      else findInMessages unescape source rest

/-- The outer loop of `FindTranslation` over the contexts. A nil `ctx` makes
`ctx.Name`, or `ctx.Messages` when `context` is empty, panic. -/
def findInContexts (unescape : Bytes → Bytes) (context source : Bytes) :
    List (Option Context) → Outcome (Option Translation)
  | [] => .ok none
  | none :: _ => .panicked
  | some ctx :: rest =>
    if context.length ≠ 0 ∧ ctx.name ≠ context then
      findInContexts unescape context source rest
    else
      match findInMessages unescape source ctx.messages with
      | some r => r
      | none => findInContexts unescape context source rest

/-- The method `TS.FindTranslation`. -/
def TS.FindTranslation (unescape : Bytes → Bytes) (ts : TS) (context source : Bytes) :
    Outcome (Option Translation) :=
  findInContexts unescape context source ts.contexts

/-- The messages that `FindTranslation(context, _)` goes through, in the
words of the claim: those of the contexts named `context`, or of all
contexts when `context` is empty, in order. A nil context stands in the list
as a nil message. -/
def TS.scanned (ts : TS) (context : Bytes) : List (Option Message) :=
  ts.contexts.flatMap (fun c =>
    match c with
    | none => [none]
    | some ctx => if context = [] ∨ ctx.name = context then ctx.messages else [])

/-- A message that the scan passes over: it is not nil, it has a source, and
the unescaped text of the source differs from the unescaped `source`. -/
def Passes (unescape : Bytes → Bytes) (source : Bytes) (x : Option Message) : Prop :=
  ∃ m src, x = some m ∧ m.source = some src ∧ unescape src.text ≠ unescape source

/-- A message that matches: it has a source whose unescaped text is the
unescaped `source`. -/
def Matches (unescape : Bytes → Bytes) (source : Bytes) (m : Message) : Prop :=
  ∃ src, m.source = some src ∧ unescape src.text = unescape source

/-- A message on which the scan cannot read a source text: a nil message
or a message with a nil source. -/
def Broken (x : Option Message) : Prop :=
  x = none ∨ ∃ m, x = some m ∧ m.source = none

/-- The value `simpleTs` of `ts_test.go`. -/
def simpleTs : TS :=
  ⟨"en".toList, "en".toList, "1.0".toList,
    [some ⟨"context A".toList,
        [some ⟨[], some ⟨"&ltA&gt".toList⟩, none, some ⟨[], "tA".toList⟩, [], none, false⟩,
          some ⟨[], some ⟨"B".toList⟩, none, some ⟨"unfinished".toList, "tB".toList⟩, [], none,
            false⟩]⟩,
      some ⟨"context B".toList,
        [some ⟨[], some ⟨"C".toList⟩, none, some ⟨[], "tC".toList⟩, [], none, false⟩]⟩],
    []⟩

/-- A value whose only message has no `<source>` element, as
`xml.Unmarshal` leaves it. -/
def sourcelessTs : TS :=
  ⟨"en".toList, "en".toList, "1.0".toList,
    [some ⟨"context A".toList,
        [some ⟨[], none, none, some ⟨[], "tA".toList⟩, [], none, false⟩]⟩],
    []⟩

/-! ### `escapeString` and `removeDuplicate` -/

/-- The replacement that `html.EscapeString` of the Go library makes for one
character: it escapes the five characters `&`, apostrophe (39), `<`, `>` and
double quote (34), and keeps every other character. -/
def htmlEscapeChar (c : Char) : Bytes :=
  if c = '&' then "&amp;".toList
  else if c = Char.ofNat 39 then "&#39;".toList
  else if c = '<' then "&lt;".toList
  else if c = '>' then "&gt;".toList
  else if c = Char.ofNat 34 then "&#34;".toList
  else [c]

/-- The function `html.EscapeString` of the Go library. -/
def htmlEscapeString (s : Bytes) : Bytes :=
  s.flatMap htmlEscapeChar

/-- The scan of `strings.ReplaceAll(s, old, new)` for a non-empty `old`, from
left to right: `skip` is the number of characters of a match that are still to
be dropped. At a position where `old` starts, `new` is emitted and the match
is dropped, so that matches do not overlap. -/
def replaceAllFrom (old new : Bytes) : Nat → Bytes → Bytes
  | _, [] => []
  | skip + 1, _ :: rest => replaceAllFrom old new skip rest
  | 0, c :: rest =>
    if old <+: c :: rest then new ++ replaceAllFrom old new (old.length - 1) rest
    else c :: replaceAllFrom old new 0 rest

/-- The function `strings.ReplaceAll(s, old, new)` of the Go library. An
empty `old` matches before every character and at the end. -/
def stringsReplaceAll (s old new : Bytes) : Bytes :=
  if old = [] then new ++ s.flatMap (fun c => c :: new)
  else replaceAllFrom old new 0 s

/-- The function `escapeString` of `extractor.go`. -/
def escapeString (str : Bytes) : Bytes :=
  let result := stringsReplaceAll (htmlEscapeString str) "&#39;".toList "&apos;".toList
  let result := stringsReplaceAll result "&#34;".toList "&quot;".toList
  result

/-- The function `sort.Strings` of the Go library: the ascending arrangement
of the strings. -/
def sortStrings (list : List Bytes) : List Bytes :=
  list.insertionSort (fun a b => a ≤ b)

/-- The keys of the map that the first loop of `removeDuplicate` fills, in
the order of their first insertion: a map holds a key once. -/
def escapedKeys : List Bytes → List Bytes
  | [] => []
  | entry :: rest =>
    escapeString entry :: (escapedKeys rest).filter (fun k => k ≠ escapeString entry)

/-- The function `removeDuplicate` of `extractor.go`. The second loop ranges
over the map in an order that Go leaves open; the keys are taken here in the
order of their first insertion, and `sort.Strings` then orders them. -/
def removeDuplicate (slice : List Bytes) : List Bytes :=
  sortStrings (escapedKeys slice)

/-- The escaped form of one character in the words of the specification:
HTML escaping, with the apostrophe written as `&apos;` and the double quote
as `&quot;`. -/
def qtEscapeChar (c : Char) : Bytes :=
  if c = '&' then "&amp;".toList
  else if c = '<' then "&lt;".toList
  else if c = '>' then "&gt;".toList
  else if c = Char.ofNat 39 then "&apos;".toList
  else if c = Char.ofNat 34 then "&quot;".toList
  else [c]

/-- The escaped form of a string in the words of the specification. -/
def qtEscape (s : Bytes) : Bytes :=
  s.flatMap qtEscapeChar

/-- The escaped form of one character between the two `ReplaceAll` calls of
`escapeString`: the apostrophe is `&apos;` already, the double quote is
`&#34;` still. -/
def aposEscapeChar (c : Char) : Bytes :=
  if c = '&' then "&amp;".toList
  else if c = Char.ofNat 39 then "&apos;".toList
  else if c = '<' then "&lt;".toList
  else if c = '>' then "&gt;".toList
  else if c = Char.ofNat 34 then "&#34;".toList
  else [c]

end Ts

namespace Log

set_option maxRecDepth 100000

/-! ## Machine integers: values in range are not changed -/

theorem wrapInt64_eq (x : Int) (h1 : -(2 ^ 63) ≤ x) (h2 : x < 2 ^ 63) : wrapInt64 x = x := by
  unfold wrapInt64
  rw [Int.emod_eq_of_lt (by omega) (by omega)]
  omega

theorem wrapInt64_range (x : Int) : -(2 ^ 63) ≤ wrapInt64 x ∧ wrapInt64 x < 2 ^ 63 := by
  unfold wrapInt64
  have h1 := Int.emod_nonneg (x + 2 ^ 63) (show (2 ^ 64 : Int) ≠ 0 by norm_num)
  have h2 := Int.emod_lt_of_pos (x + 2 ^ 63) (show (0 : Int) < 2 ^ 64 by norm_num)
  constructor <;> omega

theorem wrapInt64_length (p : Bytes) (h : (p.length : Int) < 2 ^ 63) :
    wrapInt64 (p.length : Int) = p.length :=
  wrapInt64_eq _ (by have : (0 : Int) ≤ p.length := Int.ofNat_nonneg _; omega) h

theorem wrapInt_eq (intSize : IntSize) (x : Int) (h1 : -(2 ^ (intSize.bits - 1)) ≤ x)
    (h2 : x < 2 ^ (intSize.bits - 1)) : wrapInt intSize x = x := by
  cases intSize
  · simp only [IntSize.bits] at h1 h2
    norm_num at h1 h2
    simp only [wrapInt, IntSize.bits]
    norm_num
    rw [Int.emod_eq_of_lt (by omega) (by omega)]
    omega
  · simp only [IntSize.bits] at h1 h2
    norm_num at h1 h2
    simp only [wrapInt, IntSize.bits]
    norm_num
    rw [Int.emod_eq_of_lt (by omega) (by omega)]
    omega

theorem wrapInt64_add (a b : Int) : wrapInt64 (wrapInt64 a + b) = wrapInt64 (a + b) := by
  unfold wrapInt64
  omega

/-! ## Decimal numbers -/

theorem digitChar_toNat (d : Nat) (h : d < 10) : (Nat.digitChar d).toNat - 48 = d := by
  interval_cases d <;> rfl

theorem decimalValue_snoc (l : Bytes) (c : Char) :
    decimalValue (l ++ [c]) = 10 * decimalValue l + (c.toNat - 48) := by
  simp [decimalValue, List.foldl_append]

theorem toDigitsCore_spec (fuel : Nat) : ∀ (n : Nat) (ds : List Char), n < fuel →
    Nat.toDigitsCore 10 fuel n ds = Nat.toDigitsCore 10 fuel n [] ++ ds ∧
    decimalValue (Nat.toDigitsCore 10 fuel n []) = n := by
  induction fuel with
  | zero => intro n ds h; omega
  | succ fuel ih =>
    intro n ds h
    simp only [Nat.toDigitsCore]
    by_cases h0 : n / 10 = 0
    · have hn : n < 10 := by omega
      have hmod : n % 10 = n := Nat.mod_eq_of_lt hn
      simp only [h0, if_true, hmod]
      refine ⟨rfl, ?_⟩
      simpa [decimalValue] using digitChar_toNat n hn
    · have hlt : n / 10 < fuel := by omega
      simp only [h0, if_false]
      have h1 := (ih (n / 10) (Nat.digitChar (n % 10) :: ds) hlt).1
      have h2 := (ih (n / 10) [Nat.digitChar (n % 10)] hlt).1
      have h3 := (ih (n / 10) [] hlt).2
      refine ⟨?_, ?_⟩
      · rw [h1, h2]; simp
      · rw [h2, decimalValue_snoc, h3, digitChar_toNat _ (Nat.mod_lt _ (by decide))]
        omega

theorem decimalValue_Itoa (n : Nat) : decimalValue (Itoa n) = n :=
  (toDigitsCore_spec (n + 1) n [] (Nat.lt_succ_self n)).2

theorem Itoa_injective {n m : Nat} (h : Itoa n = Itoa m) : n = m := by
  have := congrArg decimalValue h
  rwa [decimalValue_Itoa, decimalValue_Itoa] at this

theorem withSuffix_injective (filename : Path) {n m : Nat}
    (h : withSuffix filename n = withSuffix filename m) : n = m := by
  simp only [withSuffix, Path.mk.injEq, true_and] at h
  exact Itoa_injective (List.append_cancel_left h)

/-! ## System calls and the trace -/

theorem FS.logAll_logAll (fs : FS) (a b : List Event) :
    (fs.logAll a).logAll b = fs.logAll (a ++ b) := by
  simp [FS.logAll]

theorem FS.find_logAll (fs : FS) (evs : List Event) (p : Path) :
    (fs.logAll evs).find p = fs.find p := rfl

theorem FS.mem_of_find (fs : FS) (p : Path) (h : fs.find p ≠ none) :
    p ∈ fs.nodes.map Prod.fst := by
  unfold FS.find at h
  cases hf : fs.nodes.find? (fun e => decide (e.1 = p)) with
  | none => simp [hf] at h
  | some e =>
    have hm := List.mem_of_find?_eq_some hf
    have hp := List.find?_some hf
    simp only [decide_eq_true_eq] at hp
    exact List.mem_map.mpr ⟨e, hm, hp⟩

theorem osStat_spec (p : Path) (fs : FS) :
    ∃ r e, osStat p fs = (r, fs.logAll [⟨.stat p, 0, e⟩]) ∧
      (∀ i, r = .ok i → fs.find p ≠ none) := by
  unfold osStat
  cases fs.fault with
  | some f => exact ⟨_, _, rfl, fun i h => by cases h⟩
  | none =>
    cases hf : fs.find p with
    | none => exact ⟨_, _, rfl, fun i h => by cases h⟩
    | some nd =>
      cases nd with
      | file c => exact ⟨_, _, rfl, fun i _ => by simp⟩
      | dir => exact ⟨_, _, rfl, fun i _ => by simp⟩

theorem fileClose_spec (h : Path) (fs : FS) :
    ∃ e, (fileClose h fs).1 = e ∧ (fileClose h fs).2.trace = fs.trace ++ [⟨.close h, 0, e⟩] := by
  unfold fileClose
  by_cases hm : h ∈ fs.opened
  · cases hf : fs.fault <;> simp [hm, FS.log, FS.setOpened]
  · simp [hm, FS.log]

theorem osRename_spec (src dst : Path) (fs : FS) :
    ∃ e, (osRename src dst fs).1 = e ∧
      (osRename src dst fs).2.trace = fs.trace ++ [⟨.rename src dst, 0, e⟩] := by
  unfold osRename
  cases fs.fault with
  | some f => exact ⟨_, rfl, rfl⟩
  | none =>
    cases fs.find src with
    | none => exact ⟨_, rfl, rfl⟩
    | some nd =>
      by_cases hsd : src = dst
      · simp [hsd, FS.log]
      · simp [hsd, FS.log, FS.setNodes]

theorem osRemove_spec (p : Path) (fs : FS) :
    (∃ e, osRemove p fs = (some e, fs.logAll [⟨.remove p, 0, some e⟩])) ∨
    osRemove p fs =
      (none, (fs.setNodes (fs.nodes.filter (fun e => e.1 ≠ p))).logAll [⟨.remove p, 0, none⟩]) := by
  unfold osRemove
  cases fs.fault with
  | some f => exact Or.inl ⟨_, rfl⟩
  | none =>
    cases fs.find p with
    | none => exact Or.inl ⟨_, rfl⟩
    | some nd =>
      simp only
      split
      · exact Or.inl ⟨_, rfl⟩
      · exact Or.inr rfl

theorem osOpenFile_spec (p : Path) (fs : FS) :
    (∃ e, (osOpenFile p fs).1 = .error e ∧
      (osOpenFile p fs).2.trace = fs.trace ++ [⟨.openFile p, 0, some e⟩]) ∨
    ((osOpenFile p fs).1 = .ok p ∧
      (osOpenFile p fs).2.trace = fs.trace ++ [⟨.openFile p, 0, none⟩]) := by
  unfold osOpenFile
  cases fs.fault with
  | some f => exact Or.inl ⟨_, rfl, rfl⟩
  | none =>
    by_cases hd : p.dir ∈ fs.dirs
    · cases hf : fs.find p with
      | none => simp [hd, FS.log, FS.setOpened, FS.setNodes]
      | some nd =>
        cases nd with
        | file c => simp [hd, FS.log, FS.setOpened]
        | dir => simp [hd, FS.log]
    · simp [hd, FS.log]

theorem fileWrite_spec (h : Path) (b : Bytes) (fs : FS) :
    ∃ (k : Nat) (e : Option Err), (fileWrite (some h) b fs).1 = ((k : Int), e) ∧
      (fileWrite (some h) b fs).2.trace = fs.trace ++ [⟨.write h b, k, e⟩] := by
  unfold fileWrite
  by_cases hm : h ∈ fs.opened
  · cases hf : fs.fault with
    | none => exact ⟨b.length, none, by simp [hm, FS.log, FS.append, FS.setNodes]⟩
    | some f => exact ⟨min f.accepted b.length, some f.err, by simp [hm, FS.log, FS.append, FS.setNodes]⟩
  · exact ⟨0, some ErrClosed, by simp [hm, FS.log]⟩

/-! ## The search of a free name ends -/

theorem appendSuffixLoop_spec (filename : Path) : ∀ (fuel suffix : Nat) (fs : FS),
    (∃ dst evs, appendSuffixLoop filename fuel suffix fs = some (dst, fs.logAll evs)) ∨
    (appendSuffixLoop filename fuel suffix fs = none ∧
      ∀ k, suffix < k → k ≤ suffix + fuel → fs.find (withSuffix filename k) ≠ none) := by
  intro fuel
  induction fuel with
  | zero =>
    intro suffix fs
    exact Or.inr ⟨rfl, fun k h1 h2 => by omega⟩
  | succ fuel ih =>
    intro suffix fs
    obtain ⟨r, e, hs, hok⟩ := osStat_spec (withSuffix filename (suffix + 1)) fs
    cases r with
    | error err => simp only [appendSuffixLoop, hs]; exact Or.inl ⟨_, _, rfl⟩
    | ok i =>
      simp only [appendSuffixLoop, hs]
      rcases ih (suffix + 1) (fs.logAll [⟨.stat (withSuffix filename (suffix + 1)), 0, e⟩]) with
        ⟨dst, evs, h⟩ | ⟨hnone, hall⟩
      · exact Or.inl ⟨dst, _, by rw [h, FS.logAll_logAll]⟩
      · refine Or.inr ⟨hnone, fun k h1 h2 => ?_⟩
        by_cases hk : k = suffix + 1
        · subst hk; exact hok i rfl
        · exact hall k (by omega) (by omega)

theorem appendSuffixLoop_terminates (filename : Path) (fs : FS) (evs0 : List Event) :
    ∃ dst evs, appendSuffixLoop filename (fs.nodes.length + 1) 0 (fs.logAll evs0) =
      some (dst, fs.logAll evs) := by
  rcases appendSuffixLoop_spec filename (fs.nodes.length + 1) 0 (fs.logAll evs0) with
    ⟨dst, evs, h⟩ | ⟨_, hall⟩
  · exact ⟨dst, _, by rw [h, FS.logAll_logAll]⟩
  · exfalso
    have hsub : (List.range (fs.nodes.length + 1)).map (fun i => withSuffix filename (i + 1)) ⊆
        fs.nodes.map Prod.fst := by
      intro p hp
      obtain ⟨i, hi, rfl⟩ := List.mem_map.mp hp
      have hi' := List.mem_range.mp hi
      exact FS.mem_of_find fs _ (hall (i + 1) (by omega) (by omega))
    have hnodup : ((List.range (fs.nodes.length + 1)).map
        (fun i => withSuffix filename (i + 1))).Nodup := by
      refine List.Nodup.map ?_ (List.nodup_range _)
      intro a b hab
      have := withSuffix_injective filename hab
      omega
    have hle := (hnodup.subperm hsub).length_le
    simp at hle

theorem appendSuffixToFile_terminates (src : Path) (fs : FS) :
    ∃ dst evs, appendSuffixToFile src fs = some (dst, fs.logAll evs) := by
  obtain ⟨r, e, hs, _⟩ := osStat_spec (rotatedName src fs.now) fs
  cases r with
  | error err => simp only [appendSuffixToFile, hs]; exact ⟨_, _, rfl⟩
  | ok i => simp only [appendSuffixToFile, hs]; exact appendSuffixLoop_terminates _ fs _

/-! ## `rotate`, `prune` and `Write` -/

theorem pruneLoop_trace (maxFiles : Int) : ∀ (history : List Path) (fs : FS),
    ∃ evs, (pruneLoop maxFiles history fs).2.2.trace = fs.trace ++ evs := by
  intro history
  induction history with
  | nil => intro fs; exact ⟨[], by simp [pruneLoop]⟩
  | cons h t ih =>
    intro fs
    unfold pruneLoop
    by_cases hc : ((h :: t).length : Int) ≥ maxFiles
    · simp only [hc, if_true]
      rcases osRemove_spec h fs with ⟨e, he⟩ | he
      · rw [he]; exact ⟨_, rfl⟩
      · rw [he]
        obtain ⟨evs, hevs⟩ := ih ((fs.setNodes (fs.nodes.filter (fun e => e.1 ≠ h))).logAll
          [⟨.remove h, 0, none⟩])
        exact ⟨⟨.remove h, 0, none⟩ :: evs, by rw [hevs]; simp [FS.logAll, FS.setNodes]⟩
    · simp only [hc, if_false]; exact ⟨[], by simp⟩

theorem prune_spec (w : RotateWriter) (fs : FS) :
    ∃ evs history, (w.prune fs).2.2.trace = fs.trace ++ evs ∧
      (w.prune fs).2.1 = { w with history := history } := by
  unfold RotateWriter.prune
  by_cases hneg : w.maxFiles < 0
  · simp only [hneg, if_true]; exact ⟨[], w.history, by simp, rfl⟩
  · simp only [hneg, if_false]
    obtain ⟨evs, h⟩ := pruneLoop_trace w.maxFiles w.history fs
    exact ⟨evs, _, h, rfl⟩

theorem report_none (w : RotateWriter) (line : Bytes) (fs : FS) (hf : w.file = none) :
    w.report line fs = (w.increaseSize 0, fs) := by
  simp [RotateWriter.report, hf, fileWrite]

theorem increaseSize_eq (w : RotateWriter) (n : Int) :
    w.increaseSize n = { w with size := (w.increaseSize n).size } := by
  unfold RotateWriter.increaseSize
  cases w.inBytes <;> simp

theorem rotate_spec (w : RotateWriter) (fs : FS) (h : Path) (hf : w.file = some h) :
    ∃ err size history fs1 e rest,
      w.rotate fs = some (err, { w with file := none, size := size, history := history }, fs1) ∧
      fs1.trace = fs.trace ++ ⟨.close h, 0, e⟩ :: rest := by
  obtain ⟨e, he1, he2⟩ := fileClose_spec h fs
  unfold RotateWriter.rotate
  simp only [hf]
  cases hc : fileClose h fs with
  | mk cerr fs1 =>
    rw [hc] at he1 he2
    simp only at he1 he2
    subst he1
    cases cerr with
    | some err => exact ⟨_, w.size, w.history, _, _, [], rfl, he2⟩
    | none =>
      simp only
      obtain ⟨r, e1, hs, _⟩ := osStat_spec w.filename fs1
      rw [hs]
      cases r with
      | error err =>
        exact ⟨_, 0, w.history, _, none, [⟨.stat w.filename, 0, e1⟩], rfl,
          by simp [FS.logAll, he2]⟩
      | ok info =>
        simp only
        obtain ⟨dst, evs, ha⟩ := appendSuffixToFile_terminates w.filename
          (fs1.logAll [⟨.stat w.filename, 0, e1⟩])
        rw [ha]
        simp only
        obtain ⟨e2, hr1, hr2⟩ := osRename_spec w.filename dst
          ((fs1.logAll [⟨.stat w.filename, 0, e1⟩]).logAll evs)
        cases hrn : osRename w.filename dst ((fs1.logAll [⟨.stat w.filename, 0, e1⟩]).logAll evs) with
        | mk rerr fs4 =>
          rw [hrn] at hr1 hr2
          simp only at hr1 hr2
          cases rerr with
          | some err =>
            exact ⟨_, 0, w.history, _, none,
              ⟨.stat w.filename, 0, e1⟩ :: (evs ++ [⟨.rename w.filename dst, 0, e2⟩]), rfl,
              by rw [hr2]; simp [FS.logAll, he2]⟩
          | none =>
            exact ⟨_, 0, w.history ++ [dst], _, none,
              ⟨.stat w.filename, 0, e1⟩ :: (evs ++ [⟨.rename w.filename dst, 0, e2⟩]), rfl,
              by rw [hr2]; simp [FS.logAll, he2]⟩

theorem rotateAndPrune_spec (w : RotateWriter) (fs : FS) (h : Path) (hf : w.file = some h) :
    ∃ size history fs1 e rest,
      w.rotateAndPrune fs = some ({ w with file := none, size := size, history := history }, fs1) ∧
      fs1.trace = fs.trace ++ ⟨.close h, 0, e⟩ :: rest := by
  obtain ⟨err, size, history, fs1, e, rest, hr, ht⟩ := rotate_spec w fs h hf
  unfold RotateWriter.rotateAndPrune
  rw [hr]
  simp only
  have key : ∀ (size2 : Int),
      ∃ size3 history3 fs3 rest3,
        (match RotateWriter.prune { w with file := none, size := size2, history := history } fs1 with
          | (some e, w3, fs3) =>
            some (w3.report ("failed to prune log file: ".toList ++ e ++ ['\n']) fs3)
          | (none, w3, fs3) => some (w3, fs3)) =
          some ({ w with file := none, size := size3, history := history3 }, fs3) ∧
        fs3.trace = fs1.trace ++ rest3 := by
    intro size2
    obtain ⟨evs, history3, hp1, hp2⟩ :=
      prune_spec { w with file := none, size := size2, history := history } fs1
    cases hp : RotateWriter.prune { w with file := none, size := size2, history := history } fs1 with
    | mk perr rest' =>
      cases rest' with
      | mk w3 fs3 =>
        rw [hp] at hp1 hp2
        simp only at hp1 hp2
        cases perr with
        | none => exact ⟨_, _, fs3, evs, by rw [hp2], hp1⟩
        | some e =>
          simp only
          have hnone : w3.file = none := by rw [hp2]
          rw [report_none _ _ _ hnone, increaseSize_eq, hp2]
          exact ⟨_, _, fs3, evs, rfl, hp1⟩
  cases err with
  | none =>
    simp only
    obtain ⟨size3, history3, fs3, rest3, h1, h2⟩ := key size
    exact ⟨size3, history3, fs3, e, rest ++ rest3, h1, by rw [h2, ht]; simp⟩
  | some e0 =>
    simp only
    rw [report_none _ _ _ rfl, increaseSize_eq]
    obtain ⟨size3, history3, fs3, rest3, h1, h2⟩ := key (RotateWriter.increaseSize
        { w with file := none, size := size, history := history } 0).size
    exact ⟨size3, history3, fs3, e, rest ++ rest3, h1, by rw [h2, ht]; simp⟩

/-- The last two steps of `Write`: open the target when no handle is there,
then write the payload. -/
theorem write_tail_spec (w1 : RotateWriter) (p : Bytes) (fs1 : FS) :
    ∃ r w' fs' opens last,
      (match (match w1.file with
          | none =>
            match osOpenFile w1.filename fs1 with
            | (.error err, fs2) => (some err, w1, fs2)
            | (.ok file, fs2) => (none, { w1 with file := some file }, fs2)
          | some _ => ((none : Option Err), w1, fs1)) with
      | (some err, w2, fs2) => some ((0, some err), w2, fs2)
      | (none, w2, fs2) =>
        match fileWrite w2.file p fs2 with
        | ((size, err), fs3) =>
          some ((size, err),
            (if w2.inBytes then w2.increaseSize size
             else { w2 with size := wrapInt64 (w2.size + lineCount p) }), fs3)) = some (r, w', fs') ∧
      fs'.trace = fs1.trace ++ opens ++ [last] ∧
      ((∃ e, last = ⟨.openFile w1.filename, 0, some e⟩ ∧ r = (0, some e)) ∨
        (∃ (h : Path) (k : Nat) (e : Option Err), last = ⟨.write h p, k, e⟩ ∧ r = ((k : Int), e))) ∧
      (∀ h, w1.file = some h → opens = [] ∧ ∃ (k : Nat) (e : Option Err), last = ⟨.write h p, k, e⟩) := by
  cases hf : w1.file with
  | some h =>
    simp only
    obtain ⟨k, e, hw1, hw2⟩ := fileWrite_spec h p fs1
    cases hw : fileWrite (some h) p fs1 with
    | mk res fs3 =>
      rw [hw] at hw1 hw2
      simp only at hw1 hw2
      subst hw1
      simp only [hf, hw]
      exact ⟨_, _, _, [], ⟨.write h p, k, e⟩, rfl, by simpa using hw2,
        Or.inr ⟨h, k, e, rfl, rfl⟩, fun h' hh => ⟨rfl, k, e, by cases hh; rfl⟩⟩
  | none =>
    simp only
    cases ho : osOpenFile w1.filename fs1 with
    | mk ores fs2 =>
      rcases osOpenFile_spec w1.filename fs1 with ⟨e, h1, h2⟩ | ⟨h1, h2⟩
      · rw [ho] at h1 h2
        simp only at h1 h2
        subst h1
        simp only
        exact ⟨_, _, _, [], ⟨.openFile w1.filename, 0, some e⟩, rfl, by simpa using h2,
          Or.inl ⟨e, rfl, rfl⟩, fun h' hh => by cases hh⟩
      · rw [ho] at h1 h2
        simp only at h1 h2
        subst h1
        simp only
        obtain ⟨k, e, hw1, hw2⟩ := fileWrite_spec w1.filename p fs2
        cases hw : fileWrite (some w1.filename) p fs2 with
        | mk res fs3 =>
          rw [hw] at hw1 hw2
          simp only at hw1 hw2
          subst hw1
          simp only
          exact ⟨_, _, _, [⟨.openFile w1.filename, 0, none⟩], ⟨.write w1.filename p, k, e⟩, rfl,
            by rw [hw2, h2], Or.inr ⟨_, k, e, rfl, rfl⟩, fun h' hh => by cases hh⟩

/-- Every call of `Write` with a retention other than 0 returns; its system
calls end with the failed open or with the write of the payload, whose outcome
is the result, and they start with the close of the handle exactly when the
threshold is reached. -/
theorem Write_spec (w : RotateWriter) (p : Bytes) (fs : FS) (hm : w.maxFiles ≠ 0) :
    ∃ r w' fs' evs last,
      w.Write p fs = some (r, w', fs') ∧
      fs'.trace = fs.trace ++ evs ++ [last] ∧
      ((∃ e, last = ⟨.openFile w.filename, 0, some e⟩ ∧ r = (0, some e)) ∨
        (∃ (h : Path) (k : Nat) (e : Option Err), last = ⟨.write h p, k, e⟩ ∧ r = ((k : Int), e))) ∧
      (∀ h, w.file = some h →
        (0 < w.maxSize ∧ w.maxSize ≤ w.size → ∃ e rest, evs = ⟨.close h, 0, e⟩ :: rest) ∧
        (¬ (0 < w.maxSize ∧ w.maxSize ≤ w.size) → evs = [] ∧ ∃ (k : Nat) (e : Option Err), last = ⟨.write h p, k, e⟩)) := by
  unfold RotateWriter.Write
  simp only [hm, if_false]
  by_cases hc : w.maxSize > 0 ∧ w.size ≥ w.maxSize ∧ w.file ≠ none
  · rw [if_pos hc]
    obtain ⟨h, hf⟩ : ∃ h, w.file = some h := Option.ne_none_iff_exists'.mp hc.2.2
    obtain ⟨size, history, fs1, e, rest, hr, ht⟩ := rotateAndPrune_spec w fs h hf
    rw [hr]
    simp only
    obtain ⟨r, w', fs', opens, last, h1, h2, h3, _⟩ :=
      write_tail_spec { w with file := none, size := size, history := history } p fs1
    refine ⟨r, w', fs', ⟨.close h, 0, e⟩ :: rest ++ opens, last, h1, ?_, h3, ?_⟩
    · rw [h2, ht]; simp
    · intro h' hh
      rw [hf] at hh
      cases hh
      exact ⟨fun _ => ⟨e, rest ++ opens, by simp⟩, fun hn => absurd ⟨hc.1, hc.2.1⟩ hn⟩
  · rw [if_neg hc]
    obtain ⟨r, w', fs', opens, last, h1, h2, h3, h4⟩ := write_tail_spec w p fs
    refine ⟨r, w', fs', opens, last, h1, h2, h3, ?_⟩
    intro h hh
    refine ⟨fun hcond => absurd ⟨hcond.1, hcond.2, by rw [hh]; simp⟩ hc, fun _ => h4 h hh⟩

theorem filepathExt_suffix : ∀ b : Bytes, filepathExt b <:+ b
  | [] => by simp [filepathExt]
  | c :: cs => by
    have ih := filepathExt_suffix cs
    unfold filepathExt
    split
    · split
      · exact List.suffix_refl _
      · exact List.nil_suffix
    · exact ih.trans (List.suffix_cons c cs)

theorem TrimSuffix_append (s suffix : Bytes) (h : suffix <:+ s) :
    TrimSuffix s suffix ++ suffix = s := by
  obtain ⟨t, rfl⟩ := h
  simp [TrimSuffix]

theorem rotatedName_ne (target : Path) (now : Time) : rotatedName target now ≠ target := by
  intro h
  have hb := congrArg Path.base h
  simp only [rotatedName] at hb
  have hl := congrArg List.length hb
  have hs := congrArg List.length (TrimSuffix_append target.base _ (filepathExt_suffix target.base))
  simp only [List.length_append, List.length_cons, List.length_nil] at hl hs
  omega

/-- Two writes on an empty target whose threshold is the length of the first
payload: the second write rotates. The lengths are those of Go slices, below
`2^63`. -/
theorem rotation_scenario (p1 p2 : Bytes) (target : Path) (dirs : List Bytes) (opened : List Path)
    (now : Time) (trace : List Event) (hp : p1 ≠ []) (ho : target ∈ opened)
    (hd : target.dir ∈ dirs) (hb1 : (p1.length : Int) < 2 ^ 63)
    (hb2 : (p2.length : Int) < 2 ^ 63) :
    RotateWriter.WriteAll [p1, p2] ⟨target, 2, p1.length, 0, true, some target, []⟩
        ⟨dirs, [(target, .file [])], opened, now, [], trace⟩ =
      some ([((p1.length : Int), none), ((p2.length : Int), none)],
        ⟨target, 2, p1.length, p2.length, true, some target, [rotatedName target now]⟩,
        ⟨dirs, [(rotatedName target now, .file p1), (target, .file p2)],
          target :: opened.erase target, now, [],
          trace ++ [⟨.write target p1, p1.length, none⟩, ⟨.close target, 0, none⟩,
            ⟨.stat target, 0, none⟩, ⟨.stat (rotatedName target now), 0, some ErrNotExist⟩,
            ⟨.rename target (rotatedName target now), 0, none⟩, ⟨.openFile target, 0, none⟩,
            ⟨.write target p2, p2.length, none⟩]⟩) := by
  have hne := rotatedName_ne target now
  have hne' : target ≠ _ := hne.symm
  have hlen : 0 < p1.length := List.length_pos.mpr hp
  have hlen' : ¬ ((p1.length : Int) ≤ 0) := by omega
  have hw1 := wrapInt64_length p1 hb1
  have hw2 := wrapInt64_length p2 hb2
  simp [RotateWriter.WriteAll, RotateWriter.Write, RotateWriter.rotateAndPrune, RotateWriter.rotate,
    RotateWriter.prune, pruneLoop, RotateWriter.increaseSize, fileWrite, fileClose, osStat,
    osRename, osOpenFile, appendSuffixToFile, FS.fault, FS.find, FS.log, FS.append, FS.setNodes,
    FS.setOpened, ho, hd, hne, hne', hlen', hlen, hw1, hw2]

/-- The constructor over an empty directory leaves the empty target open. -/
theorem NewRotateWriter_on_empty_directory :
    NewRotateWriter exTarget 2 12 "bytes".toList true
        ⟨["tmp".toList], [], [], exClock, [], []⟩ =
      some (.ok ⟨exTarget, 2, 12, 0, true, some exTarget, []⟩,
        ⟨["tmp".toList], [(exTarget, .file [])], [exTarget], exClock, [],
          [⟨.readDir "tmp".toList, 0, none⟩, ⟨.stat exTarget, 0, some ErrNotExist⟩,
            ⟨.openFile exTarget, 0, none⟩, ⟨.write exTarget [], 0, none⟩]⟩) := by
  decide

theorem pruneLoop_ok (maxFiles : Int) (hm : 0 ≤ maxFiles) :
    ∀ (history : List Path) (fs : FS) (history1 : List Path) (fs1 : FS),
      pruneLoop maxFiles history fs = (none, history1, fs1) →
      ∃ removed,
        history = removed ++ history1 ∧
        history1.length = min history.length (max (maxFiles - 1) 0).toNat ∧
        fs1 = (fs.setNodes (fs.nodes.filter (fun e => e.1 ∉ removed))).logAll
          (removed.map (fun p => ⟨.remove p, 0, none⟩)) := by
  intro history
  induction history with
  | nil =>
    intro fs history1 fs1 h
    simp only [pruneLoop, Prod.mk.injEq, true_and] at h
    obtain ⟨rfl, rfl⟩ := h
    exact ⟨[], rfl, by simp, by simp [FS.setNodes, FS.logAll]⟩
  | cons a t ih =>
    intro fs history1 fs1 h
    unfold pruneLoop at h
    by_cases hc : ((a :: t).length : Int) ≥ maxFiles
    · rw [if_pos hc] at h
      rcases osRemove_spec a fs with ⟨e, he⟩ | he
      · rw [he] at h; simp at h
      · rw [he] at h
        simp only at h
        obtain ⟨removed, h1, h2, h3⟩ := ih _ _ _ h
        refine ⟨a :: removed, by rw [h1]; rfl, ?_, ?_⟩
        · rw [h2]
          simp only [List.length_cons, Nat.cast_add, Nat.cast_one] at hc ⊢
          omega
        · rw [h3]
          simp only [FS.setNodes, FS.logAll, List.filter_filter, List.map_cons, List.append_assoc,
            List.singleton_append, FS.mk.injEq, true_and, and_true]
          refine List.filter_congr (fun e _ => ?_)
          by_cases h1 : e.1 = a <;> by_cases h2 : e.1 ∈ removed <;> simp [h1, h2]
    · rw [if_neg hc] at h
      simp only [Prod.mk.injEq, true_and] at h
      obtain ⟨rfl, rfl⟩ := h
      refine ⟨[], rfl, ?_, by simp [FS.setNodes, FS.logAll]⟩
      simp only [List.length_cons, Nat.cast_add, Nat.cast_one] at hc ⊢
      omega

theorem find_filter_ne (nodes : List (Path × Node)) (p h : Path) (hne : p ≠ h) :
    (nodes.filter (fun e => e.1 ≠ h)).find? (fun e => e.1 = p) =
      nodes.find? (fun e => e.1 = p) := by
  induction nodes with
  | nil => rfl
  | cons e t ih =>
    by_cases he : e.1 = h
    · have h1 : decide (e.1 ≠ h) = false := by simp [he]
      have h2 : decide (e.1 = p) = false := by
        simp only [decide_eq_false_iff_not]
        exact fun hp => hne (hp.symm.trans he)
      rw [List.filter_cons, h1, List.find?_cons, h2]
      exact ih
    · have h1 : decide (e.1 ≠ h) = true := by simp [he]
      rw [List.filter_cons, h1]
      simp only [if_true, List.find?_cons]
      rw [ih]

theorem pruneLoop_keeps (maxFiles : Int) (p : Path) : ∀ (history : List Path) (fs : FS),
    p ∉ history → (pruneLoop maxFiles history fs).2.2.find p = fs.find p
  | [], fs, _ => by simp [pruneLoop]
  | h :: t, fs, hp => by
    have hne : p ≠ h := fun e => hp (by simp [e])
    have hpt : p ∉ t := fun e => hp (by simp [e])
    unfold pruneLoop
    by_cases hc : ((h :: t).length : Int) ≥ maxFiles
    · rw [if_pos hc]
      rcases osRemove_spec h fs with ⟨e, he⟩ | he
      · rw [he]; rfl
      · rw [he]
        simp only
        rw [pruneLoop_keeps maxFiles p t _ hpt]
        simp only [FS.find, FS.logAll, FS.setNodes]
        rw [find_filter_ne _ _ _ hne]
    · rw [if_neg hc]

/-- Pruning leaves every path that is not in the history as it was. -/
theorem RotateWriter.prune_keeps_unlisted (w : RotateWriter) (fs : FS) (p : Path)
    (hp : p ∉ w.history) : (w.prune fs).2.2.find p = fs.find p := by
  unfold RotateWriter.prune
  by_cases hneg : w.maxFiles < 0
  · rw [if_pos hneg]
  · rw [if_neg hneg]
    exact pruneLoop_keeps w.maxFiles p w.history fs hp

/-! ## The pattern of `populate` -/

theorem mem_matches_comp (P Q : RegularExpression Char) (x : Bytes) :
    x ∈ (RegularExpression.comp P Q).matches' ↔
      ∃ a ∈ P.matches', ∃ b ∈ Q.matches', a ++ b = x := by
  rw [RegularExpression.matches', Language.mem_mul]

theorem mem_matches_char (c : Char) (x : Bytes) :
    x ∈ (RegularExpression.char c).matches' ↔ x = [c] := by
  rw [RegularExpression.matches'_char]; rfl

theorem mem_matches_charClass (l : List Char) (x : Bytes) :
    x ∈ (l.foldr (fun c r => RegularExpression.plus (.char c) r) .zero).matches' ↔
      ∃ c ∈ l, x = [c] := by
  induction l with
  | nil => simp [RegularExpression.matches', Language.not_mem_zero]
  | cons a l ih =>
    simp only [List.foldr_cons, RegularExpression.matches', Language.mem_add, List.mem_cons]
    rw [show x ∈ ({[a]} : Language Char) ↔ x = [a] from Iff.rfl]
    erw [ih]
    constructor
    · rintro (h | ⟨c, hc, h⟩)
      · exact ⟨a, Or.inl rfl, h⟩
      · exact ⟨c, Or.inr hc, h⟩
    · rintro ⟨c, (rfl | hc), h⟩
      · exact Or.inl h
      · exact Or.inr ⟨c, hc, h⟩

theorem mem_matches_reDigit (x : Bytes) :
    x ∈ reDigit.matches' ↔ ∃ c ∈ decimalDigits, x = [c] :=
  mem_matches_charClass _ x

theorem mem_matches_reRepeat_digit (n : Nat) : ∀ x : Bytes,
    x ∈ (reRepeat reDigit n).matches' ↔ x.length = n ∧ ∀ c ∈ x, c ∈ decimalDigits := by
  induction n with
  | zero =>
    intro x
    simp only [reRepeat, RegularExpression.matches', Language.mem_one]
    constructor
    · rintro rfl; simp
    · rintro ⟨h, _⟩; exact List.length_eq_zero.mp h
  | succ n ih =>
    intro x
    simp only [reRepeat]
    rw [mem_matches_comp]
    constructor
    · rintro ⟨a, ha, b, hb, rfl⟩
      obtain ⟨c, hc, rfl⟩ := (mem_matches_reDigit a).mp ha
      obtain ⟨hl, hall⟩ := (ih b).mp hb
      refine ⟨by simp [hl], ?_⟩
      intro d hd
      simp only [List.singleton_append, List.mem_cons] at hd
      rcases hd with rfl | hd
      · exact hc
      · exact hall d hd
    · rintro ⟨hl, hall⟩
      cases x with
      | nil => simp at hl
      | cons c t =>
        refine ⟨[c], (mem_matches_reDigit _).mpr ⟨c, hall c (by simp), rfl⟩, t,
          (ih t).mpr ⟨by simpa using hl, fun d hd => hall d (by simp [hd])⟩, rfl⟩

theorem mem_matches_reLiteral (s : Bytes) : ∀ x : Bytes,
    x ∈ (reLiteral s).matches' ↔ x = s := by
  induction s with
  | nil => intro x; simp [reLiteral, RegularExpression.matches', Language.mem_one]
  | cons c s ih =>
    intro x
    have : reLiteral (c :: s) = .comp (.char c) (reLiteral s) := rfl
    rw [this, mem_matches_comp]
    constructor
    · rintro ⟨a, ha, b, hb, rfl⟩
      rw [(mem_matches_char c a).mp ha, (ih b).mp hb]; rfl
    · rintro rfl
      exact ⟨[c], (mem_matches_char c _).mpr rfl, s, (ih s).mpr rfl, rfl⟩

theorem mem_matches_star_digit (x : Bytes) :
    x ∈ (RegularExpression.star reDigit).matches' ↔ ∀ c ∈ x, c ∈ decimalDigits := by
  rw [RegularExpression.matches', Language.mem_kstar]
  constructor
  · rintro ⟨L, rfl, hL⟩ c hc
    obtain ⟨y, hy, hcy⟩ := List.mem_flatten.mp hc
    obtain ⟨d, hd, rfl⟩ := (mem_matches_reDigit y).mp (hL y hy)
    simp only [List.mem_singleton] at hcy
    subst hcy
    exact hd
  · intro hall
    refine ⟨x.map (fun c => [c]), ?_, ?_⟩
    · have hflat : ∀ l : Bytes, l = (l.map (fun c => [c])).flatten := by
        intro l
        induction l with
        | nil => rfl
        | cons c t ih => simpa using ih
      exact hflat x
    · intro y hy
      obtain ⟨c, hc, rfl⟩ := List.mem_map.mp hy
      exact (mem_matches_reDigit _).mpr ⟨c, hall c hc, rfl⟩

theorem mem_matches_group (y : Bytes) :
    y ∈ (RegularExpression.comp (.char '.') (.comp reDigit (.star reDigit))).matches' ↔
      ∃ ds, y = '.' :: ds ∧ ds ≠ [] ∧ ∀ c ∈ ds, c ∈ decimalDigits := by
  rw [mem_matches_comp]
  constructor
  · rintro ⟨a, ha, b, hb, rfl⟩
    rw [(mem_matches_char _ a).mp ha]
    obtain ⟨d, hd, e, he, rfl⟩ := (mem_matches_comp _ _ b).mp hb
    obtain ⟨c, hc, rfl⟩ := (mem_matches_reDigit d).mp hd
    refine ⟨[c] ++ e, rfl, by simp, ?_⟩
    intro c' hc'
    simp only [List.singleton_append, List.mem_cons] at hc'
    rcases hc' with rfl | hc'
    · exact hc
    · exact (mem_matches_star_digit e).mp he c' hc'
  · rintro ⟨ds, rfl, hne, hall⟩
    cases ds with
    | nil => exact absurd rfl hne
    | cons c t =>
      refine ⟨['.'], (mem_matches_char _ _).mpr rfl, c :: t, ?_, rfl⟩
      exact (mem_matches_comp _ _ _).mpr ⟨[c], (mem_matches_reDigit _).mpr ⟨c, hall c (by simp), rfl⟩,
        t, (mem_matches_star_digit t).mpr (fun d hd => hall d (by simp [hd])), rfl⟩

/-- The compiled pattern accepts exactly the names the specification
describes. -/
theorem rmatch_rotated_iff (stem name : Bytes) :
    (RegularExpression.comp (reLiteral stem) reRotatedTail).rmatch name = true ↔
      IsRotatedName stem name := by
  rw [RegularExpression.rmatch_iff_matches', mem_matches_comp]
  unfold reRotatedTail IsRotatedName
  constructor
  · rintro ⟨a, ha, b, hb, rfl⟩
    rw [(mem_matches_reLiteral stem a).mp ha]
    obtain ⟨b1, h1, b2, hb2, rfl⟩ := (mem_matches_comp _ _ b).mp hb
    obtain ⟨date, hdate, b3, hb3, rfl⟩ := (mem_matches_comp _ _ b2).mp hb2
    obtain ⟨b4, h4, b5, hb5, rfl⟩ := (mem_matches_comp _ _ b3).mp hb3
    obtain ⟨time, htime, b6, hb6, rfl⟩ := (mem_matches_comp _ _ b5).mp hb5
    obtain ⟨b7, h7, b8, hb8, rfl⟩ := (mem_matches_comp _ _ b6).mp hb6
    rw [(mem_matches_char _ b1).mp h1, (mem_matches_char _ b4).mp h4,
      (mem_matches_reLiteral _ b7).mp h7]
    obtain ⟨hd1, hd2⟩ := (mem_matches_reRepeat_digit 8 date).mp hdate
    obtain ⟨ht1, ht2⟩ := (mem_matches_reRepeat_digit 6 time).mp htime
    rw [RegularExpression.matches', Language.mem_kstar] at hb8
    obtain ⟨groups, rfl, hg⟩ := hb8
    refine ⟨date, time, groups, by simp, hd1, hd2, ht1, ht2, ?_⟩
    intro g hgm
    exact (mem_matches_group g).mp (hg g hgm)
  · rintro ⟨date, time, groups, rfl, hd1, hd2, ht1, ht2, hg⟩
    refine ⟨stem, (mem_matches_reLiteral stem stem).mpr rfl,
      ['.'] ++ (date ++ (['T'] ++ (time ++ (".log".toList ++ groups.flatten)))), ?_, by simp⟩
    refine (mem_matches_comp _ _ _).mpr ⟨['.'], (mem_matches_char _ _).mpr rfl, _, ?_, rfl⟩
    refine (mem_matches_comp _ _ _).mpr ⟨date, (mem_matches_reRepeat_digit 8 date).mpr ⟨hd1, hd2⟩,
      _, ?_, rfl⟩
    refine (mem_matches_comp _ _ _).mpr ⟨['T'], (mem_matches_char _ _).mpr rfl, _, ?_, rfl⟩
    refine (mem_matches_comp _ _ _).mpr ⟨time, (mem_matches_reRepeat_digit 6 time).mpr ⟨ht1, ht2⟩,
      _, ?_, rfl⟩
    refine (mem_matches_comp _ _ _).mpr ⟨".log".toList, (mem_matches_reLiteral _ _).mpr rfl,
      _, ?_, rfl⟩
    rw [RegularExpression.matches', Language.mem_kstar]
    exact ⟨groups, rfl, fun g hgm => (mem_matches_group g).mpr (hg g hgm)⟩

theorem cutQuote_append (rest : Bytes) : ∀ stem : Bytes, cutQuote stem = none →
    cutQuote (stem ++ '\\' :: 'E' :: rest) = some (stem, rest)
  | [], _ => by simp [cutQuote]
  | c :: t, h => by
    unfold cutQuote at h
    by_cases hc : c = '\\' ∧ t.head? = some 'E'
    · rw [if_pos hc] at h; cases h
    · rw [if_neg hc] at h
      have ht : cutQuote t = none := by
        cases hq : cutQuote t with
        | none => rfl
        | some r => rw [hq] at h; cases h
      have ih := cutQuote_append rest t ht
      have hc' : ¬ (c = '\\' ∧ (t ++ '\\' :: 'E' :: rest).head? = some 'E') := by
        cases t with
        | nil => simp
        | cons c' t' => simpa using hc
      rw [List.cons_append]
      unfold cutQuote
      rw [if_neg hc', ih]
      rfl

theorem compilePattern_of_quotable (stem : Bytes) (h : cutQuote stem = none)
    (hv : validUTF8 stem = true) :
    compilePattern stem = .regex (.comp (reLiteral stem) reRotatedTail) := by
  unfold compilePattern
  rw [if_neg (by rw [hv]; simp)]
  have : stem ++ "\\E".toList ++ rotatedTailText = stem ++ '\\' :: 'E' :: rotatedTailText := by
    simp
  rw [this, cutQuote_append _ stem h]
  simp

theorem populateLoop_eq (re : RegularExpression Char) (dir : Bytes) :
    ∀ (entries : List Bytes) (history : List Path),
      populateLoop re dir entries history =
        history ++ (entries.filter (fun n => re.rmatch n)).map (fun n => ⟨dir, n⟩)
  | [], history => by simp [populateLoop]
  | name :: entries, history => by
    unfold populateLoop
    by_cases hm : re.rmatch name = true
    · rw [if_pos hm, populateLoop_eq re dir entries]
      simp [List.filter_cons, hm]
    · rw [if_neg hm, populateLoop_eq re dir entries]
      simp [List.filter_cons, hm]

theorem filepathExt_log : ∀ stem : Bytes, filepathExt (stem ++ ".log".toList) = ".log".toList
  | [] => by decide
  | c :: t => by
    have ih := filepathExt_log t
    rw [List.cons_append]
    unfold filepathExt
    rw [ih]
    rfl

theorem TrimSuffix_log (stem : Bytes) :
    TrimSuffix (stem ++ ".log".toList) (filepathExt (stem ++ ".log".toList)) = stem := by
  rw [filepathExt_log]
  simp [TrimSuffix]

/-- Discovery for a target `<stem>.log` whose stem is valid UTF-8 and holds
no `\E`: the entries
of the listing that are rotated names of the stem are appended to the
history, in the order of the listing, and no other. -/
theorem RotateWriter.populate_discovers (w : RotateWriter) (fs fs1 : FS) (stem : Bytes)
    (entries : List Bytes) (hb : w.filename.base = stem ++ ".log".toList)
    (hq : cutQuote stem = none) (hv : validUTF8 stem = true)
    (hr : ioutilReadDir w.filename.dir fs = (.ok entries, fs1)) :
    ∃ keep : Bytes → Bool,
      (∀ name, keep name = true ↔ IsRotatedName stem name) ∧
      w.populate fs =
        (.ok { w with history := w.history ++
            (entries.filter keep).map (fun name => ⟨w.filename.dir, name⟩) }, fs1) := by
  refine ⟨fun name => (RegularExpression.comp (reLiteral stem) reRotatedTail).rmatch name,
    fun name => rmatch_rotated_iff stem name, ?_⟩
  unfold RotateWriter.populate
  rw [hr, hb, TrimSuffix_log, compilePattern_of_quotable stem hq hv]
  simp only [populateLoop_eq]

/-- Discovery over the directory of the test `testRelisting`: the two rotated
files are listed, the three unrelated ones are not. -/
theorem RotateWriter.populate_relists_test_directory :
    RotateWriter.populate ⟨exTarget, 3, 3, 0, true, none, []⟩
        ⟨["tmp".toList],
          [(⟨"tmp".toList, "unrelated_filename.20130916T115503.log".toList⟩, .file []),
           (⟨"tmp".toList, "filename.20130916T115501.log".toList⟩, .file []),
           (⟨"tmp".toList, "filename.20130916T115503.log_unrelated".toList⟩, .file []),
           (⟨"tmp".toList, "unrelated_1.20130916T115503.log".toList⟩, .file []),
           (⟨"tmp".toList, "filename.20130916T115500.log".toList⟩, .file [])],
          [], exClock, [], []⟩ =
      (.ok ⟨exTarget, 3, 3, 0, true, none,
          [⟨"tmp".toList, "filename.20130916T115500.log".toList⟩,
           ⟨"tmp".toList, "filename.20130916T115501.log".toList⟩]⟩,
        ⟨["tmp".toList],
          [(⟨"tmp".toList, "unrelated_filename.20130916T115503.log".toList⟩, .file []),
           (⟨"tmp".toList, "filename.20130916T115501.log".toList⟩, .file []),
           (⟨"tmp".toList, "filename.20130916T115503.log_unrelated".toList⟩, .file []),
           (⟨"tmp".toList, "unrelated_1.20130916T115503.log".toList⟩, .file []),
           (⟨"tmp".toList, "filename.20130916T115500.log".toList⟩, .file [])],
          [], exClock, [], [⟨.readDir "tmp".toList, 0, none⟩]⟩) := by
  decide

/-! ## `CollapsingWriter`: runs -/

/-- C1. A `RotateWriter` with a threshold above 0, a retention other than 0
and an open handle `h` rotates before it writes exactly when the size has
reached the threshold: every `Write` returns, and its system calls start with
the close of `h` (the first act of `rotate`) if and only if
`maxSize ≤ size`; below the threshold the only system call is the write of the
payload. Consequently two writes `p1`, `p2` on an empty target with retention
2 and threshold `len(p1)` both return the full length and leave exactly two
files: the rotated sibling with `p1` and the active file with `p2`; the
lengths are those of Go slices, below `2^63`, so that they are `int64` values
as they stand. -/
theorem RotateWriter.write_rotates_iff_threshold_reached :
    (∀ (w : RotateWriter) (p : Bytes) (fs : FS) (h : Path),
      0 < w.maxSize → w.maxFiles ≠ 0 → w.file = some h →
      ∃ r w1 fs1 evs,
        w.Write p fs = some (r, w1, fs1) ∧ fs1.trace = fs.trace ++ evs ∧
        (w.maxSize ≤ w.size ↔ ∃ e rest, evs = ⟨.close h, 0, e⟩ :: rest) ∧
        (w.size < w.maxSize → ∃ (k : Nat) (e : Option Err), evs = [⟨.write h p, k, e⟩])) ∧
    (∀ (p1 p2 : Bytes) (target : Path) (dirs : List Bytes) (opened : List Path) (now : Time)
        (trace : List Event),
      p1 ≠ [] → target ∈ opened → target.dir ∈ dirs →
      (p1.length : Int) < 2 ^ 63 → (p2.length : Int) < 2 ^ 63 →
      RotateWriter.WriteAll [p1, p2] ⟨target, 2, p1.length, 0, true, some target, []⟩
          ⟨dirs, [(target, .file [])], opened, now, [], trace⟩ =
        some ([((p1.length : Int), none), ((p2.length : Int), none)],
          ⟨target, 2, p1.length, p2.length, true, some target, [rotatedName target now]⟩,
          ⟨dirs, [(rotatedName target now, .file p1), (target, .file p2)],
            target :: opened.erase target, now, [],
            trace ++ [⟨.write target p1, p1.length, none⟩, ⟨.close target, 0, none⟩,
              ⟨.stat target, 0, none⟩, ⟨.stat (rotatedName target now), 0, some ErrNotExist⟩,
              ⟨.rename target (rotatedName target now), 0, none⟩, ⟨.openFile target, 0, none⟩,
              ⟨.write target p2, p2.length, none⟩]⟩)) := by
  refine ⟨?_, fun p1 p2 target dirs opened now trace hp ho hd hb1 hb2 =>
    rotation_scenario p1 p2 target dirs opened now trace hp ho hd hb1 hb2⟩
  intro w p fs h hT hm hf
  obtain ⟨r, w1, fs1, evs, last, h1, h2, _, h4⟩ := Write_spec w p fs hm
  obtain ⟨hyes, hno⟩ := h4 h hf
  refine ⟨r, w1, fs1, evs ++ [last], h1, by rw [h2, List.append_assoc], ?_, ?_⟩
  · constructor
    · intro hle
      obtain ⟨e, rest, hr⟩ := hyes ⟨hT, hle⟩
      exact ⟨e, rest ++ [last], by rw [hr]; rfl⟩
    · rintro ⟨e, rest, hr⟩
      by_contra hlt
      obtain ⟨hnil, k, e', hl⟩ := hno (fun hc => hlt hc.2)
      rw [hnil, hl] at hr
      simp at hr
  · intro hlt
    obtain ⟨hnil, k, e', hl⟩ := hno (fun hc => absurd hc.2 (by omega))
    exact ⟨k, e', by rw [hnil, hl]; rfl⟩

theorem RotateWriter.write_rotates_iff_threshold_reached_witness :
    ((0 : Int) < 12 ∧ (2 : Int) ≠ 0 ∧
      ∃ r w1 fs1 evs,
        RotateWriter.Write ⟨exTarget, 2, 12, 12, true, some exTarget, []⟩ "some content".toList
            ⟨["tmp".toList], [(exTarget, .file "some content".toList)], [exTarget], exClock, [],
              []⟩ = some (r, w1, fs1) ∧
        fs1.trace = [] ++ evs ∧
        ((12 : Int) ≤ 12 ↔ ∃ e rest, evs = ⟨.close exTarget, 0, e⟩ :: rest) ∧
        ((12 : Int) < 12 → ∃ (k : Nat) (e : Option Err),
          evs = [⟨.write exTarget "some content".toList, k, e⟩])) ∧
    ("some content".toList ≠ [] ∧ exTarget ∈ [exTarget] ∧ exTarget.dir ∈ ["tmp".toList] ∧
      ("some content".toList.length : Int) < 2 ^ 63 ∧
      RotateWriter.WriteAll ["some content".toList, "some content".toList]
          ⟨exTarget, 2, 12, 0, true, some exTarget, []⟩
          ⟨["tmp".toList], [(exTarget, .file [])], [exTarget], exClock, [], []⟩ =
        some ([(12, none), (12, none)],
          ⟨exTarget, 2, 12, 12, true, some exTarget,
            [⟨"tmp".toList, "filename.20130916T115500.log".toList⟩]⟩,
          ⟨["tmp".toList],
            [(⟨"tmp".toList, "filename.20130916T115500.log".toList⟩, .file "some content".toList),
             (exTarget, .file "some content".toList)],
            [exTarget], exClock, [],
            [⟨.write exTarget "some content".toList, 12, none⟩, ⟨.close exTarget, 0, none⟩,
              ⟨.stat exTarget, 0, none⟩,
              ⟨.stat ⟨"tmp".toList, "filename.20130916T115500.log".toList⟩, 0, some ErrNotExist⟩,
              ⟨.rename exTarget ⟨"tmp".toList, "filename.20130916T115500.log".toList⟩, 0, none⟩,
              ⟨.openFile exTarget, 0, none⟩,
              ⟨.write exTarget "some content".toList, 12, none⟩]⟩)) :=
  ⟨⟨by decide, by decide,
      RotateWriter.write_rotates_iff_threshold_reached.1
        ⟨exTarget, 2, 12, 12, true, some exTarget, []⟩ "some content".toList
        ⟨["tmp".toList], [(exTarget, .file "some content".toList)], [exTarget], exClock, [], []⟩
        exTarget (by decide) (by decide) rfl⟩,
    ⟨by decide, by decide, by decide, by decide,
      RotateWriter.write_rotates_iff_threshold_reached.2
        "some content".toList "some content".toList exTarget ["tmp".toList] [exTarget] exClock []
        (by decide) (by decide) (by decide) (by decide) (by decide)⟩⟩

/-- C2. When `prune` returns no error on a retention `maxFiles ≥ 0`, the
history splits in a removed front part and a kept rest: the rest is the new
history, its length is `min(len(history), max(maxFiles - 1, 0))`, which is at
most `maxFiles`; the files removed from disk are exactly those of the front
part, deleted in the order of the history, and nothing else changes. -/
theorem RotateWriter.prune_oldest_first (w w1 : RotateWriter) (fs fs1 : FS)
    (hm : 0 ≤ w.maxFiles) (h : w.prune fs = (none, w1, fs1)) :
    ∃ removed kept,
      w.history = removed ++ kept ∧
      kept.length = min w.history.length (max (w.maxFiles - 1) 0).toNat ∧
      ((kept.length : Int) ≤ w.maxFiles) ∧
      w1 = { w with history := kept } ∧
      fs1 = (fs.setNodes (fs.nodes.filter (fun e => e.1 ∉ removed))).logAll
        (removed.map (fun p => ⟨.remove p, 0, none⟩)) := by
  unfold RotateWriter.prune at h
  rw [if_neg (by omega)] at h
  cases hp : pruneLoop w.maxFiles w.history fs with
  | mk err rest =>
    cases rest with
    | mk history1 fs' =>
      rw [hp] at h
      simp only [Prod.mk.injEq] at h
      obtain ⟨rfl, rfl, rfl⟩ := h
      obtain ⟨removed, h1, h2, h3⟩ := pruneLoop_ok w.maxFiles hm _ _ _ _ hp
      refine ⟨removed, history1, h1, h2, ?_, rfl, h3⟩
      rw [h2]
      omega

theorem RotateWriter.prune_oldest_first_witness :
    (0 : Int) ≤ 2 ∧
    RotateWriter.prune
        ⟨exTarget, 2, 12, 0, true, none,
          [⟨"tmp".toList, "a".toList⟩, ⟨"tmp".toList, "b".toList⟩, ⟨"tmp".toList, "c".toList⟩]⟩
        ⟨["tmp".toList],
          [(⟨"tmp".toList, "a".toList⟩, .file []), (⟨"tmp".toList, "b".toList⟩, .file []),
            (⟨"tmp".toList, "c".toList⟩, .file [])], [], exClock, [], []⟩ =
      (none, ⟨exTarget, 2, 12, 0, true, none, [⟨"tmp".toList, "c".toList⟩]⟩,
        ⟨["tmp".toList], [(⟨"tmp".toList, "c".toList⟩, .file [])], [], exClock, [],
          [⟨.remove ⟨"tmp".toList, "a".toList⟩, 0, none⟩,
            ⟨.remove ⟨"tmp".toList, "b".toList⟩, 0, none⟩]⟩) ∧
    ∃ removed kept,
      [(⟨"tmp".toList, "a".toList⟩ : Path), ⟨"tmp".toList, "b".toList⟩, ⟨"tmp".toList, "c".toList⟩] =
        removed ++ kept ∧
      kept.length = min 3 (max ((2 : Int) - 1) 0).toNat ∧
      ((kept.length : Int) ≤ 2) ∧
      (⟨exTarget, 2, 12, 0, true, none, [⟨"tmp".toList, "c".toList⟩]⟩ : RotateWriter) =
        ⟨exTarget, 2, 12, 0, true, none, kept⟩ ∧
      (⟨["tmp".toList], [(⟨"tmp".toList, "c".toList⟩, .file [])], [], exClock, [],
          [⟨.remove ⟨"tmp".toList, "a".toList⟩, 0, none⟩,
            ⟨.remove ⟨"tmp".toList, "b".toList⟩, 0, none⟩]⟩ : FS) =
        (FS.setNodes ⟨["tmp".toList],
          [(⟨"tmp".toList, "a".toList⟩, .file []), (⟨"tmp".toList, "b".toList⟩, .file []),
            (⟨"tmp".toList, "c".toList⟩, .file [])], [], exClock, [], []⟩
          (List.filter (fun e => e.1 ∉ removed)
            [(⟨"tmp".toList, "a".toList⟩, .file []), (⟨"tmp".toList, "b".toList⟩, .file []),
              (⟨"tmp".toList, "c".toList⟩, .file [])])).logAll
          (removed.map (fun p => ⟨.remove p, 0, none⟩)) :=
  ⟨by decide, by decide,
    RotateWriter.prune_oldest_first
      ⟨exTarget, 2, 12, 0, true, none,
        [⟨"tmp".toList, "a".toList⟩, ⟨"tmp".toList, "b".toList⟩, ⟨"tmp".toList, "c".toList⟩]⟩
      ⟨exTarget, 2, 12, 0, true, none, [⟨"tmp".toList, "c".toList⟩]⟩
      ⟨["tmp".toList],
        [(⟨"tmp".toList, "a".toList⟩, .file []), (⟨"tmp".toList, "b".toList⟩, .file []),
          (⟨"tmp".toList, "c".toList⟩, .file [])], [], exClock, [], []⟩
      ⟨["tmp".toList], [(⟨"tmp".toList, "c".toList⟩, .file [])], [], exClock, [],
        [⟨.remove ⟨"tmp".toList, "a".toList⟩, 0, none⟩,
          ⟨.remove ⟨"tmp".toList, "b".toList⟩, 0, none⟩]⟩
      (by decide) (by decide)⟩

/-- C4, the failing instance. With 64-bit `int` and `count` at the largest
`int`, a `Write` of a payload equal to `last` leaves `count` at `-2^63`, the
smallest `int`, not at `2^63`; with 32-bit `int` the same happens at
`2^31 - 1`. -/
theorem CollapsingWriter.write_duplicate_wraps :
    CollapsingWriter.Write .bits64 bufferWriter ⟨"message".toList, 2 ^ 63 - 1⟩
        "message".toList [] =
      ((0, none), ⟨"message".toList, -(2 ^ 63)⟩, []) ∧
    (-(2 ^ 63) : Int) ≠ (2 ^ 63 - 1) + 1 ∧
    CollapsingWriter.Write .bits32 bufferWriter ⟨"message".toList, 2 ^ 31 - 1⟩
        "message".toList [] =
      ((0, none), ⟨"message".toList, -(2 ^ 31)⟩, []) ∧
    (-(2 ^ 31) : Int) ≠ (2 ^ 31 - 1) + 1 := by
  refine ⟨by decide, by decide, by decide, by decide⟩

/-- C4, amended. A `Write` of a payload equal to `last` returns `(0, nil)`,
leaves the state of the sink untouched, keeps `last` and adds 1 to `count`
in `int`: exactly 1 when `count` is an `int` below the largest one, and from
the largest `int` to the smallest. -/
theorem CollapsingWriter.write_duplicate {σ : Type} (intSize : IntSize) (sink : Writer σ)
    (w : CollapsingWriter) (s : σ) :
    CollapsingWriter.Write intSize sink w w.last s =
      ((0, none), ⟨w.last, wrapInt intSize (w.count + 1)⟩, s) ∧
    (-(2 ^ (intSize.bits - 1)) ≤ w.count → w.count + 1 < 2 ^ (intSize.bits - 1) →
      CollapsingWriter.Write intSize sink w w.last s = ((0, none), ⟨w.last, w.count + 1⟩, s)) ∧
    (w.count = 2 ^ (intSize.bits - 1) - 1 →
      CollapsingWriter.Write intSize sink w w.last s =
        ((0, none), ⟨w.last, -(2 ^ (intSize.bits - 1))⟩, s)) := by
  have h : CollapsingWriter.Write intSize sink w w.last s =
      ((0, none), ⟨w.last, wrapInt intSize (w.count + 1)⟩, s) := by
    simp [CollapsingWriter.Write]
  refine ⟨h, ?_, ?_⟩
  · intro h1 h2
    rw [h, wrapInt_eq intSize _ (by omega) h2]
  · intro hc
    rw [h, hc]
    cases intSize <;> simp only [wrapInt, IntSize.bits] <;> norm_num

theorem CollapsingWriter.write_duplicate_witness :
    (-(2 ^ (IntSize.bits .bits64 - 1)) ≤ (2 : Int) ∧ (2 : Int) + 1 < 2 ^ (IntSize.bits .bits64 - 1)) ∧
    CollapsingWriter.Write .bits64 bufferWriter ⟨"message".toList, 2⟩ "message".toList [] =
      ((0, none), ⟨"message".toList, 2 + 1⟩, []) :=
  ⟨by decide,
    (CollapsingWriter.write_duplicate .bits64 bufferWriter ⟨"message".toList, 2⟩ []).2.1
      (by decide) (by decide)⟩

/-- C5 fails on the code: when the sink accepts the whole buffer,
`TimeWriter.Write` returns the count of the sink, stamp included. For the
payload `"x"` it returns 23, which is more than `len(p) = 1`. -/
theorem TimeWriter.write_counts_stamp_on_success :
    TimeWriter.Write bufferWriter ⟨2013, 9, 16, 11, 55, 0⟩ "x".toList [] =
      ((23, none), "[2013-09-16 11:55:00] x".toList) ∧
    ¬ ((TimeWriter.Write bufferWriter ⟨2013, 9, 16, 11, 55, 0⟩ "x".toList []).1.1 ≤
        (("x".toList.length : Nat) : Int)) := by
  decide

/-- C6. When the sink returns `(n, err)` with an error for the stamped
buffer, `TimeWriter.Write` returns `(max(n - L, 0), err)` with `L` the length
of the stamp: 0 when `n < L`, and never a negative count. -/
theorem TimeWriter.write_error {σ : Type} (writer : Writer σ) (now : Time) (p : Bytes) (s s1 : σ)
    (n : Int) (err : Err) (h : writer (now.formatLine ++ p) s = ((n, some err), s1)) :
    TimeWriter.Write writer now p s = ((max (n - (now.formatLine.length : Int)) 0, some err), s1) ∧
    (n < (now.formatLine.length : Int) → TimeWriter.Write writer now p s = ((0, some err), s1)) ∧
    0 ≤ (TimeWriter.Write writer now p s).1.1 := by
  by_cases hn : n ≥ (now.formatLine.length : Int)
  · have hmax : max (n - (now.formatLine.length : Int)) 0 = n - (now.formatLine.length : Int) :=
      max_eq_left (by omega)
    refine ⟨?_, ?_, ?_⟩
    · simp only [TimeWriter.Write, h, hn, if_true, hmax]
    · intro hlt; omega
    · simp only [TimeWriter.Write, h, hn, if_true]; omega
  · have hmax : max (n - (now.formatLine.length : Int)) 0 = 0 := max_eq_right (by omega)
    refine ⟨?_, ?_, ?_⟩
    · simp only [TimeWriter.Write, h, hn, if_false, hmax]
    · intro _; simp only [TimeWriter.Write, h, hn, if_false]
    · simp only [TimeWriter.Write, h, hn, if_false]; exact le_refl _

theorem TimeWriter.write_error_witness :
    TimeWriter.Write (failingWriter 5 "disk full".toList) ⟨2013, 9, 16, 11, 55, 0⟩ "x".toList () =
        ((max (5 - 22) 0, some "disk full".toList), ()) ∧
    ((5 : Int) < 22 → TimeWriter.Write (failingWriter 5 "disk full".toList) ⟨2013, 9, 16, 11, 55, 0⟩ "x".toList () =
        ((0, some "disk full".toList), ())) ∧
    0 ≤ (TimeWriter.Write (failingWriter 5 "disk full".toList) ⟨2013, 9, 16, 11, 55, 0⟩ "x".toList ()).1.1 :=
  TimeWriter.write_error (failingWriter 5 "disk full".toList) ⟨2013, 9, 16, 11, 55, 0⟩ "x".toList
    () () 5 "disk full".toList rfl

/-- C7. With `maxFiles = 0`, `Write` returns `(len(p), nil)` and leaves the
writer and the file system exactly as they were: no system call is made. -/
theorem RotateWriter.write_disabled (w : RotateWriter) (p : Bytes) (fs : FS)
    (h : w.maxFiles = 0) :
    w.Write p fs = some (((p.length : Int), none), w, fs) := by
  simp [RotateWriter.Write, h]

theorem RotateWriter.write_disabled_witness :
    (0 : Int) = 0 ∧
    RotateWriter.Write ⟨exTarget, 0, 3, 0, true, none, []⟩ "some content".toList
        ⟨["tmp".toList], [], [], exClock, [], []⟩ =
      some (((("some content".toList.length : Nat) : Int), none),
        ⟨exTarget, 0, 3, 0, true, none, []⟩,
        ⟨["tmp".toList], [], [], exClock, [], []⟩) :=
  ⟨rfl, RotateWriter.write_disabled ⟨exTarget, 0, 3, 0, true, none, []⟩ "some content".toList
    ⟨["tmp".toList], [], [], exClock, [], []⟩ rfl⟩

/-- C8. Every `Write` with a retention other than 0 returns, and an error it
returns is the error of its last system call, which is the open of the target
or the write of the payload, never a close, rename or remove. In particular,
when a system call of `rotate` or `prune` failed during the call and the call
ends with the payload written in full without error, `Write` returns
`(len(p), nil)`. -/
theorem RotateWriter.write_hides_rotate_prune_failures (w : RotateWriter) (p : Bytes) (fs : FS)
    (hm : w.maxFiles ≠ 0) :
    ∃ r w1 fs1 evs,
      w.Write p fs = some (r, w1, fs1) ∧ fs1.trace = fs.trace ++ evs ∧
      (∀ err, r.2 = some err → ∃ last, evs.getLast? = some last ∧ last.err = some err ∧
        (last.op = .openFile w.filename ∨ ∃ h, last.op = .write h p)) ∧
      ((∃ ev ∈ evs, ev.failedRotateOrPrune = true) →
        (∃ h, evs.getLast? = some ⟨.write h p, p.length, none⟩) →
        r = ((p.length : Int), none)) := by
  obtain ⟨r, w1, fs1, evs, last, h1, h2, h3, _⟩ := Write_spec w p fs hm
  refine ⟨r, w1, fs1, evs ++ [last], h1, by rw [h2, List.append_assoc], ?_, ?_⟩
  · intro err herr
    refine ⟨last, by simp, ?_⟩
    rcases h3 with ⟨e, hl, hr⟩ | ⟨h, k, e, hl, hr⟩
    · subst hl hr
      simp only at herr
      exact ⟨herr, Or.inl rfl⟩
    · subst hl hr
      simp only at herr
      exact ⟨herr, Or.inr ⟨h, rfl⟩⟩
  · rintro _ ⟨h, hlast⟩
    have hl : last = ⟨.write h p, p.length, none⟩ := by simpa using hlast
    rcases h3 with ⟨e, hl', hr⟩ | ⟨h', k, e, hl', hr⟩
    · rw [hl] at hl'; cases hl'
    · rw [hl] at hl'
      cases hl'
      exact hr

theorem RotateWriter.write_hides_rotate_prune_failures_witness :
    (2 : Int) ≠ 0 ∧
    RotateWriter.Write ⟨exTarget, 2, 1, 1, true, some exTarget, []⟩ "b".toList
        ⟨["tmp".toList], [(exTarget, .file "a".toList)], [exTarget], exClock, [(3, exDenied)],
          []⟩ =
      some ((1, none), ⟨exTarget, 2, 1, 1, true, some exTarget, []⟩,
        ⟨["tmp".toList], [(exTarget, .file "ab".toList)], [exTarget], exClock, [(3, exDenied)],
          [⟨.close exTarget, 0, none⟩, ⟨.stat exTarget, 0, none⟩,
           ⟨.stat ⟨"tmp".toList, "filename.20130916T115500.log".toList⟩, 0, some ErrNotExist⟩,
           ⟨.rename exTarget ⟨"tmp".toList, "filename.20130916T115500.log".toList⟩, 0,
             some "permission denied".toList⟩,
           ⟨.openFile exTarget, 0, none⟩, ⟨.write exTarget "b".toList, 1, none⟩]⟩) ∧
    ∃ r w1 fs1 evs,
      RotateWriter.Write ⟨exTarget, 2, 1, 1, true, some exTarget, []⟩ "b".toList
          ⟨["tmp".toList], [(exTarget, .file "a".toList)], [exTarget], exClock, [(3, exDenied)],
            []⟩ = some (r, w1, fs1) ∧
      fs1.trace = [] ++ evs ∧
      (∀ err, r.2 = some err → ∃ last, evs.getLast? = some last ∧ last.err = some err ∧
        (last.op = .openFile exTarget ∨ ∃ h, last.op = .write h "b".toList)) ∧
      ((∃ ev ∈ evs, ev.failedRotateOrPrune = true) →
        (∃ h, evs.getLast? = some ⟨.write h "b".toList, "b".toList.length, none⟩) →
        r = (("b".toList.length : Int), none)) :=
  ⟨by decide, by decide,
    RotateWriter.write_hides_rotate_prune_failures
      ⟨exTarget, 2, 1, 1, true, some exTarget, []⟩ "b".toList
      ⟨["tmp".toList], [(exTarget, .file "a".toList)], [exTarget], exClock, [(3, exDenied)], []⟩
      (by decide)⟩

/-- C9 fails on the code: `rotate` clears the handle before it returns, so
the lines `"failed to rotate log file: ..."` and `"failed to prune log file:
..."` go to a nil file, are written nowhere and add nothing to the size in
byte accounting. First call: the rename fails; the target ends as `"ab"` and
the size as 1. Second call: the remove of `prune` fails; the sibling holds
`"a"`, the target `"b"`, the size is 1. Neither trace has a write other than
the write of the payload. -/
theorem RotateWriter.write_reports_are_lost :
    RotateWriter.Write ⟨exTarget, 2, 1, 1, true, some exTarget, []⟩ "b".toList
        ⟨["tmp".toList], [(exTarget, .file "a".toList)], [exTarget], exClock, [(3, exDenied)], []⟩ =
      some ((1, none), ⟨exTarget, 2, 1, 1, true, some exTarget, []⟩,
        ⟨["tmp".toList], [(exTarget, .file "ab".toList)], [exTarget], exClock, [(3, exDenied)],
          [⟨.close exTarget, 0, none⟩, ⟨.stat exTarget, 0, none⟩,
           ⟨.stat ⟨"tmp".toList, "filename.20130916T115500.log".toList⟩, 0, some ErrNotExist⟩,
           ⟨.rename exTarget ⟨"tmp".toList, "filename.20130916T115500.log".toList⟩, 0,
             some "permission denied".toList⟩,
           ⟨.openFile exTarget, 0, none⟩, ⟨.write exTarget "b".toList, 1, none⟩]⟩) ∧
    RotateWriter.Write ⟨exTarget, 1, 1, 1, true, some exTarget, []⟩ "b".toList
        ⟨["tmp".toList], [(exTarget, .file "a".toList)], [exTarget], exClock, [(4, exDenied)], []⟩ =
      some ((1, none),
        ⟨exTarget, 1, 1, 1, true, some exTarget,
          [⟨"tmp".toList, "filename.20130916T115500.log".toList⟩]⟩,
        ⟨["tmp".toList],
          [(⟨"tmp".toList, "filename.20130916T115500.log".toList⟩, .file "a".toList),
           (exTarget, .file "b".toList)], [exTarget], exClock, [(4, exDenied)],
          [⟨.close exTarget, 0, none⟩, ⟨.stat exTarget, 0, none⟩,
           ⟨.stat ⟨"tmp".toList, "filename.20130916T115500.log".toList⟩, 0, some ErrNotExist⟩,
           ⟨.rename exTarget ⟨"tmp".toList, "filename.20130916T115500.log".toList⟩, 0, none⟩,
           ⟨.remove ⟨"tmp".toList, "filename.20130916T115500.log".toList⟩, 0,
             some "permission denied".toList⟩,
           ⟨.openFile exTarget, 0, none⟩, ⟨.write exTarget "b".toList, 1, none⟩]⟩) := by
  constructor <;> decide

/-- C10 fails on the code for a stem that holds `\E`: for the target
`tmp/a\Eb.log` the quotation of the stem ends at the `\E` inside it, the
pattern is invalid and `populate` panics in `regexp.MustCompile`, although the
directory holds `a\Eb.20130916T115500.log`, a rotated name of that stem. -/
theorem RotateWriter.populate_crashes_on_quotation_end :
    RotateWriter.populate ⟨⟨"tmp".toList, "a\\Eb.log".toList⟩, 2, 3, 0, true, none, []⟩
        ⟨["tmp".toList], [(⟨"tmp".toList, "a\\Eb.20130916T115500.log".toList⟩, .file [])], [],
          exClock, [], []⟩ =
      (.panicked,
        ⟨["tmp".toList], [(⟨"tmp".toList, "a\\Eb.20130916T115500.log".toList⟩, .file [])], [],
          exClock, [], [⟨.readDir "tmp".toList, 0, none⟩]⟩) ∧
    IsRotatedName "a\\Eb".toList "a\\Eb.20130916T115500.log".toList :=
  ⟨by decide, "20130916".toList, "115500".toList, [], by decide, by decide, by decide, by decide,
    by decide, by simp⟩

/-! ## The steps of `Write`, with the kinds of their system calls -/

theorem Write_eq_steps (w : RotateWriter) (p : Bytes) (fs : FS) (hm : w.maxFiles ≠ 0) :
    w.Write p fs =
      match w.rotateStep fs with
      | none => none
      | some (w1, fs1) => some (w1.payloadStep p fs1) := by
  have hs : w.rotateStep fs = (if w.maxSize > 0 ∧ w.size ≥ w.maxSize ∧ w.file ≠ none then
      w.rotateAndPrune fs else some (w, fs)) := rfl
  unfold RotateWriter.Write
  rw [if_neg hm, ← hs]
  cases w.rotateStep fs with
  | none => rfl
  | some r =>
    obtain ⟨w1, fs1⟩ := r
    cases hf : w1.file with
    | some h => simp only [RotateWriter.payloadStep, hf]
    | none =>
      cases ho : osOpenFile w1.filename fs1 with
      | mk r fs2 =>
        cases r with
        | error e => simp only [RotateWriter.payloadStep, hf, ho]
        | ok f => simp only [RotateWriter.payloadStep, hf, ho]

theorem osStat_cases (p : Path) (fs : FS) :
    ∃ r e, osStat p fs = (r, fs.logAll [⟨.stat p, 0, e⟩]) ∧
      (∀ err, r = .error err → fs.faults = [] → fs.find p = none) ∧
      (∀ i, r = .ok i → fs.find p ≠ none) := by
  unfold osStat
  cases hfa : fs.fault with
  | some f =>
    refine ⟨_, _, rfl, fun err _ hno => ?_, fun i h => by cases h⟩
    simp [FS.fault, hno] at hfa
  | none =>
    cases hf : fs.find p with
    | none => exact ⟨_, _, rfl, fun _ _ _ => rfl, fun i h => by cases h⟩
    | some nd =>
      cases nd with
      | file c => exact ⟨_, _, rfl, fun err h _ => (by cases h), fun i _ => by simp⟩
      | dir => exact ⟨_, _, rfl, fun err h _ => (by cases h), fun i _ => by simp⟩

theorem appendSuffixLoop_props (filename : Path) : ∀ (fuel suffix : Nat) (fs : FS) (dst : Path)
    (fs1 : FS), appendSuffixLoop filename fuel suffix fs = some (dst, fs1) →
    ∃ evs, fs1 = fs.logAll evs ∧ (∀ ev ∈ evs, ev.op.kind = .stat) ∧
      (∃ n, 0 < n ∧ dst = withSuffix filename n) ∧ (fs.faults = [] → fs.find dst = none) := by
  intro fuel
  induction fuel with
  | zero => intro suffix fs dst fs1 h; simp [appendSuffixLoop] at h
  | succ fuel ih =>
    intro suffix fs dst fs1 h
    obtain ⟨r, e, hs, herr, _⟩ := osStat_cases (withSuffix filename (suffix + 1)) fs
    cases r with
    | error err =>
      simp only [appendSuffixLoop, hs, Option.some.injEq, Prod.mk.injEq] at h
      obtain ⟨rfl, rfl⟩ := h
      exact ⟨_, rfl, by simp [Op.kind], ⟨suffix + 1, by omega, rfl⟩, herr err rfl⟩
    | ok i =>
      simp only [appendSuffixLoop, hs] at h
      obtain ⟨evs, h1, h2, h3, h4⟩ := ih _ _ _ _ h
      refine ⟨⟨.stat (withSuffix filename (suffix + 1)), 0, e⟩ :: evs, ?_, ?_, h3, ?_⟩
      · rw [h1, FS.logAll_logAll]; rfl
      · intro ev hev
        rcases List.mem_cons.mp hev with rfl | hev
        · rfl
        · exact h2 ev hev
      · intro hno; exact h4 hno

theorem appendSuffixToFile_props (src : Path) (fs : FS) :
    ∃ dst evs, appendSuffixToFile src fs = some (dst, fs.logAll evs) ∧
      (∀ ev ∈ evs, ev.op.kind = .stat) ∧
      (dst = rotatedName src fs.now ∨ ∃ n, 0 < n ∧ dst = withSuffix (rotatedName src fs.now) n) ∧
      (fs.faults = [] → fs.find dst = none) := by
  obtain ⟨dst, evs, h⟩ := appendSuffixToFile_terminates src fs
  obtain ⟨r, e, hs, herr, _⟩ := osStat_cases (rotatedName src fs.now) fs
  refine ⟨dst, evs, h, ?_⟩
  cases r with
  | error err =>
    simp only [appendSuffixToFile, hs, Option.some.injEq, Prod.mk.injEq] at h
    obtain ⟨rfl, h2⟩ := h
    have hev : evs = [⟨.stat (rotatedName src fs.now), 0, e⟩] := by
      have := congrArg FS.trace h2
      simpa [FS.logAll] using this.symm
    subst hev
    exact ⟨by simp [Op.kind], Or.inl rfl, herr err rfl⟩
  | ok i =>
    simp only [appendSuffixToFile, hs] at h
    obtain ⟨evs', h1, h2, h3, h4⟩ := appendSuffixLoop_props _ _ _ _ _ _ h
    have hev : evs = ⟨.stat (rotatedName src fs.now), 0, e⟩ :: evs' := by
      have := congrArg FS.trace h1
      simpa [FS.logAll] using this
    subst hev
    refine ⟨?_, Or.inr h3, fun hno => h4 hno⟩
    intro ev hev
    rcases List.mem_cons.mp hev with rfl | hev
    · rfl
    · exact h2 ev hev

theorem fileClose_cases (h : Path) (fs : FS) :
    ∃ e opened, fileClose h fs = (e, (fs.setOpened opened).logAll [⟨.close h, 0, e⟩]) := by
  unfold fileClose
  by_cases hm : h ∈ fs.opened
  · cases hf : fs.fault with
    | none => exact ⟨none, fs.opened.erase h, by simp [hm, FS.log, FS.logAll]⟩
    | some f => exact ⟨some f.err, fs.opened.erase h, by simp [hm, FS.log, FS.logAll]⟩
  · refine ⟨some ErrClosed, fs.opened, by simp [hm, FS.log, FS.logAll, FS.setOpened]⟩

theorem rotate_none (w : RotateWriter) (fs : FS) (hf : w.file = none) :
    ∃ err size added fs1 evs,
      w.rotate fs = some (err, { w with size := size, history := w.history ++ added }, fs1) ∧
      fs1.trace = fs.trace ++ evs ∧
      (∀ ev ∈ evs, ev.op.kind = .stat ∨ ev.op.kind = .rename) := by
  unfold RotateWriter.rotate
  simp only [hf]
  obtain ⟨r, e1, hs, _, _⟩ := osStat_cases w.filename fs
  rw [hs]
  cases r with
  | error err =>
    exact ⟨none, 0, [], fs.logAll [⟨.stat w.filename, 0, e1⟩], [⟨.stat w.filename, 0, e1⟩],
      by simp, rfl, by simp [Op.kind]⟩
  | ok info =>
    simp only
    obtain ⟨dst, evs, ha, hk, _, _⟩ := appendSuffixToFile_props w.filename
      (fs.logAll [⟨.stat w.filename, 0, e1⟩])
    rw [ha]
    simp only
    obtain ⟨e2, hr1, hr2⟩ := osRename_spec w.filename dst
      ((fs.logAll [⟨.stat w.filename, 0, e1⟩]).logAll evs)
    cases hrn : osRename w.filename dst ((fs.logAll [⟨.stat w.filename, 0, e1⟩]).logAll evs) with
    | mk rerr fs4 =>
      rw [hrn] at hr1 hr2
      simp only at hr1 hr2
      have hkinds : ∀ ev ∈ ⟨.stat w.filename, 0, e1⟩ :: (evs ++ [⟨.rename w.filename dst, 0, e2⟩]),
          ev.op.kind = .stat ∨ ev.op.kind = .rename := by
        intro ev hev
        simp only [List.mem_cons, List.mem_append, List.mem_singleton, List.not_mem_nil,
          or_false] at hev
        rcases hev with rfl | hev | rfl
        · exact Or.inl rfl
        · exact Or.inl (hk ev hev)
        · exact Or.inr rfl
      cases rerr with
      | some err =>
        exact ⟨some err, 0, [], fs4, _, by simp, by rw [hr2]; simp [FS.logAll], hkinds⟩
      | none =>
        exact ⟨none, 0, [dst], fs4, _, rfl, by rw [hr2]; simp [FS.logAll], hkinds⟩

theorem rotate_some (w : RotateWriter) (fs : FS) (h : Path) (hf : w.file = some h) :
    w.rotate fs =
      match fileClose h fs with
      | (some err, fs1) => some (some err, { w with file := none }, fs1)
      | (none, fs1) => RotateWriter.rotate { w with file := none } fs1 := by
  cases hc : fileClose h fs with
  | mk e fs1 =>
    cases e with
    | some err => simp only [RotateWriter.rotate, hf, hc]
    | none => simp only [RotateWriter.rotate, hf, hc]

theorem rotate_full (w : RotateWriter) (fs : FS) :
    ∃ err size added fs1 evs,
      w.rotate fs =
        some (err, { w with file := none, size := size, history := w.history ++ added }, fs1) ∧
      fs1.trace = fs.trace ++ evs ∧
      (∀ ev ∈ evs, ev.op.kind = .close ∨ ev.op.kind = .stat ∨ ev.op.kind = .rename) := by
  cases hf : w.file with
  | none =>
    obtain ⟨err, size, added, fs1, evs, h1, h2, h3⟩ := rotate_none w fs hf
    refine ⟨err, size, added, fs1, evs, ?_, h2, fun ev hev => Or.inr (h3 ev hev)⟩
    rw [h1]
    congr 3
    cases w
    simp_all
  | some h =>
    rw [rotate_some w fs h hf]
    obtain ⟨e, opened, hc⟩ := fileClose_cases h fs
    rw [hc]
    cases e with
    | some err =>
      exact ⟨some err, w.size, [], (fs.setOpened opened).logAll [⟨.close h, 0, some err⟩],
        [⟨.close h, 0, some err⟩], by simp, rfl, by simp [Op.kind]⟩
    | none =>
      simp only
      obtain ⟨err, size, added, fs1, evs, h1, h2, h3⟩ :=
        rotate_none { w with file := none } ((fs.setOpened opened).logAll [⟨.close h, 0, none⟩]) rfl
      refine ⟨err, size, added, fs1, ⟨.close h, 0, none⟩ :: evs, h1, ?_, ?_⟩
      · rw [h2]; simp [FS.logAll, FS.setOpened]
      · intro ev hev
        rcases List.mem_cons.mp hev with rfl | hev
        · exact Or.inl rfl
        · exact Or.inr (h3 ev hev)

theorem pruneLoop_cases (maxFiles : Int) : ∀ (history : List Path) (fs : FS),
    ∃ err removed kept evs,
      pruneLoop maxFiles history fs =
        (err, kept, (fs.setNodes (fs.nodes.filter (fun e => e.1 ∉ removed))).logAll evs) ∧
      history = removed ++ kept ∧
      (∀ ev ∈ evs, ev.op.kind = .remove) ∧
      (err = none → evs = removed.map (fun p => ⟨.remove p, 0, none⟩)) ∧
      (∀ e, err = some e → ∃ failed later, kept = failed :: later ∧
        evs = removed.map (fun p => ⟨.remove p, 0, none⟩) ++ [⟨.remove failed, 0, some e⟩]) := by
  intro history
  induction history with
  | nil =>
    intro fs
    exact ⟨none, [], [], [], by simp [pruneLoop, FS.setNodes, FS.logAll], rfl, by simp,
      fun _ => rfl, fun e h => by cases h⟩
  | cons a t ih =>
    intro fs
    unfold pruneLoop
    by_cases hc : ((a :: t).length : Int) ≥ maxFiles
    · rw [if_pos hc]
      rcases osRemove_spec a fs with ⟨e, he⟩ | he
      · rw [he]
        exact ⟨some e, [], a :: t, [⟨.remove a, 0, some e⟩], by simp [FS.setNodes, FS.logAll],
          rfl, by simp [Op.kind], fun h => (by cases h),
          fun e' h => ⟨a, t, rfl, (by cases h; rfl)⟩⟩
      · rw [he]
        simp only
        obtain ⟨err, removed, kept, evs, h1, h2, h3, h4, h5⟩ := ih
          ((fs.setNodes (fs.nodes.filter (fun e => e.1 ≠ a))).logAll [⟨.remove a, 0, none⟩])
        refine ⟨err, a :: removed, kept, ⟨.remove a, 0, none⟩ :: evs, ?_, by rw [h2]; rfl, ?_,
          ?_, ?_⟩
        · rw [h1]
          simp only [FS.setNodes, FS.logAll, List.filter_filter, List.append_assoc,
            List.singleton_append, Prod.mk.injEq, true_and, FS.mk.injEq, and_true]
          refine List.filter_congr (fun e _ => ?_)
          by_cases h1 : e.1 = a <;> by_cases h2 : e.1 ∈ removed <;> simp [h1, h2]
        · intro ev hev
          rcases List.mem_cons.mp hev with rfl | hev
          · rfl
          · exact h3 ev hev
        · intro hn; rw [h4 hn]; rfl
        · intro e he'
          obtain ⟨failed, later, hk, hev⟩ := h5 e he'
          exact ⟨failed, later, hk, by rw [hev]; rfl⟩
    · rw [if_neg hc]
      exact ⟨none, [], a :: t, [], by simp [FS.setNodes, FS.logAll], rfl, by simp,
        fun _ => rfl, fun e h => by cases h⟩

theorem prune_cases (w : RotateWriter) (fs : FS) :
    ∃ err removed kept evs,
      w.prune fs = (err, { w with history := kept },
        (fs.setNodes (fs.nodes.filter (fun e => e.1 ∉ removed))).logAll evs) ∧
      w.history = removed ++ kept ∧
      (∀ ev ∈ evs, ev.op.kind = .remove) ∧
      (w.maxFiles < 0 → removed = [] ∧ evs = []) ∧
      (err = none → evs = removed.map (fun p => ⟨.remove p, 0, none⟩)) ∧
      (∀ e, err = some e → ∃ failed later, kept = failed :: later ∧
        evs = removed.map (fun p => ⟨.remove p, 0, none⟩) ++ [⟨.remove failed, 0, some e⟩]) := by
  unfold RotateWriter.prune
  by_cases hneg : w.maxFiles < 0
  · rw [if_pos hneg]
    exact ⟨none, [], w.history, [], by simp [FS.setNodes, FS.logAll], rfl, by simp,
      fun _ => ⟨rfl, rfl⟩, fun _ => rfl, fun e h => by cases h⟩
  · rw [if_neg hneg]
    obtain ⟨err, removed, kept, evs, h1, h2, h3, h4, h5⟩ := pruneLoop_cases w.maxFiles w.history fs
    rw [h1]
    exact ⟨err, removed, kept, evs, rfl, h2, h3, fun h => absurd h hneg, h4, h5⟩

theorem rotateAndPrune_full (w : RotateWriter) (fs : FS) :
    ∃ size added removed kept fs1 evs,
      w.rotateAndPrune fs =
        some ({ w with file := none, size := size, history := kept }, fs1) ∧
      w.history ++ added = removed ++ kept ∧
      fs1.trace = fs.trace ++ evs ∧
      (∀ ev ∈ evs, ev.op.kind = .close ∨ ev.op.kind = .stat ∨ ev.op.kind = .rename ∨
        ev.op.kind = .remove) ∧
      (w.maxFiles < 0 → removed = [] ∧ ∀ ev ∈ evs, ev.op.kind ≠ .remove) := by
  obtain ⟨err, size, added, fs1, evs, hr, ht, hk⟩ := rotate_full w fs
  unfold RotateWriter.rotateAndPrune
  rw [hr]
  simp only
  have key : ∀ (size2 : Int),
      ∃ size3 removed kept fs3 evs3,
        (match RotateWriter.prune
            { w with file := none, size := size2, history := w.history ++ added } fs1 with
          | (some e, w3, fs3) =>
            some (w3.report ("failed to prune log file: ".toList ++ e ++ ['\n']) fs3)
          | (none, w3, fs3) => some (w3, fs3)) =
          some ({ w with file := none, size := size3, history := kept }, fs3) ∧
        w.history ++ added = removed ++ kept ∧
        fs3.trace = fs1.trace ++ evs3 ∧
        (∀ ev ∈ evs3, ev.op.kind = .remove) ∧
        (w.maxFiles < 0 → removed = [] ∧ evs3 = []) := by
    intro size2
    obtain ⟨perr, removed, kept, evs3, hp, h2, h3, h4, _, _⟩ :=
      prune_cases { w with file := none, size := size2, history := w.history ++ added } fs1
    rw [hp]
    cases perr with
    | none => exact ⟨_, removed, kept, _, evs3, rfl, h2, rfl, h3, h4⟩
    | some e =>
      simp only
      rw [report_none _ _ _ rfl, increaseSize_eq]
      exact ⟨_, removed, kept, _, evs3, rfl, h2, rfl, h3, h4⟩
  have fin : ∀ (size2 : Int),
      ∃ size3 removed kept fs3 evs',
        (match RotateWriter.prune
            { w with file := none, size := size2, history := w.history ++ added } fs1 with
          | (some e, w3, fs3) =>
            some (w3.report ("failed to prune log file: ".toList ++ e ++ ['\n']) fs3)
          | (none, w3, fs3) => some (w3, fs3)) =
          some ({ w with file := none, size := size3, history := kept }, fs3) ∧
        w.history ++ added = removed ++ kept ∧
        fs3.trace = fs.trace ++ evs' ∧
        (∀ ev ∈ evs', ev.op.kind = .close ∨ ev.op.kind = .stat ∨ ev.op.kind = .rename ∨
          ev.op.kind = .remove) ∧
        (w.maxFiles < 0 → removed = [] ∧ ∀ ev ∈ evs', ev.op.kind ≠ .remove) := by
    intro size2
    obtain ⟨size3, removed, kept, fs3, evs3, h1, h2, h3, h4, h5⟩ := key size2
    refine ⟨size3, removed, kept, fs3, evs ++ evs3, h1, h2, by rw [h3, ht, List.append_assoc],
      ?_, ?_⟩
    · intro ev hev
      rcases List.mem_append.mp hev with hev | hev
      · rcases hk ev hev with h | h | h
        · exact Or.inl h
        · exact Or.inr (Or.inl h)
        · exact Or.inr (Or.inr (Or.inl h))
      · exact Or.inr (Or.inr (Or.inr (h4 ev hev)))
    · intro hneg
      obtain ⟨hr1, hr2⟩ := h5 hneg
      refine ⟨hr1, ?_⟩
      subst hr2
      intro ev hev
      rw [List.append_nil] at hev
      rcases hk ev hev with h | h | h <;> rw [h] <;> decide
  cases err with
  | none =>
    obtain ⟨size3, removed, kept, fs3, evs', h1, h2, h3, h4, h5⟩ := fin size
    exact ⟨size3, added, removed, kept, fs3, evs', h1, h2, h3, h4, h5⟩
  | some e0 =>
    simp only
    rw [report_none _ _ _ rfl, increaseSize_eq]
    obtain ⟨size3, removed, kept, fs3, evs', h1, h2, h3, h4, h5⟩ := fin
      (RotateWriter.increaseSize
        { w with file := none, size := size, history := w.history ++ added } 0).size
    exact ⟨size3, added, removed, kept, fs3, evs', h1, h2, h3, h4, h5⟩

theorem rotateStep_full (w : RotateWriter) (fs : FS) :
    ∃ w1 fs1 evs added removed,
      w.rotateStep fs = some (w1, fs1) ∧
      w1 = { w with file := w1.file, size := w1.size, history := w1.history } ∧
      w.history ++ added = removed ++ w1.history ∧
      fs1.trace = fs.trace ++ evs ∧
      (∀ ev ∈ evs, ev.op.kind = .close ∨ ev.op.kind = .stat ∨ ev.op.kind = .rename ∨
        ev.op.kind = .remove) ∧
      (w.maxFiles < 0 → removed = [] ∧ ∀ ev ∈ evs, ev.op.kind ≠ .remove) ∧
      (¬ (w.maxSize > 0 ∧ w.size ≥ w.maxSize ∧ w.file ≠ none) → w1 = w ∧ fs1 = fs) ∧
      (w.maxSize > 0 ∧ w.size ≥ w.maxSize ∧ w.file ≠ none → w1.file = none) := by
  unfold RotateWriter.rotateStep
  by_cases hc : w.maxSize > 0 ∧ w.size ≥ w.maxSize ∧ w.file ≠ none
  · rw [if_pos hc]
    obtain ⟨size, added, removed, kept, fs1, evs, h1, h2, h3, h4, h5⟩ := rotateAndPrune_full w fs
    exact ⟨_, fs1, evs, added, removed, h1, rfl, h2, h3, h4, h5, fun hn => absurd hc hn,
      fun _ => rfl⟩
  · rw [if_neg hc]
    exact ⟨w, fs, [], [], [], rfl, rfl, by simp, by simp, by simp, fun _ => ⟨rfl, by simp⟩,
      fun _ => ⟨rfl, rfl⟩, fun h => absurd h hc⟩

theorem FS.append_nil (fs : FS) (h : Path) : fs.append h [] = fs := by
  obtain ⟨dirs, nodes, opened, now, faults, trace⟩ := fs
  simp only [FS.append, FS.setNodes, FS.mk.injEq, true_and, and_true]
  refine (List.map_congr_left (fun e _ => ?_)).trans (List.map_id nodes)
  obtain ⟨p, nd⟩ := e
  cases nd <;> simp

theorem fileWrite_cases (h : Path) (b : Bytes) (fs : FS) :
    ∃ (k : Nat) (e : Option Err) (written : Bytes),
      fileWrite (some h) b fs = (((k : Int), e), (fs.append h written).logAll [⟨.write h b, k, e⟩]) ∧
      written = b.take k ∧ k ≤ b.length ∧ (e = none → k = b.length ∧ h ∈ fs.opened) := by
  unfold fileWrite
  simp only
  by_cases hm : h ∈ fs.opened
  · rw [if_pos hm]
    cases hf : fs.fault with
    | none =>
      exact ⟨b.length, none, b, rfl, by simp, le_refl _, fun _ => ⟨rfl, hm⟩⟩
    | some f =>
      exact ⟨min f.accepted b.length, some f.err, b.take (min f.accepted b.length), rfl, rfl,
        Nat.min_le_right _ _, fun h => by cases h⟩
  · rw [if_neg hm]
    refine ⟨0, some ErrClosed, [], ?_, by simp, Nat.zero_le _, fun h => by cases h⟩
    rw [FS.append_nil]
    rfl

theorem osOpenFile_cases (p : Path) (fs : FS) :
    (∃ e, osOpenFile p fs = (.error e, fs.logAll [⟨.openFile p, 0, some e⟩])) ∨
    (∃ nodes, osOpenFile p fs =
        (.ok p, ((fs.setNodes nodes).setOpened (p :: fs.opened)).logAll
          [⟨.openFile p, 0, none⟩]) ∧
      p.dir ∈ fs.dirs ∧
      ((nodes = fs.nodes ∧ ∃ c, fs.find p = some (.file c)) ∨
        (nodes = fs.nodes ++ [(p, .file [])] ∧ fs.find p = none))) := by
  unfold osOpenFile
  cases fs.fault with
  | some f => exact Or.inl ⟨_, rfl⟩
  | none =>
    by_cases hd : p.dir ∈ fs.dirs
    · rw [if_pos hd]
      cases hf : fs.find p with
      | none => exact Or.inr ⟨_, rfl, hd, Or.inr ⟨rfl, rfl⟩⟩
      | some nd =>
        cases nd with
        | file c =>
          refine Or.inr ⟨fs.nodes, ?_, hd, Or.inl ⟨rfl, c, rfl⟩⟩
          simp [FS.setNodes, FS.setOpened, FS.logAll, FS.log]
        | dir => exact Or.inl ⟨_, rfl⟩
    · rw [if_neg hd]
      exact Or.inl ⟨_, rfl⟩

theorem payloadStep_cases (w1 : RotateWriter) (p : Bytes) (fs1 : FS) :
    (w1.file = none ∧ ∃ e,
      osOpenFile w1.filename fs1 = (.error e, fs1.logAll [⟨.openFile w1.filename, 0, some e⟩]) ∧
      w1.payloadStep p fs1 =
        ((0, some e), w1, fs1.logAll [⟨.openFile w1.filename, 0, some e⟩])) ∨
    (∃ (h : Path) (fs2 : FS) (k : Nat) (e : Option Err),
      ((w1.file = some h ∧ fs2 = fs1) ∨
        (w1.file = none ∧ h = w1.filename ∧ osOpenFile w1.filename fs1 = (.ok h, fs2))) ∧
      w1.payloadStep p fs1 =
        (((k : Int), e),
          { w1 with file := some h,
                    size := wrapInt64 (w1.size + (if w1.inBytes then (k : Int) else lineCount p)) },
          (fs2.append h (p.take k)).logAll [⟨.write h p, k, e⟩]) ∧
      k ≤ p.length ∧ (e = none → k = p.length ∧ h ∈ fs2.opened)) := by
  cases hf : w1.file with
  | some h =>
    right
    obtain ⟨k, e, written, h1, h2, h3, h4⟩ := fileWrite_cases h p fs1
    refine ⟨h, fs1, k, e, Or.inl ⟨rfl, rfl⟩, ?_, h3, h4⟩
    simp only [RotateWriter.payloadStep, hf, h1, h2]
    cases hb : w1.inBytes <;> simp [RotateWriter.increaseSize, hb, hf]
  | none =>
    rcases osOpenFile_cases w1.filename fs1 with ⟨e, he⟩ | ⟨nodes, ho, _, _⟩
    · left
      exact ⟨rfl, e, he, by simp only [RotateWriter.payloadStep, hf, he]⟩
    · right
      obtain ⟨k, e, written, h1, h2, h3, h4⟩ := fileWrite_cases w1.filename p
        (((fs1.setNodes nodes).setOpened (w1.filename :: fs1.opened)).logAll
          [⟨.openFile w1.filename, 0, none⟩])
      refine ⟨w1.filename, _, k, e, Or.inr ⟨rfl, rfl, ho⟩, ?_, h3, h4⟩
      simp only [RotateWriter.payloadStep, hf, ho, h1, h2]
      cases hb : w1.inBytes <;> simp [RotateWriter.increaseSize, hb]

theorem Write_full (w : RotateWriter) (p : Bytes) (fs : FS) (hm : w.maxFiles ≠ 0) :
    ∃ r w1 fs1 evs added removed,
      w.Write p fs = some (r, w1, fs1) ∧
      w1 = { w with file := w1.file, size := w1.size, history := w1.history } ∧
      w.history ++ added = removed ++ w1.history ∧
      fs1.trace = fs.trace ++ evs ∧
      (w.maxFiles < 0 → removed = [] ∧ ∀ ev ∈ evs, ev.op.kind ≠ .remove) := by
  obtain ⟨w1, fs1, evs, added, removed, h1, h2, h3, h4, _, h6, _, _⟩ := rotateStep_full w fs
  rw [Write_eq_steps w p fs hm, h1]
  simp only
  rcases payloadStep_cases w1 p fs1 with ⟨_, e, _, hp⟩ | ⟨h, fs2, k, e, hopen, hp, _, _⟩
  · rw [hp]
    refine ⟨_, _, _, evs ++ [⟨.openFile w1.filename, 0, some e⟩], added, removed, rfl, h2, h3,
      by simp [FS.logAll, h4], fun hneg => ⟨(h6 hneg).1, ?_⟩⟩
    intro ev hev
    rcases List.mem_append.mp hev with hev | hev
    · exact (h6 hneg).2 ev hev
    · rw [List.mem_singleton.mp hev]; simp [Op.kind]
  · rw [hp]
    have hfs2 : ∃ opens, fs2.trace = fs1.trace ++ opens ∧ ∀ ev ∈ opens, ev.op.kind = .openFile := by
      rcases hopen with ⟨_, rfl⟩ | ⟨_, _, ho⟩
      · exact ⟨[], by simp, by simp⟩
      · rcases osOpenFile_cases w1.filename fs1 with ⟨e', he'⟩ | ⟨nodes, ho', _, _⟩
        · rw [he'] at ho; cases ho
        · rw [ho'] at ho
          simp only [Prod.mk.injEq] at ho
          refine ⟨[⟨.openFile w1.filename, 0, none⟩], by rw [← ho.2]; rfl, by simp [Op.kind]⟩
    obtain ⟨opens, ho1, ho2⟩ := hfs2
    refine ⟨_, _, _, evs ++ opens ++ [⟨.write h p, k, e⟩], added, removed, rfl, ?_, h3, ?_,
      fun hneg => ⟨(h6 hneg).1, ?_⟩⟩
    · rw [h2]
    · simp [FS.logAll, FS.append, FS.setNodes, ho1, h4]
    · intro ev hev
      rcases List.mem_append.mp hev with hev | hev
      · rcases List.mem_append.mp hev with hev | hev
        · exact (h6 hneg).2 ev hev
        · rw [ho2 ev hev]; simp
      · rw [List.mem_singleton.mp hev]; simp [Op.kind]

theorem WriteAll_full : ∀ (ps : List Bytes) (w : RotateWriter) (fs : FS), w.maxFiles < 0 →
    ∃ rs w1 fs1 added evs,
      RotateWriter.WriteAll ps w fs = some (rs, w1, fs1) ∧
      w1.history = w.history ++ added ∧
      fs1.trace = fs.trace ++ evs ∧ (∀ ev ∈ evs, ev.op.kind ≠ .remove)
  | [], w, fs, _ => ⟨[], w, fs, [], [], rfl, by simp, by simp, by simp⟩
  | p :: ps, w, fs, hneg => by
    obtain ⟨r, w1, fs1, evs, added, removed, h1, h2, h3, h4, h5⟩ :=
      Write_full w p fs (by omega)
    obtain ⟨hrem, hev⟩ := h5 hneg
    have hneg1 : w1.maxFiles < 0 := by rw [h2]; exact hneg
    obtain ⟨rs, w2, fs2, added2, evs2, g1, g2, g3, g4⟩ := WriteAll_full ps w1 fs1 hneg1
    refine ⟨r :: rs, w2, fs2, added ++ added2, evs ++ evs2, ?_, ?_, ?_, ?_⟩
    · simp only [RotateWriter.WriteAll, h1, g1]
    · rw [g2, ← List.append_assoc, h3, hrem, List.nil_append]
    · rw [g3, h4, List.append_assoc]
    · intro ev hev'
      rcases List.mem_append.mp hev' with h | h
      · exact hev ev h
      · exact g4 ev h

/-! ## Properties of the specification: retention, size accounting, failures -/

/-- C15. With `maxFiles < 0`, `prune` returns no error, makes no system call
and leaves the writer, hence the history, as it was. So over any sequence of
writes, with as many rotations as they cause, the history is the former one
with names added at its end, and the trace holds no removal. -/
theorem RotateWriter.prune_unbounded_retention (ps : List Bytes) (w : RotateWriter) (fs : FS)
    (hneg : w.maxFiles < 0) :
    w.prune fs = (none, w, fs) ∧
    ∃ rs w1 fs1 added evs,
      RotateWriter.WriteAll ps w fs = some (rs, w1, fs1) ∧
      w1.history = w.history ++ added ∧
      fs1.trace = fs.trace ++ evs ∧ (∀ ev ∈ evs, ev.op.kind ≠ .remove) :=
  ⟨by simp [RotateWriter.prune, hneg], WriteAll_full ps w fs hneg⟩

theorem RotateWriter.prune_unbounded_retention_witness :
    (-1 : Int) < 0 ∧
    (RotateWriter.prune ⟨exTarget, -1, 12, 0, true, some exTarget, []⟩
        ⟨["tmp".toList], [(exTarget, .file [])], [exTarget], exClock, [], []⟩ =
      (none, ⟨exTarget, -1, 12, 0, true, some exTarget, []⟩,
        ⟨["tmp".toList], [(exTarget, .file [])], [exTarget], exClock, [], []⟩) ∧
    ∃ rs w1 fs1 added evs,
      RotateWriter.WriteAll
          ["some content".toList, "some content".toList, "some content".toList]
          ⟨exTarget, -1, 12, 0, true, some exTarget, []⟩
          ⟨["tmp".toList], [(exTarget, .file [])], [exTarget], exClock, [], []⟩ =
        some (rs, w1, fs1) ∧
      w1.history = [] ++ added ∧
      fs1.trace = [] ++ evs ∧ (∀ ev ∈ evs, ev.op.kind ≠ .remove)) :=
  ⟨by decide,
    RotateWriter.prune_unbounded_retention
      ["some content".toList, "some content".toList, "some content".toList]
      ⟨exTarget, -1, 12, 0, true, some exTarget, []⟩
      ⟨["tmp".toList], [(exTarget, .file [])], [exTarget], exClock, [], []⟩ (by decide)⟩

/-- C18. When `prune` returns an error, the history splits as
`removed ++ failed :: later`: the files of `removed` are gone from the disk and
from the history, each by a removal that succeeded; the removal of `failed`
is the last system call and gave the returned error; the new history is
`failed :: later`, and no file of `later` was touched. -/
theorem RotateWriter.prune_stops_at_failure (w w1 : RotateWriter) (fs fs1 : FS) (err : Err)
    (h : w.prune fs = (some err, w1, fs1)) :
    ∃ removed failed later,
      w.history = removed ++ failed :: later ∧
      w1 = { w with history := failed :: later } ∧
      fs1 = (fs.setNodes (fs.nodes.filter (fun e => e.1 ∉ removed))).logAll
        (removed.map (fun p => ⟨.remove p, 0, none⟩) ++ [⟨.remove failed, 0, some err⟩]) := by
  obtain ⟨err', removed, kept, evs, h1, h2, _, _, _, h6⟩ := prune_cases w fs
  rw [h1] at h
  simp only [Prod.mk.injEq] at h
  obtain ⟨rfl, rfl, rfl⟩ := h
  obtain ⟨failed, later, hk, hev⟩ := h6 err rfl
  subst hk
  exact ⟨removed, failed, later, h2, rfl, by rw [hev]⟩

theorem RotateWriter.prune_stops_at_failure_witness :
    RotateWriter.prune
        ⟨exTarget, 1, 12, 0, true, none,
          [⟨"tmp".toList, "a".toList⟩, ⟨"tmp".toList, "b".toList⟩, ⟨"tmp".toList, "c".toList⟩]⟩
        ⟨["tmp".toList],
          [(⟨"tmp".toList, "a".toList⟩, .file []), (⟨"tmp".toList, "c".toList⟩, .file [])],
          [], exClock, [], []⟩ =
      (some ErrNotExist,
        ⟨exTarget, 1, 12, 0, true, none, [⟨"tmp".toList, "b".toList⟩, ⟨"tmp".toList, "c".toList⟩]⟩,
        ⟨["tmp".toList], [(⟨"tmp".toList, "c".toList⟩, .file [])], [], exClock, [],
          [⟨.remove ⟨"tmp".toList, "a".toList⟩, 0, none⟩,
            ⟨.remove ⟨"tmp".toList, "b".toList⟩, 0, some ErrNotExist⟩]⟩) ∧
    ∃ removed failed later,
      [(⟨"tmp".toList, "a".toList⟩ : Path), ⟨"tmp".toList, "b".toList⟩, ⟨"tmp".toList, "c".toList⟩] =
        removed ++ failed :: later ∧
      (⟨exTarget, 1, 12, 0, true, none,
          [⟨"tmp".toList, "b".toList⟩, ⟨"tmp".toList, "c".toList⟩]⟩ : RotateWriter) =
        ⟨exTarget, 1, 12, 0, true, none, failed :: later⟩ ∧
      (⟨["tmp".toList], [(⟨"tmp".toList, "c".toList⟩, .file [])], [], exClock, [],
          [⟨.remove ⟨"tmp".toList, "a".toList⟩, 0, none⟩,
            ⟨.remove ⟨"tmp".toList, "b".toList⟩, 0, some ErrNotExist⟩]⟩ : FS) =
        (FS.setNodes ⟨["tmp".toList],
            [(⟨"tmp".toList, "a".toList⟩, .file []), (⟨"tmp".toList, "c".toList⟩, .file [])],
            [], exClock, [], []⟩
          (List.filter (fun e => e.1 ∉ removed)
            [(⟨"tmp".toList, "a".toList⟩, .file []), (⟨"tmp".toList, "c".toList⟩, .file [])])).logAll
          (removed.map (fun p => ⟨.remove p, 0, none⟩) ++
            [⟨.remove failed, 0, some ErrNotExist⟩]) :=
  ⟨by decide,
    RotateWriter.prune_stops_at_failure
      ⟨exTarget, 1, 12, 0, true, none,
        [⟨"tmp".toList, "a".toList⟩, ⟨"tmp".toList, "b".toList⟩, ⟨"tmp".toList, "c".toList⟩]⟩
      ⟨exTarget, 1, 12, 0, true, none, [⟨"tmp".toList, "b".toList⟩, ⟨"tmp".toList, "c".toList⟩]⟩
      ⟨["tmp".toList],
        [(⟨"tmp".toList, "a".toList⟩, .file []), (⟨"tmp".toList, "c".toList⟩, .file [])],
        [], exClock, [], []⟩
      ⟨["tmp".toList], [(⟨"tmp".toList, "c".toList⟩, .file [])], [], exClock, [],
        [⟨.remove ⟨"tmp".toList, "a".toList⟩, 0, none⟩,
          ⟨.remove ⟨"tmp".toList, "b".toList⟩, 0, some ErrNotExist⟩]⟩
      ErrNotExist (by decide)⟩

/-- C17, the failing instances. A write that the system cuts short after 3
of the 12 bytes of the payload: `Write` returns `(3, err)` and the size goes
from 0 to 3, not to 12. And a complete write of 12 bytes on a size of
`2^63 - 1` (threshold 0, so that nothing rotates): the `int64` sum wraps and
the size goes to `-2^63 + 11`. -/
theorem RotateWriter.write_size_counts_accepted_bytes :
    RotateWriter.Write ⟨exTarget, 2, 100, 0, true, some exTarget, []⟩ "some content".toList
        ⟨["tmp".toList], [(exTarget, .file [])], [exTarget], exClock,
          [(0, ⟨"no space left on device".toList, 3⟩)], []⟩ =
      some ((3, some "no space left on device".toList),
        ⟨exTarget, 2, 100, 3, true, some exTarget, []⟩,
        ⟨["tmp".toList], [(exTarget, .file "som".toList)], [exTarget], exClock,
          [(0, ⟨"no space left on device".toList, 3⟩)],
          [⟨.write exTarget "some content".toList, 3, some "no space left on device".toList⟩]⟩) ∧
    (0 : Int) + (("some content".toList.length : Nat) : Int) ≠ 3 ∧
    RotateWriter.Write ⟨exTarget, 2, 0, 2 ^ 63 - 1, true, some exTarget, []⟩
        "some content".toList
        ⟨["tmp".toList], [(exTarget, .file [])], [exTarget], exClock, [], []⟩ =
      some ((12, none),
        ⟨exTarget, 2, 0, -(2 ^ 63) + 11, true, some exTarget, []⟩,
        ⟨["tmp".toList], [(exTarget, .file "some content".toList)], [exTarget], exClock, [],
          [⟨.write exTarget "some content".toList, 12, none⟩]⟩) ∧
    (2 ^ 63 - 1 : Int) + (("some content".toList.length : Nat) : Int) ≠ -(2 ^ 63) + 11 := by
  refine ⟨by decide, by decide, by decide, by decide⟩

/-- C17, amended. Let `w1` be the writer after the rotation step of `Write`
(it is the writer on entry when the step does not rotate). When the call
reaches the payload write (the last system call is the write of `p`),
the size after the call is the `int64` sum of the size of `w1` and, in byte
mode, the count `n` returned by that write, in line mode, the number of
newline bytes of `p`; the sum is the exact one as long as it is below `2^63`.
The count `n` is at most `len(p)`, and it is `len(p)` whenever the write
returns no error. -/
theorem RotateWriter.write_size_update (w : RotateWriter) (p : Bytes) (fs : FS)
    (hm : w.maxFiles ≠ 0) :
    ∃ w1 fs1 r w2 fs2,
      w.rotateStep fs = some (w1, fs1) ∧
      w.Write p fs = some (r, w2, fs2) ∧
      (¬ (w.maxSize > 0 ∧ w.size ≥ w.maxSize ∧ w.file ≠ none) → w1.size = w.size) ∧
      (∀ h k e, fs2.trace.getLast? = some ⟨.write h p, k, e⟩ →
        w2.size = wrapInt64 (w1.size + (if w.inBytes then r.1 else (p.count '\n' : Int))) ∧
        (-(2 ^ 63) ≤ w1.size →
          w1.size + (if w.inBytes then r.1 else (p.count '\n' : Int)) < 2 ^ 63 →
          w2.size = w1.size + (if w.inBytes then r.1 else (p.count '\n' : Int))) ∧
        r = ((k : Int), e) ∧ k ≤ p.length ∧ (e = none → k = p.length)) := by
  obtain ⟨w1, fs1, evs, added, removed, h1, h2, h3, h4, _, h6, h7, _⟩ := rotateStep_full w fs
  have hin : w1.inBytes = w.inBytes := by rw [h2]
  rw [Write_eq_steps w p fs hm, h1]
  simp only
  rcases payloadStep_cases w1 p fs1 with ⟨_, e, _, hp⟩ | ⟨h, fs2, k, e, _, hp, hle, hk⟩
  · rw [hp]
    refine ⟨w1, fs1, _, _, _, rfl, rfl, fun hc => by rw [(h7 hc).1], ?_⟩
    intro h' k' e' hl
    simp [FS.logAll] at hl
  · rw [hp]
    refine ⟨w1, fs1, _, _, _, rfl, rfl, fun hc => by rw [(h7 hc).1], ?_⟩
    intro h' k' e' hl
    simp [FS.logAll] at hl
    obtain ⟨-, rfl, rfl⟩ := hl
    have hsz : wrapInt64 (w1.size + (if w1.inBytes then (k : Int) else lineCount p)) =
        wrapInt64 (w1.size + (if w.inBytes then (k : Int) else (p.count '\n' : Int))) := by
      simp only [hin, lineCount]
    have hnn : (0 : Int) ≤ (if w.inBytes then (k : Int) else (p.count '\n' : Int)) := by
      split <;> exact Int.ofNat_nonneg _
    refine ⟨hsz, fun hlo hhi => ?_, rfl, hle, fun he => (hk he).1⟩
    show wrapInt64 (w1.size + (if w1.inBytes then (k : Int) else lineCount p)) = _
    rw [hsz]
    exact wrapInt64_eq _ (by omega) hhi

theorem RotateWriter.write_size_update_witness :
    (2 : Int) ≠ 0 ∧
    ∃ w1 fs1 r w2 fs2,
      RotateWriter.rotateStep ⟨exTarget, 2, 100, 0, false, some exTarget, []⟩
          ⟨["tmp".toList], [(exTarget, .file [])], [exTarget], exClock, [], []⟩ =
        some (w1, fs1) ∧
      RotateWriter.Write ⟨exTarget, 2, 100, 0, false, some exTarget, []⟩ "a\nb\nc".toList
          ⟨["tmp".toList], [(exTarget, .file [])], [exTarget], exClock, [], []⟩ =
        some (r, w2, fs2) ∧
      (¬ ((100 : Int) > 0 ∧ (0 : Int) ≥ 100 ∧ some exTarget ≠ none) → w1.size = 0) ∧
      (∀ h k e, fs2.trace.getLast? = some ⟨.write h "a\nb\nc".toList, k, e⟩ →
        w2.size = wrapInt64 (w1.size +
          (if false = true then r.1 else (("a\nb\nc".toList.count '\n' : Nat) : Int))) ∧
        (-(2 ^ 63) ≤ w1.size →
          w1.size + (if false = true then r.1 else (("a\nb\nc".toList.count '\n' : Nat) : Int)) <
            2 ^ 63 →
          w2.size = w1.size +
            (if false = true then r.1 else (("a\nb\nc".toList.count '\n' : Nat) : Int))) ∧
        r = ((k : Int), e) ∧ k ≤ "a\nb\nc".toList.length ∧
        (e = none → k = "a\nb\nc".toList.length)) :=
  ⟨by decide,
    RotateWriter.write_size_update ⟨exTarget, 2, 100, 0, false, some exTarget, []⟩ "a\nb\nc".toList
      ⟨["tmp".toList], [(exTarget, .file [])], [exTarget], exClock, [], []⟩ (by decide)⟩

/-- C19. Let `(w1, fs1)` be the state after the rotation step of `Write`;
it is the state on entry when no handle is open on entry. If `w1` has no
handle and opening the target fails with `e`, `Write` returns `(0, e)` and the
writer is `w1`: no handle, same size. Otherwise the handle `h` is the one of
`w1` or the one just opened, the call ends with exactly one write, of the whole
of `p`, to `h`, and `Write` returns the count and the error of that write. The
steps before it make no write to a file. -/
theorem RotateWriter.write_open_failure_or_single_write (w : RotateWriter) (p : Bytes) (fs : FS)
    (hm : w.maxFiles ≠ 0) :
    ∃ w1 fs1 evs,
      w.rotateStep fs = some (w1, fs1) ∧
      fs1.trace = fs.trace ++ evs ∧ (∀ ev ∈ evs, ev.op.kind ≠ .write) ∧
      (w.file = none → w1 = w ∧ fs1 = fs) ∧
      (∀ e, w1.file = none → (osOpenFile w1.filename fs1).1 = .error e →
        w.Write p fs = some ((0, some e), w1, (osOpenFile w1.filename fs1).2)) ∧
      (¬ (w1.file = none ∧ ∃ e, (osOpenFile w1.filename fs1).1 = .error e) →
        ∃ (h : Path) (fs2 : FS) (k : Nat) (e : Option Err) (w2 : RotateWriter),
          (w1.file = some h ∧ fs2 = fs1 ∨
            w1.file = none ∧ osOpenFile w1.filename fs1 = (.ok h, fs2)) ∧
          w.Write p fs =
            some (((k : Int), e), w2, (fs2.append h (p.take k)).logAll [⟨.write h p, k, e⟩]) ∧
          w2.file = some h) := by
  obtain ⟨w1, fs1, evs, added, removed, h1, h2, h3, h4, h5, h6, h7, _⟩ := rotateStep_full w fs
  refine ⟨w1, fs1, evs, h1, h4, ?_, fun hf => h7 (by simp [hf]), ?_, ?_⟩
  · intro ev hev hk
    have := h5 ev hev
    rw [hk] at this
    simp at this
  · intro e hf ho
    rw [Write_eq_steps w p fs hm, h1]
    simp only
    rcases payloadStep_cases w1 p fs1 with ⟨_, e', ho', hp⟩ | ⟨h, fs2, k, e', hopen, _⟩
    · rw [ho'] at ho ⊢
      cases ho
      rw [hp]
    · rcases hopen with ⟨hf', _⟩ | ⟨_, _, ho'⟩
      · rw [hf] at hf'; cases hf'
      · rw [ho'] at ho; cases ho
  · intro hn
    rw [Write_eq_steps w p fs hm, h1]
    simp only
    rcases payloadStep_cases w1 p fs1 with ⟨hf, e', ho', _⟩ | ⟨h, fs2, k, e', hopen, hp, _, _⟩
    · exact absurd ⟨hf, e', by rw [ho']⟩ hn
    · refine ⟨h, fs2, k, e', _, ?_, by rw [hp], rfl⟩
      rcases hopen with hh | ⟨hf, _, ho⟩
      · exact Or.inl hh
      · exact Or.inr ⟨hf, ho⟩

theorem RotateWriter.write_open_failure_or_single_write_witness :
    (2 : Int) ≠ 0 ∧
    ∃ w1 fs1 evs,
      RotateWriter.rotateStep ⟨exTarget, 2, 12, 0, true, none, []⟩
          ⟨[], [], [], exClock, [], []⟩ = some (w1, fs1) ∧
      fs1.trace = [] ++ evs ∧ (∀ ev ∈ evs, ev.op.kind ≠ .write) ∧
      ((none : Option Path) = none →
        w1 = ⟨exTarget, 2, 12, 0, true, none, []⟩ ∧ fs1 = ⟨[], [], [], exClock, [], []⟩) ∧
      (∀ e, w1.file = none → (osOpenFile w1.filename fs1).1 = .error e →
        RotateWriter.Write ⟨exTarget, 2, 12, 0, true, none, []⟩ "some content".toList
            ⟨[], [], [], exClock, [], []⟩ =
          some ((0, some e), w1, (osOpenFile w1.filename fs1).2)) ∧
      (¬ (w1.file = none ∧ ∃ e, (osOpenFile w1.filename fs1).1 = .error e) →
        ∃ (h : Path) (fs2 : FS) (k : Nat) (e : Option Err) (w2 : RotateWriter),
          (w1.file = some h ∧ fs2 = fs1 ∨
            w1.file = none ∧ osOpenFile w1.filename fs1 = (.ok h, fs2)) ∧
          RotateWriter.Write ⟨exTarget, 2, 12, 0, true, none, []⟩ "some content".toList
              ⟨[], [], [], exClock, [], []⟩ =
            some (((k : Int), e), w2,
              (fs2.append h ("some content".toList.take k)).logAll
                [⟨.write h "some content".toList, k, e⟩]) ∧
          w2.file = some h) :=
  ⟨by decide,
    RotateWriter.write_open_failure_or_single_write ⟨exTarget, 2, 12, 0, true, none, []⟩
      "some content".toList ⟨[], [], [], exClock, [], []⟩ (by decide)⟩

/-! ## Writes with the rotation disabled by a zero threshold -/

theorem find_append_nodes (h : Path) (b : Bytes) (q : Path) : ∀ nodes : List (Path × Node),
    ((nodes.map (fun e =>
        if e.1 = h then
          match e.2 with
          | .file c => (e.1, Node.file (c ++ b))
          | .dir => e
        else e)).find? (fun e => e.1 = q)).map Prod.snd =
      if q = h then
        ((nodes.find? (fun e => e.1 = q)).map Prod.snd).map
          (fun nd => match nd with
            | .file c => Node.file (c ++ b)
            | .dir => Node.dir)
      else (nodes.find? (fun e => e.1 = q)).map Prod.snd
  | [] => by simp
  | (p, nd) :: rest => by
    have ih := find_append_nodes h b q rest
    by_cases hq : q = h
    · subst hq
      rw [if_pos rfl] at ih ⊢
      by_cases hp : p = q
      · subst hp
        cases nd <;> simp [List.find?]
      · have hp' : ¬ (p = q) := hp
        simp only [List.map_cons, if_neg hp']
        rw [List.find?_cons_of_neg _ (by simpa using hp), List.find?_cons_of_neg _ (by simpa using hp)]
        exact ih
    · rw [if_neg hq] at ih ⊢
      by_cases hp : p = h
      · subst hp
        have hpq : ¬ (p = q) := fun e => hq e.symm
        simp only [List.map_cons, if_pos]
        rw [List.find?_cons_of_neg _ (by cases nd <;> simpa using hpq),
          List.find?_cons_of_neg _ (by simpa using hpq)]
        exact ih
      · simp only [List.map_cons, if_neg hp]
        by_cases hpq : p = q
        · subst hpq
          simp [List.find?]
        · rw [List.find?_cons_of_neg _ (by simpa using hpq),
            List.find?_cons_of_neg _ (by simpa using hpq)]
          exact ih

theorem FS.find_append_ne (fs : FS) (h : Path) (b : Bytes) (q : Path) (hq : q ≠ h) :
    (fs.append h b).find q = fs.find q := by
  have := find_append_nodes h b q fs.nodes
  rw [if_neg hq] at this
  exact this

theorem FS.find_append_file (fs : FS) (h : Path) (b c : Bytes)
    (hf : fs.find h = some (.file c)) :
    (fs.append h b).find h = some (.file (c ++ b)) := by
  have := find_append_nodes h b h fs.nodes
  rw [if_pos rfl] at this
  unfold FS.find at hf
  rw [hf] at this
  exact this

theorem osOpenFile_find (p h : Path) (fs fs2 : FS) (ho : osOpenFile p fs = (.ok h, fs2)) :
    h = p ∧ p ∈ fs2.opened ∧ fs2.trace = fs.trace ++ [⟨.openFile p, 0, none⟩] ∧
    (∀ q, q ≠ p → fs2.find q = fs.find q) ∧
    ∃ c0, (fs.find p = some (.file c0) ∨ (fs.find p = none ∧ c0 = [])) ∧
      fs2.find p = some (.file c0) := by
  rcases osOpenFile_cases p fs with ⟨e, he⟩ | ⟨nodes, ho', _, hn⟩
  · rw [he] at ho; cases ho
  · rw [ho'] at ho
    simp only [Prod.mk.injEq, Except.ok.injEq] at ho
    obtain ⟨rfl, rfl⟩ := ho
    refine ⟨rfl, by simp [FS.logAll, FS.setOpened], rfl, ?_, ?_⟩
    · intro q hq
      rcases hn with ⟨rfl, _⟩ | ⟨rfl, _⟩
      · rfl
      · have hq' : ¬ (p = q) := fun e => hq e.symm
        simp [FS.find, FS.logAll, FS.setOpened, FS.setNodes, List.find?_append, List.find?, hq']
    · rcases hn with ⟨rfl, c, hc⟩ | ⟨rfl, hc⟩
      · exact ⟨c, Or.inl hc, hc⟩
      · refine ⟨[], Or.inr ⟨hc, rfl⟩, ?_⟩
        unfold FS.find at hc
        simp only [Option.map_eq_none'] at hc
        simp [FS.find, FS.logAll, FS.setOpened, FS.setNodes, List.find?_append, hc, List.find?]

theorem Write_without_rotation (w : RotateWriter) (p : Bytes) (fs : FS) (hm : w.maxFiles ≠ 0)
    (hs : w.rotateStep fs = some (w, fs))
    (hinv : w.file = none ∨
      (w.file = some w.filename ∧ ∃ c, fs.find w.filename = some (.file c))) :
    ∃ r w1 fs1 evs,
      w.Write p fs = some (r, w1, fs1) ∧
      w1 = { w with file := w1.file, size := w1.size } ∧
      (w1.file = none ∨
        (w1.file = some w.filename ∧ ∃ c, fs1.find w.filename = some (.file c))) ∧
      fs1.trace = fs.trace ++ evs ∧
      (∀ ev ∈ evs, ev.op.kind = .openFile ∨ ev.op.kind = .write) ∧
      (∀ q, q ≠ w.filename → fs1.find q = fs.find q) ∧
      (r.2 = none → r.1 = (p.length : Int) ∧
        ∃ c0, (fs.find w.filename = some (.file c0) ∨ (fs.find w.filename = none ∧ c0 = [])) ∧
          fs1.find w.filename = some (.file (c0 ++ p))) := by
  rw [Write_eq_steps w p fs hm, hs]
  simp only
  rcases payloadStep_cases w p fs with ⟨hf, e, _, hp⟩ | ⟨h, fs2, k, e, hopen, hp, _, hk⟩
  · rw [hp]
    refine ⟨_, _, _, [⟨.openFile w.filename, 0, some e⟩], rfl, rfl, Or.inl hf, rfl, ?_, ?_, ?_⟩
    · intro ev hev
      rw [List.mem_singleton.mp hev]
      exact Or.inl rfl
    · intro q _
      exact FS.find_logAll _ _ _
    · intro he
      cases he
  · rw [hp]
    have key : h = w.filename ∧
        (∃ opens, fs2.trace = fs.trace ++ opens ∧ ∀ ev ∈ opens, ev.op.kind = .openFile) ∧
        (∀ q, q ≠ w.filename → fs2.find q = fs.find q) ∧
        ∃ c0, (fs.find w.filename = some (.file c0) ∨ (fs.find w.filename = none ∧ c0 = [])) ∧
          fs2.find w.filename = some (.file c0) := by
      rcases hopen with ⟨hf, rfl⟩ | ⟨hf, rfl, ho⟩
      · rcases hinv with hn | ⟨hs', c, hc⟩
        · rw [hn] at hf; cases hf
        · rw [hs'] at hf
          cases hf
          exact ⟨rfl, ⟨[], by simp, by simp⟩, fun _ _ => rfl, c, Or.inl hc, hc⟩
      · obtain ⟨_, _, h3, h4, h5⟩ := osOpenFile_find _ _ _ _ ho
        exact ⟨rfl, ⟨_, h3, by simp [Op.kind]⟩, h4, h5⟩
    obtain ⟨rfl, ⟨opens, ht, hkind⟩, hoth, c0, hc0, hfind⟩ := key
    refine ⟨_, _, _, opens ++ [⟨.write w.filename p, k, e⟩], rfl, rfl, Or.inr ⟨rfl, c0 ++ p.take k, ?_⟩, ?_, ?_,
      ?_, ?_⟩
    · rw [FS.find_logAll]
      exact FS.find_append_file _ _ _ _ hfind
    · simp [FS.logAll, FS.append, FS.setNodes, ht]
    · intro ev hev
      rcases List.mem_append.mp hev with hev | hev
      · exact Or.inl (hkind ev hev)
      · rw [List.mem_singleton.mp hev]
        exact Or.inr rfl
    · intro q hq
      rw [FS.find_logAll, FS.find_append_ne _ _ _ _ hq]
      exact hoth q hq
    · intro he
      have hk' := (hk he).1
      subst hk'
      refine ⟨rfl, c0, hc0, ?_⟩
      rw [FS.find_logAll, List.take_length]
      exact FS.find_append_file _ _ _ _ hfind

theorem Write_zero_threshold (w : RotateWriter) (p : Bytes) (fs : FS) (hm : w.maxFiles ≠ 0)
    (hz : w.maxSize = 0)
    (hinv : w.file = none ∨
      (w.file = some w.filename ∧ ∃ c, fs.find w.filename = some (.file c))) :
    ∃ r w1 fs1 evs,
      w.Write p fs = some (r, w1, fs1) ∧
      w1 = { w with file := w1.file, size := w1.size } ∧
      (w1.file = none ∨
        (w1.file = some w.filename ∧ ∃ c, fs1.find w.filename = some (.file c))) ∧
      fs1.trace = fs.trace ++ evs ∧
      (∀ ev ∈ evs, ev.op.kind = .openFile ∨ ev.op.kind = .write) ∧
      (∀ q, q ≠ w.filename → fs1.find q = fs.find q) ∧
      (r.2 = none → r.1 = (p.length : Int) ∧
        ∃ c0, (fs.find w.filename = some (.file c0) ∨ (fs.find w.filename = none ∧ c0 = [])) ∧
          fs1.find w.filename = some (.file (c0 ++ p))) := by
  refine Write_without_rotation w p fs hm ?_ hinv
  unfold RotateWriter.rotateStep
  rw [if_neg (by rw [hz]; simp)]

theorem WriteAll_zero_threshold : ∀ (ps : List Bytes) (w : RotateWriter) (fs : FS),
    w.maxFiles ≠ 0 → w.maxSize = 0 →
    (w.file = none ∨ (w.file = some w.filename ∧ ∃ c, fs.find w.filename = some (.file c))) →
    ∃ rs w1 fs1 evs,
      RotateWriter.WriteAll ps w fs = some (rs, w1, fs1) ∧
      w1 = { w with file := w1.file, size := w1.size } ∧
      fs1.trace = fs.trace ++ evs ∧
      (∀ ev ∈ evs, ev.op.kind = .openFile ∨ ev.op.kind = .write) ∧
      (∀ q, q ≠ w.filename → fs1.find q = fs.find q) ∧
      ((∀ r ∈ rs, r.2 = none) →
        rs = ps.map (fun p => ((p.length : Int), none)) ∧
        ∀ c, fs.find w.filename = some (.file c) →
          fs1.find w.filename = some (.file (c ++ ps.flatten)))
  | [], w, fs, _, _, _ =>
    ⟨[], w, fs, [], rfl, rfl, by simp, by simp, fun _ _ => rfl, fun _ => ⟨rfl, by simp⟩⟩
  | p :: ps, w, fs, hm, hz, hinv => by
    obtain ⟨r, w1, fs1, evs, h1, h2, h3, h4, h5, h6, h7⟩ := Write_zero_threshold w p fs hm hz hinv
    have hfn : w1.filename = w.filename := by rw [h2]
    obtain ⟨rs, w2, fs2, evs2, g1, g2, g3, g4, g5, g6⟩ :=
      WriteAll_zero_threshold ps w1 fs1 (by rw [h2]; exact hm) (by rw [h2]; exact hz)
        (by rw [hfn]; exact h3)
    rw [hfn] at g5 g6
    refine ⟨r :: rs, w2, fs2, evs ++ evs2, ?_, ?_, ?_, ?_, ?_, ?_⟩
    · simp only [RotateWriter.WriteAll, h1, g1]
    · rw [g2, h2]
    · rw [g3, h4, List.append_assoc]
    · intro ev hev
      rcases List.mem_append.mp hev with h | h
      · exact h5 ev h
      · exact g4 ev h
    · intro q hq
      rw [g5 q hq, h6 q hq]
    · intro hall
      have hr : r.2 = none := hall r (List.mem_cons_self _ _)
      obtain ⟨hlen, c0, hc0, hfind⟩ := h7 hr
      obtain ⟨hrs, hcont⟩ := g6 (fun r' hr' => hall r' (List.mem_cons_of_mem _ hr'))
      refine ⟨?_, ?_⟩
      · rw [List.map_cons, ← hrs]
        congr 1
        exact Prod.ext hlen hr
      · intro c hc
        rcases hc0 with hc0 | ⟨hc0, _⟩
        · rw [hc0] at hc
          cases hc
          rw [hcont _ hfind]
          simp
        · rw [hc0] at hc
          cases hc

/-- C14. A writer with threshold 0 and retention other than 0, whose handle,
if it has one, is open on the target file. Every sequence of writes returns;
the history is unchanged; the only system calls are openings of the target
and writes; every path other than the target keeps its entry; and when every
write returned no error, the target holds what it held before (nothing if it
did not exist) followed by all the payloads in order. The threshold given to the
constructor as 0 is 0 in every unit. A writer constructed with threshold 0 on
an empty directory, after two writes of `"some content"`, has the only file
`"some contentsome content"` and an empty history. -/
theorem RotateWriter.write_zero_threshold_never_rotates (ps : List Bytes) (w : RotateWriter)
    (fs : FS) (hm : w.maxFiles ≠ 0) (hz : w.maxSize = 0)
    (hinv : w.file = none ∨
      (w.file = some w.filename ∧ ∃ c, fs.find w.filename = some (.file c))) :
    (∃ rs w1 fs1 evs,
      RotateWriter.WriteAll ps w fs = some (rs, w1, fs1) ∧
      w1.history = w.history ∧
      fs1.trace = fs.trace ++ evs ∧
      (∀ ev ∈ evs, ev.op.kind = .openFile ∨ ev.op.kind = .write) ∧
      (∀ q, q ≠ w.filename → fs1.find q = fs.find q) ∧
      ((∀ r ∈ rs, r.2 = none) → ps ≠ [] →
        ∃ c0, (fs.find w.filename = some (.file c0) ∨ (fs.find w.filename = none ∧ c0 = [])) ∧
          fs1.content w.filename = some (c0 ++ ps.flatten))) ∧
    (∀ sizeUnit : Bytes, computeMaxSize 0 sizeUnit = 0) ∧
    (NewRotateWriter exTarget 2 0 "bytes".toList true ⟨["tmp".toList], [], [], exClock, [], []⟩ =
        some (.ok ⟨exTarget, 2, 0, 0, true, some exTarget, []⟩,
          ⟨["tmp".toList], [(exTarget, .file [])], [exTarget], exClock, [],
            [⟨.readDir "tmp".toList, 0, none⟩, ⟨.stat exTarget, 0, some ErrNotExist⟩,
              ⟨.openFile exTarget, 0, none⟩, ⟨.write exTarget [], 0, none⟩]⟩) ∧
      RotateWriter.WriteAll ["some content".toList, "some content".toList]
          ⟨exTarget, 2, 0, 0, true, some exTarget, []⟩
          ⟨["tmp".toList], [(exTarget, .file [])], [exTarget], exClock, [],
            [⟨.readDir "tmp".toList, 0, none⟩, ⟨.stat exTarget, 0, some ErrNotExist⟩,
              ⟨.openFile exTarget, 0, none⟩, ⟨.write exTarget [], 0, none⟩]⟩ =
        some ([(12, none), (12, none)], ⟨exTarget, 2, 0, 24, true, some exTarget, []⟩,
          ⟨["tmp".toList], [(exTarget, .file "some contentsome content".toList)], [exTarget],
            exClock, [],
            [⟨.readDir "tmp".toList, 0, none⟩, ⟨.stat exTarget, 0, some ErrNotExist⟩,
              ⟨.openFile exTarget, 0, none⟩, ⟨.write exTarget [], 0, none⟩,
              ⟨.write exTarget "some content".toList, 12, none⟩,
              ⟨.write exTarget "some content".toList, 12, none⟩]⟩)) := by
  refine ⟨?_, fun sizeUnit => by unfold computeMaxSize; split_ifs <;> rfl, by decide, by decide⟩
  cases ps with
  | nil => exact ⟨[], w, fs, [], rfl, rfl, by simp, by simp, fun _ _ => rfl, fun _ h => absurd rfl h⟩
  | cons p ps =>
    obtain ⟨r, w1, fs1, evs, h1, h2, h3, h4, h5, h6, h7⟩ := Write_zero_threshold w p fs hm hz hinv
    have hfn : w1.filename = w.filename := by rw [h2]
    obtain ⟨rs, w2, fs2, evs2, g1, g2, g3, g4, g5, g6⟩ :=
      WriteAll_zero_threshold ps w1 fs1 (by rw [h2]; exact hm) (by rw [h2]; exact hz)
        (by rw [hfn]; exact h3)
    rw [hfn] at g5 g6
    refine ⟨r :: rs, w2, fs2, evs ++ evs2, ?_, ?_, ?_, ?_, ?_, ?_⟩
    · simp only [RotateWriter.WriteAll, h1, g1]
    · rw [g2, h2]
    · rw [g3, h4, List.append_assoc]
    · intro ev hev
      rcases List.mem_append.mp hev with h | h
      · exact h5 ev h
      · exact g4 ev h
    · intro q hq
      rw [g5 q hq, h6 q hq]
    · intro hall _
      obtain ⟨_, c0, hc0, hfind⟩ := h7 (hall r (List.mem_cons_self _ _))
      obtain ⟨_, hcont⟩ := g6 (fun r' hr' => hall r' (List.mem_cons_of_mem _ hr'))
      refine ⟨c0, hc0, ?_⟩
      simp [FS.content, hcont _ hfind]

theorem RotateWriter.write_zero_threshold_never_rotates_witness :
    (2 : Int) ≠ 0 ∧ (0 : Int) = 0 ∧
    ((none : Option Path) = none ∨
      ((none : Option Path) = some exTarget ∧
        ∃ c, FS.find ⟨["tmp".toList], [], [], exClock, [], []⟩ exTarget = some (.file c))) ∧
    ((∃ rs w1 fs1 evs,
      RotateWriter.WriteAll ["some content".toList, "some content".toList]
          ⟨exTarget, 2, 0, 0, true, none, []⟩ ⟨["tmp".toList], [], [], exClock, [], []⟩ =
        some (rs, w1, fs1) ∧
      w1.history = [] ∧
      fs1.trace = [] ++ evs ∧
      (∀ ev ∈ evs, ev.op.kind = .openFile ∨ ev.op.kind = .write) ∧
      (∀ q, q ≠ exTarget → fs1.find q = FS.find ⟨["tmp".toList], [], [], exClock, [], []⟩ q) ∧
      ((∀ r ∈ rs, r.2 = none) → ["some content".toList, "some content".toList] ≠ [] →
        ∃ c0, (FS.find ⟨["tmp".toList], [], [], exClock, [], []⟩ exTarget = some (.file c0) ∨
            (FS.find ⟨["tmp".toList], [], [], exClock, [], []⟩ exTarget = none ∧ c0 = [])) ∧
          fs1.content exTarget =
            some (c0 ++ ["some content".toList, "some content".toList].flatten))) ∧
    (∀ sizeUnit : Bytes, computeMaxSize 0 sizeUnit = 0) ∧
    (NewRotateWriter exTarget 2 0 "bytes".toList true ⟨["tmp".toList], [], [], exClock, [], []⟩ =
        some (.ok ⟨exTarget, 2, 0, 0, true, some exTarget, []⟩,
          ⟨["tmp".toList], [(exTarget, .file [])], [exTarget], exClock, [],
            [⟨.readDir "tmp".toList, 0, none⟩, ⟨.stat exTarget, 0, some ErrNotExist⟩,
              ⟨.openFile exTarget, 0, none⟩, ⟨.write exTarget [], 0, none⟩]⟩) ∧
      RotateWriter.WriteAll ["some content".toList, "some content".toList]
          ⟨exTarget, 2, 0, 0, true, some exTarget, []⟩
          ⟨["tmp".toList], [(exTarget, .file [])], [exTarget], exClock, [],
            [⟨.readDir "tmp".toList, 0, none⟩, ⟨.stat exTarget, 0, some ErrNotExist⟩,
              ⟨.openFile exTarget, 0, none⟩, ⟨.write exTarget [], 0, none⟩]⟩ =
        some ([(12, none), (12, none)], ⟨exTarget, 2, 0, 24, true, some exTarget, []⟩,
          ⟨["tmp".toList], [(exTarget, .file "some contentsome content".toList)], [exTarget],
            exClock, [],
            [⟨.readDir "tmp".toList, 0, none⟩, ⟨.stat exTarget, 0, some ErrNotExist⟩,
              ⟨.openFile exTarget, 0, none⟩, ⟨.write exTarget [], 0, none⟩,
              ⟨.write exTarget "some content".toList, 12, none⟩,
              ⟨.write exTarget "some content".toList, 12, none⟩]⟩))) :=
  ⟨by decide, rfl, Or.inl rfl,
    RotateWriter.write_zero_threshold_never_rotates
      ["some content".toList, "some content".toList]
      ⟨exTarget, 2, 0, 0, true, none, []⟩ ⟨["tmp".toList], [], [], exClock, [], []⟩
      (by decide) rfl (Or.inl rfl)⟩

/-! ## Line mode -/

theorem write_line_below_threshold (p : Bytes) (target : Path) (m : Int) (N k : Nat)
    (hist : List Path) (dirs : List Bytes) (c : Bytes) (opened : List Path) (now : Time)
    (trace : List Event) (hm : m ≠ 0) (ho : target ∈ opened) (hk : k < N)
    (hb : ((k + p.count '\n' : Nat) : Int) < 2 ^ 63) :
    RotateWriter.Write ⟨target, m, N, k, false, some target, hist⟩ p
        ⟨dirs, [(target, .file c)], opened, now, [], trace⟩ =
      some (((p.length : Int), none),
        ⟨target, m, N, ((k + p.count '\n' : Nat) : Int), false, some target, hist⟩,
        ⟨dirs, [(target, .file (c ++ p))], opened, now, [],
          trace ++ [⟨.write target p, p.length, none⟩]⟩) := by
  have hk' : ¬ ((N : Int) ≤ k) := by omega
  have hw : wrapInt64 ((k : Int) + ((p.count '\n' : Nat) : Int)) =
      (k : Int) + ((p.count '\n' : Nat) : Int) :=
    wrapInt64_eq _ (by omega) (by push_cast at hb; omega)
  simp [RotateWriter.Write, fileWrite, FS.fault, FS.log, FS.append, FS.setNodes, lineCount,
    hm, ho, hk', hw]

theorem writeAll_lines_below_threshold (target : Path) (m : Int) (N : Nat)
    (hist : List Path) (dirs : List Bytes) (opened : List Path) (now : Time)
    (hm : m ≠ 0) (ho : target ∈ opened) (hN : (N : Int) < 2 ^ 63) (rest : List Bytes) :
    ∀ (ps : List Bytes) (k : Nat) (c : Bytes) (trace : List Event),
      k + ps.flatten.count '\n' < N →
      RotateWriter.WriteAll (ps ++ rest) ⟨target, m, N, k, false, some target, hist⟩
          ⟨dirs, [(target, .file c)], opened, now, [], trace⟩ =
        (RotateWriter.WriteAll rest
            ⟨target, m, N, ((k + ps.flatten.count '\n' : Nat) : Int), false, some target, hist⟩
            ⟨dirs, [(target, .file (c ++ ps.flatten))], opened, now, [],
              trace ++ ps.map (fun p => ⟨.write target p, p.length, none⟩)⟩).map
          (fun x => (ps.map (fun p => ((p.length : Int), none)) ++ x.1, x.2))
  | [], k, c, trace, _ => by
    simp
  | p :: ps, k, c, trace, h1 => by
    have h1' : k + (p.count '\n' + ps.flatten.count '\n') < N := by simpa using h1
    have hw := write_line_below_threshold p target m N k hist dirs c opened now trace hm ho
      (by omega) (by omega)
    have ih := writeAll_lines_below_threshold target m N hist dirs opened now hm ho hN rest ps
      (k + p.count '\n') (c ++ p) (trace ++ [⟨.write target p, p.length, none⟩]) (by omega)
    rw [List.cons_append]
    simp only [RotateWriter.WriteAll, hw]
    have e1 : k + (p :: ps).flatten.count '\n' = k + p.count '\n' + ps.flatten.count '\n' := by
      simp [Nat.add_assoc]
    have e2 : c ++ (p :: ps).flatten = c ++ p ++ ps.flatten := by simp
    have e3 : trace ++ (p :: ps).map (fun p => (⟨.write target p, p.length, none⟩ : Event)) =
        trace ++ [⟨.write target p, p.length, none⟩] ++
          ps.map (fun p => (⟨.write target p, p.length, none⟩ : Event)) := by simp
    rw [ih, e1, e2, e3]
    cases RotateWriter.WriteAll rest _ _ with
    | none => rfl
    | some x => rfl

theorem line_rotation_scenario (lastp q : Bytes) (target : Path) (m : Int) (N k : Nat)
    (dirs : List Bytes) (c : Bytes) (opened : List Path) (now : Time) (trace : List Event)
    (hm : 2 ≤ m ∨ m < 0) (ho : target ∈ opened) (hd : target.dir ∈ dirs)
    (hk : k < N) (hN : N ≤ k + lastp.count '\n')
    (hb : ((k + lastp.count '\n' : Nat) : Int) < 2 ^ 63)
    (hq : ((q.count '\n' : Nat) : Int) < 2 ^ 63) :
    RotateWriter.WriteAll [lastp, q] ⟨target, m, N, k, false, some target, []⟩
        ⟨dirs, [(target, .file c)], opened, now, [], trace⟩ =
      some ([((lastp.length : Int), none), ((q.length : Int), none)],
        ⟨target, m, N, (q.count '\n' : Nat), false, some target, [rotatedName target now]⟩,
        ⟨dirs, [(rotatedName target now, .file (c ++ lastp)), (target, .file q)],
          target :: opened.erase target, now, [],
          trace ++ [⟨.write target lastp, lastp.length, none⟩, ⟨.close target, 0, none⟩,
            ⟨.stat target, 0, none⟩, ⟨.stat (rotatedName target now), 0, some ErrNotExist⟩,
            ⟨.rename target (rotatedName target now), 0, none⟩, ⟨.openFile target, 0, none⟩,
            ⟨.write target q, q.length, none⟩]⟩) := by
  have hne := rotatedName_ne target now
  have hne' : target ≠ _ := hne.symm
  have hm0 : m ≠ 0 := by omega
  have hw := write_line_below_threshold lastp target m N k [] dirs c opened now trace hm0 ho hk hb
  simp only [RotateWriter.WriteAll, hw]
  have hqc : wrapInt64 ((q.count '\n' : Nat) : Int) = ((q.count '\n' : Nat) : Int) :=
    wrapInt64_eq _ (by omega) hq
  have h1 : (0 : Int) < N := by omega
  have h2 : (N : Int) ≤ ((k + lastp.count '\n' : Nat) : Int) := by omega
  have h2' : (N : Int) ≤ (k : Int) + (lastp.count '\n' : Nat) := by omega
  rcases hm with hm | hm
  · have hm1 : ¬ (m < 0) := by omega
    have hm2 : ¬ (m ≤ 1) := by omega
    simp [RotateWriter.Write, RotateWriter.rotateAndPrune, RotateWriter.rotate,
      RotateWriter.prune, pruneLoop, RotateWriter.increaseSize, fileWrite, fileClose, osStat,
      osRename, osOpenFile, appendSuffixToFile, FS.fault, FS.find, FS.log, FS.append, FS.setNodes,
      FS.setOpened, lineCount, ho, hd, hne, hne', hm0, hm1, hm2, h1, h2, h2', hqc]
  · simp [RotateWriter.Write, RotateWriter.rotateAndPrune, RotateWriter.rotate,
      RotateWriter.prune, pruneLoop, RotateWriter.increaseSize, fileWrite, fileClose, osStat,
      osRename, osOpenFile, appendSuffixToFile, FS.fault, FS.find, FS.log, FS.append, FS.setNodes,
      FS.setOpened, lineCount, ho, hd, hne, hne', hm0, hm, h1, h2, h2', hqc]

theorem count_newline_of_line (p : Bytes) (h : ∃ body, p = body ++ ['\n'] ∧ '\n' ∉ body) :
    p.count '\n' = 1 := by
  obtain ⟨body, rfl, hb⟩ := h
  simp [List.count_eq_zero_of_not_mem hb]

theorem count_newline_of_lines : ∀ (lines : List Bytes),
    (∀ p ∈ lines, ∃ body, p = body ++ ['\n'] ∧ '\n' ∉ body) →
    lines.flatten.count '\n' = lines.length
  | [], _ => rfl
  | p :: ps, h => by
    rw [List.flatten_cons, List.count_append, count_newline_of_line p (h p (List.mem_cons_self _ _)),
      count_newline_of_lines ps (fun x hx => h x (List.mem_cons_of_mem _ hx)), List.length_cons]
    omega

theorem writeAll_lines_scenario (front : List Bytes) (lastp q : Bytes) (target : Path) (m : Int)
    (dirs : List Bytes) (opened : List Path) (now : Time) (trace : List Event)
    (hm : 2 ≤ m ∨ m < 0) (ho : target ∈ opened) (hd : target.dir ∈ dirs)
    (hlast : 1 ≤ lastp.count '\n')
    (hN : (((front ++ [lastp]).flatten.count '\n' : Nat) : Int) < 2 ^ 63)
    (hq : ((q.count '\n' : Nat) : Int) < 2 ^ 63) :
    RotateWriter.WriteAll (front ++ [lastp, q])
        ⟨target, m, ((front ++ [lastp]).flatten.count '\n' : Nat), 0, false, some target, []⟩
        ⟨dirs, [(target, .file [])], opened, now, [], trace⟩ =
      some ((front ++ [lastp, q]).map (fun p => ((p.length : Int), none)),
        ⟨target, m, ((front ++ [lastp]).flatten.count '\n' : Nat), (q.count '\n' : Nat), false,
          some target, [rotatedName target now]⟩,
        ⟨dirs, [(rotatedName target now, .file (front ++ [lastp]).flatten), (target, .file q)],
          target :: opened.erase target, now, [],
          trace ++ (front ++ [lastp]).map (fun p => ⟨.write target p, p.length, none⟩) ++
            [⟨.close target, 0, none⟩, ⟨.stat target, 0, none⟩,
              ⟨.stat (rotatedName target now), 0, some ErrNotExist⟩,
              ⟨.rename target (rotatedName target now), 0, none⟩, ⟨.openFile target, 0, none⟩,
              ⟨.write target q, q.length, none⟩]⟩) := by
  have hcount : (front ++ [lastp]).flatten.count '\n' =
      front.flatten.count '\n' + lastp.count '\n' := by simp
  have hm0 : m ≠ 0 := by omega
  have h1 := writeAll_lines_below_threshold target m ((front ++ [lastp]).flatten.count '\n') []
    dirs opened now hm0 ho hN [lastp, q] front 0 [] trace (by omega)
  have h2 := line_rotation_scenario lastp q target m ((front ++ [lastp]).flatten.count '\n')
    (0 + front.flatten.count '\n') dirs ([] ++ front.flatten) opened now
    (trace ++ front.map (fun p => ⟨.write target p, p.length, none⟩)) hm ho hd (by omega)
    (by omega) (by rw [hcount] at hN; simpa using hN) hq
  have h0 : ((0 : Nat) : Int) = 0 := rfl
  rw [h0] at h1
  rw [h1, h2]
  simp

/-! ## Properties of the specification: line mode -/

/-- C16. In line mode (`inBytes` false), from an open and empty target
with an empty history, and with a retention `m ≥ 2` or `m < 0`.
First part: `lines` are `N ≥ 1` payloads and `q` one more, each of them one
line ended by its only `'\n'`, and the threshold is `N`. The `N + 1` writes
all succeed; the system calls are the `N` writes of `lines`, then, within the
last call of `Write`, one close, the rename of the target to its rotated
name, the opening of a new target and the write of `q`; at the end the
rotated file holds the `N` lines, the target holds `q`, the history is the
rotated name and the size is 1.
Second part: the same with any payloads `front ++ [lastp]` before `q`, where
`lastp` holds a newline and the threshold is the number of newline bytes of
`front ++ [lastp]`; the payloads of `front` that hold no newline count
for nothing. The thresholds and the number of newline bytes of `q` are
`int64` values, below `2^63`. -/
theorem RotateWriter.write_counts_lines :
    (∀ (lines : List Bytes) (q : Bytes) (target : Path) (m : Int) (dirs : List Bytes)
        (opened : List Path) (now : Time) (trace : List Event),
      (2 ≤ m ∨ m < 0) → target ∈ opened → target.dir ∈ dirs → 1 ≤ lines.length →
      (lines.length : Int) < 2 ^ 63 →
      (∀ p ∈ lines ++ [q], ∃ body, p = body ++ ['\n'] ∧ '\n' ∉ body) →
      RotateWriter.WriteAll (lines ++ [q])
          ⟨target, m, (lines.length : Nat), 0, false, some target, []⟩
          ⟨dirs, [(target, .file [])], opened, now, [], trace⟩ =
        some ((lines ++ [q]).map (fun p => ((p.length : Int), none)),
          ⟨target, m, (lines.length : Nat), 1, false, some target, [rotatedName target now]⟩,
          ⟨dirs, [(rotatedName target now, .file lines.flatten), (target, .file q)],
            target :: opened.erase target, now, [],
            trace ++ lines.map (fun p => ⟨.write target p, p.length, none⟩) ++
              [⟨.close target, 0, none⟩, ⟨.stat target, 0, none⟩,
                ⟨.stat (rotatedName target now), 0, some ErrNotExist⟩,
                ⟨.rename target (rotatedName target now), 0, none⟩, ⟨.openFile target, 0, none⟩,
                ⟨.write target q, q.length, none⟩]⟩)) ∧
    (∀ (front : List Bytes) (lastp q : Bytes) (target : Path) (m : Int) (dirs : List Bytes)
        (opened : List Path) (now : Time) (trace : List Event),
      (2 ≤ m ∨ m < 0) → target ∈ opened → target.dir ∈ dirs → 1 ≤ lastp.count '\n' →
      (((front ++ [lastp]).flatten.count '\n' : Nat) : Int) < 2 ^ 63 →
      ((q.count '\n' : Nat) : Int) < 2 ^ 63 →
      RotateWriter.WriteAll (front ++ [lastp, q])
          ⟨target, m, ((front ++ [lastp]).flatten.count '\n' : Nat), 0, false, some target, []⟩
          ⟨dirs, [(target, .file [])], opened, now, [], trace⟩ =
        some ((front ++ [lastp, q]).map (fun p => ((p.length : Int), none)),
          ⟨target, m, ((front ++ [lastp]).flatten.count '\n' : Nat), (q.count '\n' : Nat), false,
            some target, [rotatedName target now]⟩,
          ⟨dirs, [(rotatedName target now, .file (front ++ [lastp]).flatten), (target, .file q)],
            target :: opened.erase target, now, [],
            trace ++ (front ++ [lastp]).map (fun p => ⟨.write target p, p.length, none⟩) ++
              [⟨.close target, 0, none⟩, ⟨.stat target, 0, none⟩,
                ⟨.stat (rotatedName target now), 0, some ErrNotExist⟩,
                ⟨.rename target (rotatedName target now), 0, none⟩, ⟨.openFile target, 0, none⟩,
                ⟨.write target q, q.length, none⟩]⟩)) := by
  refine ⟨?_, writeAll_lines_scenario⟩
  intro lines q target m dirs opened now trace hm ho hd hN hb hl
  obtain ⟨front, lastp, rfl⟩ : ∃ front lastp, lines = front ++ [lastp] := by
    rcases List.eq_nil_or_concat lines with h | ⟨front, lastp, h⟩
    · rw [h] at hN; simp at hN
    · exact ⟨front, lastp, by rw [h, List.concat_eq_append]⟩
  have hlines : (front ++ [lastp]).flatten.count '\n' = (front ++ [lastp]).length :=
    count_newline_of_lines _ (fun p hp => hl p (List.mem_append_left _ hp))
  have hq : q.count '\n' = 1 := count_newline_of_line q (hl q (by simp))
  have hlast : lastp.count '\n' = 1 := count_newline_of_line lastp (hl lastp (by simp))
  have := writeAll_lines_scenario front lastp q target m dirs opened now trace hm ho hd
    (by omega) (by rw [hlines]; exact hb) (by rw [hq]; norm_num)
  rw [hlines, hq] at this
  rw [List.append_assoc]
  exact this

theorem RotateWriter.write_counts_lines_witness :
    (((2 : Int) ≤ 5 ∨ (5 : Int) < 0) ∧ exTarget ∈ [exTarget] ∧ exTarget.dir ∈ ["tmp".toList] ∧
      1 ≤ ["a\n".toList, "b\n".toList].length ∧
      (["a\n".toList, "b\n".toList].length : Int) < 2 ^ 63 ∧
      (∀ p ∈ ["a\n".toList, "b\n".toList] ++ ["c\n".toList],
        ∃ body, p = body ++ ['\n'] ∧ '\n' ∉ body) ∧
      RotateWriter.WriteAll (["a\n".toList, "b\n".toList] ++ ["c\n".toList])
          ⟨exTarget, 5, (["a\n".toList, "b\n".toList].length : Nat), 0, false, some exTarget, []⟩
          ⟨["tmp".toList], [(exTarget, .file [])], [exTarget], exClock, [], []⟩ =
        some ((["a\n".toList, "b\n".toList] ++ ["c\n".toList]).map
            (fun p => ((p.length : Int), none)),
          ⟨exTarget, 5, (["a\n".toList, "b\n".toList].length : Nat), 1, false, some exTarget,
            [rotatedName exTarget exClock]⟩,
          ⟨["tmp".toList],
            [(rotatedName exTarget exClock, .file ["a\n".toList, "b\n".toList].flatten),
              (exTarget, .file "c\n".toList)],
            exTarget :: [exTarget].erase exTarget, exClock, [],
            [] ++ ["a\n".toList, "b\n".toList].map (fun p => ⟨.write exTarget p, p.length, none⟩) ++
              [⟨.close exTarget, 0, none⟩, ⟨.stat exTarget, 0, none⟩,
                ⟨.stat (rotatedName exTarget exClock), 0, some ErrNotExist⟩,
                ⟨.rename exTarget (rotatedName exTarget exClock), 0, none⟩,
                ⟨.openFile exTarget, 0, none⟩,
                ⟨.write exTarget "c\n".toList, "c\n".toList.length, none⟩]⟩)) ∧
    (((2 : Int) ≤ 5 ∨ (5 : Int) < 0) ∧ exTarget ∈ [exTarget] ∧ exTarget.dir ∈ ["tmp".toList] ∧
      1 ≤ "b\n".toList.count '\n' ∧
      (((["some content".toList, "a\n".toList] ++ ["b\n".toList]).flatten.count '\n' : Nat) : Int) <
        2 ^ 63 ∧
      (("c\n".toList.count '\n' : Nat) : Int) < 2 ^ 63 ∧
      RotateWriter.WriteAll (["some content".toList, "a\n".toList] ++ ["b\n".toList, "c\n".toList])
          ⟨exTarget, 5,
            ((["some content".toList, "a\n".toList] ++ ["b\n".toList]).flatten.count '\n' : Nat),
            0, false, some exTarget, []⟩
          ⟨["tmp".toList], [(exTarget, .file [])], [exTarget], exClock, [], []⟩ =
        some ((["some content".toList, "a\n".toList] ++ ["b\n".toList, "c\n".toList]).map
            (fun p => ((p.length : Int), none)),
          ⟨exTarget, 5,
            ((["some content".toList, "a\n".toList] ++ ["b\n".toList]).flatten.count '\n' : Nat),
            ("c\n".toList.count '\n' : Nat), false, some exTarget,
            [rotatedName exTarget exClock]⟩,
          ⟨["tmp".toList],
            [(rotatedName exTarget exClock,
                .file (["some content".toList, "a\n".toList] ++ ["b\n".toList]).flatten),
              (exTarget, .file "c\n".toList)],
            exTarget :: [exTarget].erase exTarget, exClock, [],
            [] ++ (["some content".toList, "a\n".toList] ++ ["b\n".toList]).map
                (fun p => ⟨.write exTarget p, p.length, none⟩) ++
              [⟨.close exTarget, 0, none⟩, ⟨.stat exTarget, 0, none⟩,
                ⟨.stat (rotatedName exTarget exClock), 0, some ErrNotExist⟩,
                ⟨.rename exTarget (rotatedName exTarget exClock), 0, none⟩,
                ⟨.openFile exTarget, 0, none⟩,
                ⟨.write exTarget "c\n".toList, "c\n".toList.length, none⟩]⟩)) :=
  have hl : ∀ p ∈ ["a\n".toList, "b\n".toList] ++ ["c\n".toList],
      ∃ body, p = body ++ ['\n'] ∧ '\n' ∉ body := by
    intro p hp
    simp only [List.cons_append, List.nil_append, List.mem_cons, List.mem_singleton,
      List.not_mem_nil, or_false] at hp
    rcases hp with rfl | rfl | rfl
    · exact ⟨['a'], rfl, by decide⟩
    · exact ⟨['b'], rfl, by decide⟩
    · exact ⟨['c'], rfl, by decide⟩
  ⟨⟨Or.inl (by decide), by decide, by decide, by decide, by decide, hl,
      RotateWriter.write_counts_lines.1 ["a\n".toList, "b\n".toList] "c\n".toList exTarget 5
        ["tmp".toList] [exTarget] exClock [] (Or.inl (by decide)) (by decide) (by decide)
        (by decide) (by decide) hl⟩,
    ⟨Or.inl (by decide), by decide, by decide, by decide, by decide, by decide,
      RotateWriter.write_counts_lines.2 ["some content".toList, "a\n".toList] "b\n".toList
        "c\n".toList exTarget 5 ["tmp".toList] [exTarget] exClock [] (Or.inl (by decide))
        (by decide) (by decide) (by decide) (by decide) (by decide)⟩⟩

/-! ## The constructor on a directory -/

theorem FS.fault_of_no_faults (fs : FS) (h : fs.faults = []) : fs.fault = none := by
  simp [FS.fault, h]

theorem NewRotateWriter_on_directory (target : Path) (maxFiles maxSize : Int) (sizeUnit : Bytes)
    (truncate : Bool) (fs : FS) (hf : fs.faults = []) (hd : fs.find target = some .dir)
    (hq : cutQuote (TrimSuffix target.base (filepathExt target.base)) = none)
    (hv : validUTF8 (TrimSuffix target.base (filepathExt target.base)) = true) :
    (target.dir ∈ fs.dirs →
      NewRotateWriter target maxFiles maxSize sizeUnit truncate fs =
        some (.error "invalid filename".toList,
          fs.logAll [⟨.readDir target.dir, 0, none⟩, ⟨.stat target, 0, none⟩])) ∧
    (target.dir ∉ fs.dirs →
      NewRotateWriter target maxFiles maxSize sizeUnit truncate fs =
        some (.error ErrNotExist, fs.logAll [⟨.readDir target.dir, 0, some ErrNotExist⟩])) := by
  have hfault : fs.fault = none := FS.fault_of_no_faults fs hf
  constructor
  · intro hdir
    have hfault1 : (fs.log (.readDir target.dir) 0 none).fault = none :=
      FS.fault_of_no_faults _ hf
    have hfind1 : (fs.log (.readDir target.dir) 0 none).find target = some .dir := hd
    simp only [NewRotateWriter, RotateWriter.populate, ioutilReadDir, hfault, if_pos hdir,
      compilePattern_of_quotable _ hq hv, osStat, hfault1, hfind1]
    simp [FS.log, FS.logAll]
  · intro hdir
    simp only [NewRotateWriter, RotateWriter.populate, ioutilReadDir, hfault, if_neg hdir]
    simp [FS.log, FS.logAll]

/-- C20 fails on the code for a directory whose name holds `\E`: on the
directory `tmp/a\E`, with retention 2, threshold 12 bytes and truncation,
`NewRotateWriter` does not return an error: `populate` panics in
`regexp.MustCompile` right after the listing of `tmp`, before the target is
looked at. -/
theorem NewRotateWriter_crashes_on_directory :
    NewRotateWriter ⟨"tmp".toList, "a\\E".toList⟩ 2 12 "bytes".toList true
        ⟨["tmp".toList], [(⟨"tmp".toList, "a\\E".toList⟩, .dir)], [], exClock, [], []⟩ =
      some (.panicked,
        ⟨["tmp".toList], [(⟨"tmp".toList, "a\\E".toList⟩, .dir)], [], exClock, [],
          [⟨.readDir "tmp".toList, 0, none⟩]⟩) ∧
    FS.find ⟨["tmp".toList], [(⟨"tmp".toList, "a\\E".toList⟩, .dir)], [], exClock, [], []⟩
      ⟨"tmp".toList, "a\\E".toList⟩ = some .dir := by
  constructor <;> decide

/-! ## Lexical order of names -/

theorem bytes_lt_append_left (p : Bytes) {a b : Bytes} (h : a < b) : p ++ a < p ++ b := by
  induction p with
  | nil => exact h
  | cons c p ih => exact List.Lex.cons ih

theorem bytes_lt_append_of_length {a b : Bytes} (x y : Bytes) (h : a < b) :
    a.length = b.length → a ++ x < b ++ y := by
  induction h with
  | nil => intro hl; simp at hl
  | rel hab => intro _; exact List.Lex.rel hab
  | cons _ ih =>
    intro hl
    exact List.Lex.cons (ih (by simpa using hl))

theorem bytes_lt_append_nonempty (a : Bytes) {x : Bytes} (hx : x ≠ []) : a < a ++ x := by
  have h : ([] : Bytes) < x := by
    cases x with
    | nil => exact absurd rfl hx
    | cons c t => exact List.Lex.nil
  simpa using bytes_lt_append_left a h

theorem digit_value_le {c : Char} (h : c ∈ decimalDigits) : c.toNat - 48 ≤ 9 := by
  simp only [decimalDigits, String.toList, String.data, List.mem_cons, List.mem_singleton,
    List.not_mem_nil, or_false] at h
  rcases h with rfl | rfl | rfl | rfl | rfl | rfl | rfl | rfl | rfl | rfl <;> decide

theorem digit_lt_of_value_lt {x y : Char} (hx : x ∈ decimalDigits) (hy : y ∈ decimalDigits)
    (h : x.toNat - 48 < y.toNat - 48) : x < y := by
  simp only [decimalDigits, String.toList, String.data, List.mem_cons, List.mem_singleton,
    List.not_mem_nil, or_false] at hx hy
  rcases hx with rfl | rfl | rfl | rfl | rfl | rfl | rfl | rfl | rfl | rfl <;>
    rcases hy with rfl | rfl | rfl | rfl | rfl | rfl | rfl | rfl | rfl | rfl <;>
    first
      | decide
      | exact absurd h (by decide)

theorem digit_eq_of_value_eq {x y : Char} (hx : x ∈ decimalDigits) (hy : y ∈ decimalDigits)
    (h : x.toNat - 48 = y.toNat - 48) : x = y := by
  simp only [decimalDigits, String.toList, String.data, List.mem_cons, List.mem_singleton,
    List.not_mem_nil, or_false] at hx hy
  rcases hx with rfl | rfl | rfl | rfl | rfl | rfl | rfl | rfl | rfl | rfl <;>
    rcases hy with rfl | rfl | rfl | rfl | rfl | rfl | rfl | rfl | rfl | rfl <;>
    first
      | rfl
      | exact absurd h (by decide)

theorem foldl_decimal (l : Bytes) : ∀ acc : Nat,
    l.foldl (fun acc c => 10 * acc + (c.toNat - 48)) acc =
      acc * 10 ^ l.length + decimalValue l := by
  induction l with
  | nil => intro acc; simp [decimalValue]
  | cons c l ih =>
    intro acc
    simp only [List.foldl_cons, decimalValue, List.length_cons]
    rw [ih, ih (10 * 0 + (c.toNat - 48))]
    ring

theorem decimalValue_cons (c : Char) (l : Bytes) :
    decimalValue (c :: l) = (c.toNat - 48) * 10 ^ l.length + decimalValue l := by
  have := foldl_decimal l (10 * 0 + (c.toNat - 48))
  simp only [decimalValue, List.foldl_cons] at this ⊢
  rw [this]
  simp

theorem decimalValue_lt (l : Bytes) (h : ∀ c ∈ l, c ∈ decimalDigits) :
    decimalValue l < 10 ^ l.length := by
  induction l with
  | nil => simp [decimalValue]
  | cons c l ih =>
    rw [decimalValue_cons, List.length_cons, pow_succ]
    have h1 := digit_value_le (h c (List.mem_cons_self _ _))
    have h2 := ih (fun x hx => h x (List.mem_cons_of_mem _ hx))
    have h3 : (c.toNat - 48) * 10 ^ l.length ≤ 9 * 10 ^ l.length := Nat.mul_le_mul_right _ h1
    omega

theorem digits_lt_of_value_lt : ∀ (a b : Bytes), a.length = b.length →
    (∀ c ∈ a, c ∈ decimalDigits) → (∀ c ∈ b, c ∈ decimalDigits) →
    decimalValue a < decimalValue b → a < b
  | [], [], _, _, _, h => by simp [decimalValue] at h
  | [], _ :: _, hl, _, _, _ => by simp at hl
  | _ :: _, [], hl, _, _, _ => by simp at hl
  | x :: a, y :: b, hl, ha, hb, h => by
    have hl' : a.length = b.length := by simpa using hl
    have hx := ha x (List.mem_cons_self _ _)
    have hy := hb y (List.mem_cons_self _ _)
    have ha' : ∀ c ∈ a, c ∈ decimalDigits := fun c hc => ha c (List.mem_cons_of_mem _ hc)
    have hb' : ∀ c ∈ b, c ∈ decimalDigits := fun c hc => hb c (List.mem_cons_of_mem _ hc)
    rw [decimalValue_cons, decimalValue_cons, hl'] at h
    have va := decimalValue_lt a ha'
    have vb := decimalValue_lt b hb'
    rw [hl'] at va
    rcases Nat.lt_trichotomy (x.toNat - 48) (y.toNat - 48) with hlt | heq | hgt
    · exact List.Lex.rel (digit_lt_of_value_lt hx hy hlt)
    · have hxy := digit_eq_of_value_eq hx hy heq
      subst hxy
      exact List.Lex.cons (digits_lt_of_value_lt a b hl' ha' hb' (by omega))
    · exfalso
      have : (y.toNat - 48 + 1) * 10 ^ b.length ≤ (x.toNat - 48) * 10 ^ b.length :=
        Nat.mul_le_mul_right _ hgt
      rw [Nat.add_mul] at this
      omega

theorem digitChar_mem (d : Nat) (h : d < 10) : Nat.digitChar d ∈ decimalDigits := by
  interval_cases d <;> decide

theorem toDigitsCore_digits (fuel : Nat) : ∀ (n : Nat), n < fuel →
    (∀ c ∈ Nat.toDigitsCore 10 fuel n [], c ∈ decimalDigits) ∧
    (∀ w, 1 ≤ w → n < 10 ^ w → (Nat.toDigitsCore 10 fuel n []).length ≤ w) ∧
    Nat.toDigitsCore 10 fuel n [] ≠ [] := by
  induction fuel with
  | zero => intro n h; omega
  | succ fuel ih =>
    intro n h
    simp only [Nat.toDigitsCore]
    by_cases h0 : n / 10 = 0
    · simp only [h0, if_true]
      refine ⟨?_, ?_, by simp⟩
      · intro c hc
        rw [List.mem_singleton.mp hc]
        exact digitChar_mem _ (Nat.mod_lt _ (by decide))
      · intro w hw _
        simpa using hw
    · have hlt : n / 10 < fuel := by omega
      simp only [h0, if_false]
      rw [(toDigitsCore_spec fuel (n / 10) [Nat.digitChar (n % 10)] hlt).1]
      obtain ⟨i1, i2, _⟩ := ih (n / 10) hlt
      refine ⟨?_, ?_, by simp⟩
      · intro c hc
        rcases List.mem_append.mp hc with hc | hc
        · exact i1 c hc
        · rw [List.mem_singleton.mp hc]
          exact digitChar_mem _ (Nat.mod_lt _ (by decide))
      · intro w hw hn
        rw [List.length_append, List.length_singleton]
        have hw2 : 2 ≤ w := by
          by_contra hc
          have : w = 1 := by omega
          subst this
          simp at hn
          omega
        have := i2 (w - 1) (by omega) (by
          have hp : 10 ^ w = 10 ^ (w - 1) * 10 := by
            rw [← pow_succ]; congr 1; omega
          rw [hp] at hn
          omega)
        omega

theorem Itoa_digits (n : Nat) : ∀ c ∈ Itoa n, c ∈ decimalDigits :=
  (toDigitsCore_digits (n + 1) n (Nat.lt_succ_self n)).1

theorem Itoa_length_le (n w : Nat) (hw : 1 ≤ w) (hn : n < 10 ^ w) : (Itoa n).length ≤ w :=
  (toDigitsCore_digits (n + 1) n (Nat.lt_succ_self n)).2.1 w hw hn

theorem Itoa_ne_nil (n : Nat) : Itoa n ≠ [] :=
  (toDigitsCore_digits (n + 1) n (Nat.lt_succ_self n)).2.2

theorem padInt_length (w n : Nat) (hw : 1 ≤ w) (hn : n < 10 ^ w) : (padInt w n).length = w := by
  have := Itoa_length_le n w hw hn
  simp only [padInt, List.length_append, List.length_replicate]
  omega

theorem padInt_digits (w n : Nat) : ∀ c ∈ padInt w n, c ∈ decimalDigits := by
  intro c hc
  simp only [padInt, List.mem_append] at hc
  rcases hc with hc | hc
  · rw [(List.mem_replicate.mp hc).2]
    decide
  · exact Itoa_digits n c hc

theorem decimalValue_padInt (w n : Nat) : decimalValue (padInt w n) = n := by
  have : ∀ k : Nat, ∀ l : Bytes, decimalValue (List.replicate k '0' ++ l) = decimalValue l := by
    intro k l
    induction k with
    | zero => rfl
    | succ k ih =>
      rw [List.replicate_succ, List.cons_append, decimalValue_cons, ih]
      simp
  rw [padInt, this, decimalValue_Itoa]

theorem padInt_lt (w n m : Nat) (hw : 1 ≤ w) (hm : m < 10 ^ w) (h : n < m) :
    padInt w n < padInt w m := by
  apply digits_lt_of_value_lt
  · rw [padInt_length w n hw (by omega), padInt_length w m hw hm]
  · exact padInt_digits w n
  · exact padInt_digits w m
  · rw [decimalValue_padInt, decimalValue_padInt]
    exact h

theorem formatCompact_length (t : Time) (h : t.valid) : t.formatCompact.length = 15 := by
  obtain ⟨h1, _, h2, _, h3, h4, h5, h6⟩ := h
  simp only [Time.formatCompact, List.length_append, List.length_singleton]
  rw [padInt_length 4 t.year (by decide) (by omega), padInt_length 2 t.month (by decide) (by omega),
    padInt_length 2 t.day (by decide) (by omega), padInt_length 2 t.hour (by decide) (by omega),
    padInt_length 2 t.minute (by decide) (by omega),
    padInt_length 2 t.second (by decide) (by omega)]

theorem formatCompact_digits (t : Time) (h : t.valid) :
    ∃ date time : Bytes, t.formatCompact = date ++ ['T'] ++ time ∧
      date.length = 8 ∧ (∀ c ∈ date, c ∈ decimalDigits) ∧
      time.length = 6 ∧ (∀ c ∈ time, c ∈ decimalDigits) := by
  obtain ⟨h1, _, h2, _, h3, h4, h5, h6⟩ := h
  refine ⟨padInt 4 t.year ++ padInt 2 t.month ++ padInt 2 t.day,
    padInt 2 t.hour ++ padInt 2 t.minute ++ padInt 2 t.second, ?_, ?_, ?_, ?_, ?_⟩
  · simp [Time.formatCompact]
  · simp only [List.length_append]
    rw [padInt_length 4 t.year (by decide) (by omega),
      padInt_length 2 t.month (by decide) (by omega), padInt_length 2 t.day (by decide) (by omega)]
  · intro c hc
    simp only [List.mem_append] at hc
    rcases hc with (hc | hc) | hc <;> exact padInt_digits _ _ c hc
  · simp only [List.length_append]
    rw [padInt_length 2 t.hour (by decide) (by omega),
      padInt_length 2 t.minute (by decide) (by omega),
      padInt_length 2 t.second (by decide) (by omega)]
  · intro c hc
    simp only [List.mem_append] at hc
    rcases hc with (hc | hc) | hc <;> exact padInt_digits _ _ c hc

theorem formatCompact_lt (t1 t2 : Time) (h1 : t1.valid) (h2 : t2.valid) (h : t1.earlier t2) :
    t1.formatCompact < t2.formatCompact := by
  obtain ⟨a1, _, a2, _, a3, a4, a5, a6⟩ := h1
  obtain ⟨b1, _, b2, _, b3, b4, b5, b6⟩ := h2
  have len4 : ∀ n, n ≤ 9999 → (padInt 4 n).length = 4 :=
    fun n hn => padInt_length 4 n (by decide) (by omega)
  have len2 : ∀ n, n ≤ 99 → (padInt 2 n).length = 2 :=
    fun n hn => padInt_length 2 n (by decide) (by omega)
  have lt4 : ∀ n m, m ≤ 9999 → n < m → ∀ x y, padInt 4 n ++ x < padInt 4 m ++ y :=
    fun n m hm hnm x y => bytes_lt_append_of_length x y (padInt_lt 4 n m (by decide) (by omega) hnm)
      (by rw [len4 n (by omega), len4 m hm])
  have lt2 : ∀ n m, m ≤ 99 → n < m → ∀ x y, padInt 2 n ++ x < padInt 2 m ++ y :=
    fun n m hm hnm x y => bytes_lt_append_of_length x y (padInt_lt 2 n m (by decide) (by omega) hnm)
      (by rw [len2 n (by omega), len2 m hm])
  simp only [Time.formatCompact, List.append_assoc]
  rcases h with h | ⟨e1, h⟩
  · exact lt4 _ _ b1 h _ _
  rw [e1]
  apply bytes_lt_append_left
  rcases h with h | ⟨e2, h⟩
  · exact lt2 _ _ (by omega) h _ _
  rw [e2]
  apply bytes_lt_append_left
  rcases h with h | ⟨e3, h⟩
  · exact lt2 _ _ (by omega) h _ _
  rw [e3]
  apply bytes_lt_append_left
  apply bytes_lt_append_left ['T']
  rcases h with h | ⟨e4, h⟩
  · exact lt2 _ _ (by omega) h _ _
  rw [e4]
  apply bytes_lt_append_left
  rcases h with h | ⟨e5, h⟩
  · exact lt2 _ _ (by omega) h _ _
  rw [e5]
  apply bytes_lt_append_left
  have := lt2 _ _ (by omega) h [] []
  simpa using this

theorem generated_base (target : Path) (t : Time) (name : Path)
    (h : IsGeneratedName target t name) :
    ∃ tail : Bytes, name.dir = target.dir ∧
      name.base = TrimSuffix target.base (filepathExt target.base) ++ ['.'] ++
        (t.formatCompact ++ (filepathExt target.base ++ tail)) ∧
      (tail = [] ∨ ∃ n, 0 < n ∧ tail = '.' :: Itoa n) := by
  rcases h with rfl | ⟨n, hn, rfl⟩
  · exact ⟨[], rfl, by simp [rotatedName], Or.inl rfl⟩
  · exact ⟨'.' :: Itoa n, rfl, by simp [rotatedName, withSuffix], Or.inr ⟨n, hn, rfl⟩⟩

theorem populate_history_sorted (w w1 : RotateWriter) (fs fs1 : FS)
    (h : w.populate fs = (.ok w1, fs1)) :
    ∃ added : List Path, w1.history = w.history ++ added ∧
      (∀ p ∈ added, p.dir = w.filename.dir) ∧
      (added.map (fun p => p.base)).Pairwise (fun a b => a ≤ b) := by
  unfold RotateWriter.populate at h
  unfold ioutilReadDir at h
  have hs : ∀ l : List Bytes, (l.insertionSort (fun a b => a ≤ b)).Pairwise (fun a b => a ≤ b) :=
    fun l => List.sorted_insertionSort (fun a b : Bytes => a ≤ b) l
  have key : ∀ (entries : List Bytes) (re : RegularExpression Char),
      entries.Pairwise (fun a b => a ≤ b) →
      ∃ added : List Path, populateLoop re w.filename.dir entries w.history = w.history ++ added ∧
        (∀ p ∈ added, p.dir = w.filename.dir) ∧
        (added.map (fun p => p.base)).Pairwise (fun a b => a ≤ b) := by
    intro entries re hp
    refine ⟨_, populateLoop_eq re _ entries _, ?_, ?_⟩
    · intro p hp
      obtain ⟨n, _, rfl⟩ := List.mem_map.mp hp
      rfl
    · rw [List.map_map]
      have : ((fun p : Path => p.base) ∘ fun n => (⟨w.filename.dir, n⟩ : Path)) = id := rfl
      rw [this, List.map_id]
      exact hp.sublist (List.filter_sublist _)
  cases hfault : fs.fault with
  | some f => rw [hfault] at h; cases h
  | none =>
    rw [hfault] at h
    by_cases hd : w.filename.dir ∈ fs.dirs
    · simp only [if_pos hd] at h
      cases hc : compilePattern (TrimSuffix w.filename.base (filepathExt w.filename.base)) with
      | panicked => rw [hc] at h; cases h
      | unmodelled => rw [hc] at h; cases h
      | regex re =>
        rw [hc] at h
        simp only [Prod.mk.injEq, Outcome.ok.injEq] at h
        obtain ⟨rfl, _⟩ := h
        exact key _ re (hs _)
    · simp only [if_neg hd] at h
      cases h

/-! ## Properties of the specification: names and their order -/

/-- C12, the failing instance. The example target is rotated for the third
time within one second, then for the eleventh time: the third rotation
makes the name with suffix `.2`, the eleventh the name with suffix `.10`, and
`.10` sorts before `.2`; discovery over that directory lists `.10` between
`.1` and `.2`. -/
theorem rotated_suffix_ten_sorts_before_two :
    (appendSuffixToFile exTarget
        ⟨["tmp".toList],
          [(exTarget, .file []), (exRotated, .file []), (withSuffix exRotated 1, .file [])],
          [], exClock, [], []⟩).map Prod.fst = some (withSuffix exRotated 2) ∧
    (appendSuffixToFile exTarget exCrowded).map Prod.fst = some (withSuffix exRotated 10) ∧
    (withSuffix exRotated 10).base < (withSuffix exRotated 2).base ∧
    ((RotateWriter.populate ⟨exTarget, -1, 1, 0, true, none, []⟩
        (exCrowded.setNodes (exCrowded.nodes ++ [(withSuffix exRotated 10, .file [])]))).1 =
      .ok ⟨exTarget, -1, 1, 0, true, none,
        [exRotated, withSuffix exRotated 1, withSuffix exRotated 10, withSuffix exRotated 2,
          withSuffix exRotated 3, withSuffix exRotated 4, withSuffix exRotated 5,
          withSuffix exRotated 6, withSuffix exRotated 7, withSuffix exRotated 8,
          withSuffix exRotated 9]⟩) := by
  refine ⟨by decide, by decide, by decide, by decide⟩

/-- C12, amended. Names generated for one target at two clock readings with
years of at most four digits, the first earlier than the second, sort in that
order whatever suffix they carry. Within one second the name without a suffix
sorts before every name with one, and the suffix `n` sorts before the suffix
`m` when `n < m` are written with the same number of digits. Discovery appends
names of the directory of the target in lexical order. -/
theorem rotated_names_sort_by_second :
    (∀ (target : Path) (t1 t2 : Time) (a b : Path),
      t1.valid → t2.valid → t1.earlier t2 →
      IsGeneratedName target t1 a → IsGeneratedName target t2 b → a.base < b.base) ∧
    (∀ (target : Path) (t : Time) (n : Nat),
      (rotatedName target t).base < (withSuffix (rotatedName target t) n).base) ∧
    (∀ (target : Path) (t : Time) (n m : Nat), n < m → (Itoa n).length = (Itoa m).length →
      (withSuffix (rotatedName target t) n).base < (withSuffix (rotatedName target t) m).base) ∧
    (∀ (w w1 : RotateWriter) (fs fs1 : FS), w.populate fs = (.ok w1, fs1) →
      ∃ added : List Path, w1.history = w.history ++ added ∧
        (∀ p ∈ added, p.dir = w.filename.dir) ∧
        (added.map (fun p => p.base)).Pairwise (fun a b => a ≤ b)) := by
  refine ⟨?_, ?_, ?_, populate_history_sorted⟩
  · intro target t1 t2 a b h1 h2 h ha hb
    obtain ⟨ta, _, ea, _⟩ := generated_base target t1 a ha
    obtain ⟨tb, _, eb, _⟩ := generated_base target t2 b hb
    rw [ea, eb]
    apply bytes_lt_append_left
    exact bytes_lt_append_of_length _ _ (formatCompact_lt t1 t2 h1 h2 h)
      (by rw [formatCompact_length t1 h1, formatCompact_length t2 h2])
  · intro target t n
    simp only [withSuffix, List.append_assoc]
    exact bytes_lt_append_nonempty _ (by simp)
  · intro target t n m hnm hl
    simp only [withSuffix, List.append_assoc]
    apply bytes_lt_append_left
    apply bytes_lt_append_left ['.']
    exact digits_lt_of_value_lt _ _ hl (Itoa_digits n) (Itoa_digits m)
      (by rw [decimalValue_Itoa, decimalValue_Itoa]; exact hnm)

theorem rotated_names_sort_by_second_witness :
    ((exClock.valid ∧ Time.valid ⟨2013, 9, 16, 11, 55, 1⟩ ∧
        exClock.earlier ⟨2013, 9, 16, 11, 55, 1⟩ ∧
        IsGeneratedName exTarget exClock (withSuffix (rotatedName exTarget exClock) 10) ∧
        IsGeneratedName exTarget ⟨2013, 9, 16, 11, 55, 1⟩
          (rotatedName exTarget ⟨2013, 9, 16, 11, 55, 1⟩)) ∧
      (withSuffix (rotatedName exTarget exClock) 10).base <
        (rotatedName exTarget ⟨2013, 9, 16, 11, 55, 1⟩).base) ∧
    (((2 : Nat) < 9 ∧ (Itoa 2).length = (Itoa 9).length) ∧
      (withSuffix (rotatedName exTarget exClock) 2).base <
        (withSuffix (rotatedName exTarget exClock) 9).base) ∧
    (RotateWriter.populate ⟨exTarget, 3, 3, 0, true, none, []⟩
        ⟨["tmp".toList], [(exRotated, .file []), (exTarget, .file [])], [], exClock, [], []⟩ =
      (.ok ⟨exTarget, 3, 3, 0, true, none, [exRotated]⟩,
        ⟨["tmp".toList], [(exRotated, .file []), (exTarget, .file [])], [], exClock, [],
          [⟨.readDir "tmp".toList, 0, none⟩]⟩) ∧
      ∃ added : List Path, [exRotated] = [] ++ added ∧
        (∀ p ∈ added, p.dir = exTarget.dir) ∧
        (added.map (fun p => p.base)).Pairwise (fun a b => a ≤ b)) :=
  ⟨⟨⟨by decide, by decide, by decide, Or.inr ⟨10, by decide, rfl⟩, Or.inl rfl⟩,
      rotated_names_sort_by_second.1 exTarget exClock ⟨2013, 9, 16, 11, 55, 1⟩ _ _
        (by decide) (by decide) (by decide) (Or.inr ⟨10, by decide, rfl⟩) (Or.inl rfl)⟩,
    ⟨⟨by decide, by decide⟩,
      rotated_names_sort_by_second.2.2.1 exTarget exClock 2 9 (by decide) (by decide)⟩,
    ⟨by decide,
      rotated_names_sort_by_second.2.2.2 ⟨exTarget, 3, 3, 0, true, none, []⟩
        ⟨exTarget, 3, 3, 0, true, none, [exRotated]⟩
        ⟨["tmp".toList], [(exRotated, .file []), (exTarget, .file [])], [], exClock, [], []⟩
        ⟨["tmp".toList], [(exRotated, .file []), (exTarget, .file [])], [], exClock, [],
          [⟨.readDir "tmp".toList, 0, none⟩]⟩ (by decide)⟩⟩

/-! ## Rotated names and discovery -/

/-- For a target `<stem>.log` whose stem holds no `\E`, and a clock reading
with a year of at most four digits, every name that `appendSuffixToFile` can
return is a rotated name of the stem, and the pattern of `populate` matches
it. -/
theorem generated_name_rediscovered (target : Path) (stem : Bytes) (t : Time) (name : Path)
    (hb : target.base = stem ++ ".log".toList) (ht : t.valid)
    (hg : IsGeneratedName target t name) :
    IsRotatedName stem name.base ∧
    (RegularExpression.comp (reLiteral stem) reRotatedTail).rmatch name.base = true := by
  have h1 : IsRotatedName stem name.base := by
    obtain ⟨tail, _, hbase, htail⟩ := generated_base target t name hg
    obtain ⟨date, time, hfc, hd1, hd2, ht1, ht2⟩ := formatCompact_digits t ht
    have htrim := TrimSuffix_log stem
    rw [filepathExt_log] at htrim
    rw [hb, filepathExt_log, htrim, hfc] at hbase
    rcases htail with rfl | ⟨n, _, rfl⟩
    · exact ⟨date, time, [], by rw [hbase]; simp, hd1, hd2, ht1, ht2, by simp⟩
    · refine ⟨date, time, ['.' :: Itoa n], by rw [hbase]; simp, hd1, hd2, ht1, ht2, ?_⟩
      intro g hg
      rw [List.mem_singleton.mp hg]
      exact ⟨Itoa n, rfl, Itoa_ne_nil n, Itoa_digits n⟩
  exact ⟨h1, (rmatch_rotated_iff stem name.base).mpr h1⟩

/-- C11 fails on the code for a target whose extension is not `.log`. The
target `tmp/app.txt`, threshold 12 bytes, retention 2: the second write of
`"some content"` rotates the target to `app.20130916T115500.txt`. A
constructor run one second later for the same target over that directory
returns a writer with an empty history: the pattern of `populate` ends in
`\.log`, so the rotated file is not recognised. -/
theorem RotateWriter.populate_misses_other_extensions :
    RotateWriter.WriteAll ["some content".toList, "some content".toList]
        ⟨⟨"tmp".toList, "app.txt".toList⟩, 2, 12, 0, true, some ⟨"tmp".toList, "app.txt".toList⟩, []⟩
        ⟨["tmp".toList], [(⟨"tmp".toList, "app.txt".toList⟩, .file [])],
          [⟨"tmp".toList, "app.txt".toList⟩], exClock, [], []⟩ =
      some ([(12, none), (12, none)],
        ⟨⟨"tmp".toList, "app.txt".toList⟩, 2, 12, 12, true,
          some ⟨"tmp".toList, "app.txt".toList⟩,
          [⟨"tmp".toList, "app.20130916T115500.txt".toList⟩]⟩,
        ⟨["tmp".toList],
          [(⟨"tmp".toList, "app.20130916T115500.txt".toList⟩, .file "some content".toList),
            (⟨"tmp".toList, "app.txt".toList⟩, .file "some content".toList)],
          [⟨"tmp".toList, "app.txt".toList⟩], exClock, [],
          [⟨.write ⟨"tmp".toList, "app.txt".toList⟩ "some content".toList, 12, none⟩,
            ⟨.close ⟨"tmp".toList, "app.txt".toList⟩, 0, none⟩,
            ⟨.stat ⟨"tmp".toList, "app.txt".toList⟩, 0, none⟩,
            ⟨.stat ⟨"tmp".toList, "app.20130916T115500.txt".toList⟩, 0, some ErrNotExist⟩,
            ⟨.rename ⟨"tmp".toList, "app.txt".toList⟩
              ⟨"tmp".toList, "app.20130916T115500.txt".toList⟩, 0, none⟩,
            ⟨.openFile ⟨"tmp".toList, "app.txt".toList⟩, 0, none⟩,
            ⟨.write ⟨"tmp".toList, "app.txt".toList⟩ "some content".toList, 12, none⟩]⟩) ∧
    NewRotateWriter ⟨"tmp".toList, "app.txt".toList⟩ 2 12 "bytes".toList false
        ⟨["tmp".toList],
          [(⟨"tmp".toList, "app.20130916T115500.txt".toList⟩, .file "some content".toList),
            (⟨"tmp".toList, "app.txt".toList⟩, .file "some content".toList)],
          [], ⟨2013, 9, 16, 11, 55, 1⟩, [], []⟩ =
      some (.ok ⟨⟨"tmp".toList, "app.txt".toList⟩, 2, 12, 12, true,
          some ⟨"tmp".toList, "app.txt".toList⟩, []⟩,
        ⟨["tmp".toList],
          [(⟨"tmp".toList, "app.20130916T115500.txt".toList⟩, .file "some content".toList),
            (⟨"tmp".toList, "app.txt".toList⟩, .file "some content".toList)],
          [⟨"tmp".toList, "app.txt".toList⟩], ⟨2013, 9, 16, 11, 55, 1⟩, [],
          [⟨.readDir "tmp".toList, 0, none⟩, ⟨.stat ⟨"tmp".toList, "app.txt".toList⟩, 0, none⟩,
            ⟨.openFile ⟨"tmp".toList, "app.txt".toList⟩, 0, none⟩,
            ⟨.write ⟨"tmp".toList, "app.txt".toList⟩ [], 0, none⟩]⟩) := by
  constructor <;> decide

/-! ## The constructor without failures of the system -/

theorem cutQuote_some : ∀ (s lit rest : Bytes), cutQuote s = some (lit, rest) →
    s = lit ++ '\\' :: 'E' :: rest
  | [], _, _, h => by simp [cutQuote] at h
  | c :: t, lit, rest, h => by
    unfold cutQuote at h
    by_cases hc : c = '\\' ∧ t.head? = some 'E'
    · rw [if_pos hc] at h
      simp only [Option.some.injEq, Prod.mk.injEq] at h
      obtain ⟨rfl, rfl⟩ := h
      obtain ⟨rfl, ht⟩ := hc
      cases t with
      | nil => simp at ht
      | cons d t' =>
        simp only [List.head?_cons, Option.some.injEq] at ht
        subst ht
        rfl
    · rw [if_neg hc] at h
      cases hq : cutQuote t with
      | none => rw [hq] at h; simp at h
      | some r =>
        rw [hq] at h
        simp only [Option.map_some', Option.some.injEq, Prod.mk.injEq] at h
        obtain ⟨rfl, rfl⟩ := h
        rw [cutQuote_some t r.1 r.2 hq]
        rfl

theorem compilePattern_regex (stem : Bytes) (re : RegularExpression Char)
    (h : compilePattern stem = .regex re) :
    re = .comp (reLiteral stem) reRotatedTail := by
  unfold compilePattern at h
  split at h
  · cases h
  cases hq : cutQuote (stem ++ "\\E".toList ++ rotatedTailText) with
  | none => rw [hq] at h; cases h
  | some r =>
    obtain ⟨lit, rest⟩ := r
    rw [hq] at h
    simp only at h
    by_cases hr : rest = rotatedTailText
    · rw [if_pos hr] at h
      have h1 := cutQuote_some _ _ _ hq
      subst hr
      have h2 : stem ++ "\\E".toList ++ rotatedTailText =
          stem ++ '\\' :: 'E' :: rotatedTailText := by simp
      rw [h2] at h1
      have h3 : stem = lit := List.append_cancel_right h1
      subst h3
      cases h
      rfl
    · rw [if_neg hr] at h
      split at h <;> cases h

theorem filepathExt_nil : ∀ b : Bytes, filepathExt b = [] → '.' ∉ b
  | [], _ => by simp
  | c :: cs, h => by
    unfold filepathExt at h
    cases he : filepathExt cs with
    | nil =>
      rw [he] at h
      simp only at h
      by_cases hc : c = '.'
      · rw [if_pos hc] at h; cases h
      · intro hm
        rcases List.mem_cons.mp hm with hm | hm
        · exact hc hm.symm
        · exact filepathExt_nil cs he hm
    | cons d e =>
      rw [he] at h
      cases h

theorem filepathExt_tail_no_dot : ∀ b : Bytes, '.' ∉ (filepathExt b).tail
  | [] => by simp [filepathExt]
  | c :: cs => by
    unfold filepathExt
    cases he : filepathExt cs with
    | nil =>
      simp only
      by_cases hc : c = '.'
      · rw [if_pos hc]
        exact filepathExt_nil cs he
      · rw [if_neg hc]
        simp
    | cons d e =>
      simp only
      have := filepathExt_tail_no_dot cs
      rw [he] at this
      exact this

theorem target_not_rotated (b : Bytes) :
    ¬ IsRotatedName (TrimSuffix b (filepathExt b)) b := by
  rintro ⟨date, time, groups, h, _, _, _, _, _⟩
  have h1 := TrimSuffix_append b (filepathExt b) (filepathExt_suffix b)
  have h2 : TrimSuffix b (filepathExt b) ++ filepathExt b =
      TrimSuffix b (filepathExt b) ++
        ('.' :: (date ++ 'T' :: (time ++ '.' :: ("log".toList ++ groups.flatten)))) := by
    rw [h1]
    conv_lhs => rw [h]
    simp
  have h3 := List.append_cancel_left h2
  have h4 := filepathExt_tail_no_dot b
  rw [h3] at h4
  simp at h4

theorem populate_ok (w w1 : RotateWriter) (fs fs1 : FS) (h : w.populate fs = (.ok w1, fs1)) :
    fs1 = fs.logAll [⟨.readDir w.filename.dir, 0, none⟩] ∧
    ∃ added : List Path, w1 = { w with history := w.history ++ added } ∧
      w.filename ∉ added ∧ ∀ p ∈ added, fs.find p ≠ none := by
  unfold RotateWriter.populate at h
  unfold ioutilReadDir at h
  cases hfault : fs.fault with
  | some f => rw [hfault] at h; cases h
  | none =>
    rw [hfault] at h
    by_cases hd : w.filename.dir ∈ fs.dirs
    · simp only [if_pos hd] at h
      cases hc : compilePattern (TrimSuffix w.filename.base (filepathExt w.filename.base)) with
      | panicked => rw [hc] at h; cases h
      | unmodelled => rw [hc] at h; cases h
      | regex re =>
        rw [hc] at h
        simp only [Prod.mk.injEq, Outcome.ok.injEq] at h
        obtain ⟨rfl, rfl⟩ := h
        refine ⟨rfl, _, by rw [populateLoop_eq], ?_, ?_⟩
        · intro hm
          obtain ⟨n, hn, hp⟩ := List.mem_map.mp hm
          have hre := compilePattern_regex _ _ hc
          subst hre
          have hmatch := (List.mem_filter.mp hn).2
          have hbase : n = w.filename.base := by rw [← hp]
          rw [hbase] at hmatch
          exact target_not_rotated _ ((rmatch_rotated_iff _ _).mp (by simpa using hmatch))
        · intro p hp
          obtain ⟨n, hn, rfl⟩ := List.mem_map.mp hp
          have hn' := (List.perm_insertionSort _ _).mem_iff.mp (List.mem_filter.mp hn).1
          obtain ⟨e, he, rfl⟩ := List.mem_map.mp hn'
          obtain ⟨he1, he2⟩ := List.mem_filter.mp he
          have hpath : e.1 = ⟨w.filename.dir, e.1.base⟩ := by
            have : e.1.dir = w.filename.dir := by simpa using he2
            rw [← this]
          intro hnone
          unfold FS.find at hnone
          simp only [Option.map_eq_none', List.find?_eq_none] at hnone
          exact hnone e he1 (by simpa using hpath)
    · simp only [if_neg hd] at h
      cases h

theorem find_filter_notMem (removed : List Path) (p : Path) : ∀ nodes : List (Path × Node),
    ((nodes.filter (fun e => e.1 ∉ removed)).find? (fun e => e.1 = p)).map Prod.snd =
      if p ∈ removed then none else (nodes.find? (fun e => e.1 = p)).map Prod.snd
  | [] => by simp
  | e :: t => by
    have ih := find_filter_notMem removed p t
    by_cases he : e.1 ∈ removed
    · have h1 : decide (e.1 ∉ removed) = false := by simp [he]
      rw [List.filter_cons, h1]
      simp only [Bool.false_eq_true, if_false]
      rw [ih]
      by_cases hp : p ∈ removed
      · rw [if_pos hp, if_pos hp]
      · rw [if_neg hp, if_neg hp]
        have hne : ¬ (e.1 = p) := fun h => hp (h ▸ he)
        rw [List.find?_cons_of_neg _ (by simpa using hne)]
    · have h1 : decide (e.1 ∉ removed) = true := by simp [he]
      rw [List.filter_cons, h1]
      simp only [if_true]
      by_cases hep : e.1 = p
      · have hp : p ∉ removed := hep ▸ he
        rw [if_neg hp, List.find?_cons_of_pos _ (by simpa using hep),
          List.find?_cons_of_pos _ (by simpa using hep)]
      · rw [List.find?_cons_of_neg _ (by simpa using hep),
          List.find?_cons_of_neg _ (by simpa using hep)]
        exact ih

theorem find_rename_nodes (src dst p : Path) (hne : src ≠ dst) : ∀ nodes : List (Path × Node),
    (((nodes.filter (fun e => e.1 ≠ dst)).map
        (fun e => if e.1 = src then (dst, e.2) else e)).find? (fun e => e.1 = p)).map Prod.snd =
      if p = dst then (nodes.find? (fun e => e.1 = src)).map Prod.snd
      else if p = src then none
      else (nodes.find? (fun e => e.1 = p)).map Prod.snd
  | [] => by simp
  | e :: t => by
    have ih := find_rename_nodes src dst p hne t
    by_cases hd : e.1 = dst
    · have h1 : decide (e.1 ≠ dst) = false := by simp [hd]
      have hs : ¬ (e.1 = src) := fun h => hne (h.symm.trans hd)
      rw [List.filter_cons, h1]
      simp only [Bool.false_eq_true, if_false]
      rw [ih, List.find?_cons_of_neg _ (by simpa using hs)]
      by_cases hpd : p = dst
      · rw [if_pos hpd, if_pos hpd]
      · rw [if_neg hpd, if_neg hpd]
        have hep : ¬ (e.1 = p) := fun h => hpd (h.symm.trans hd)
        rw [List.find?_cons_of_neg _ (by simpa using hep)]
    · have h1 : decide (e.1 ≠ dst) = true := by simp [hd]
      rw [List.filter_cons, h1]
      simp only [if_true, List.map_cons]
      by_cases hs : e.1 = src
      · rw [if_pos hs, List.find?_cons_of_pos (l := t) (p := fun e => decide (e.1 = src))
          (by simpa using hs)]
        by_cases hpd : p = dst
        · rw [if_pos hpd, List.find?_cons_of_pos _ (by simp [hpd])]
          rfl
        · rw [if_neg hpd, List.find?_cons_of_neg _ (by simpa using fun h : dst = p => hpd h.symm),
            ih, if_neg hpd]
          by_cases hps : p = src
          · rw [if_pos hps, if_pos hps]
          · rw [if_neg hps, if_neg hps]
            have hep : ¬ (e.1 = p) := fun h => hps (h.symm.trans hs)
            rw [List.find?_cons_of_neg _ (by simpa using hep)]
      · rw [if_neg hs, List.find?_cons_of_neg (l := t) (p := fun e => decide (e.1 = src))
          (by simpa using hs)]
        by_cases hep : e.1 = p
        · have hpd : ¬ (p = dst) := fun h => hd (hep.trans h)
          have hps : ¬ (p = src) := fun h => hs (hep.trans h)
          rw [if_neg hpd, if_neg hps, List.find?_cons_of_pos _ (by simpa using hep),
            List.find?_cons_of_pos _ (by simpa using hep)]
        · rw [List.find?_cons_of_neg _ (by simpa using hep), ih,
            List.find?_cons_of_neg _ (by simpa using hep)]

theorem osRename_find (src dst : Path) (fs : FS) (nd : Node) (hf : fs.faults = [])
    (hs : fs.find src = some nd) (hne : src ≠ dst) :
    ∃ fs1, osRename src dst fs = (none, fs1) ∧ fs1.faults = [] ∧
      fs1.find dst = some nd ∧ fs1.find src = none ∧
      ∀ p, p ≠ src → p ≠ dst → fs1.find p = fs.find p := by
  have hfault : fs.fault = none := FS.fault_of_no_faults fs hf
  have key := fun p => find_rename_nodes src dst p hne fs.nodes
  refine ⟨(fs.setNodes ((fs.nodes.filter (fun e => e.1 ≠ dst)).map
      (fun e => if e.1 = src then (dst, e.2) else e))).log (.rename src dst) 0 none,
    by simp only [osRename, hfault, hs, if_neg hne], hf, ?_, ?_, ?_⟩
  · have := key dst
    rw [if_pos rfl] at this
    exact this.trans hs
  · have := key src
    rw [if_neg hne, if_pos rfl] at this
    exact this
  · intro p h1 h2
    have := key p
    rw [if_neg h2, if_neg h1] at this
    exact this

theorem rotate_find (w : RotateWriter) (fs : FS) (nd : Node) (hfile : w.file = none)
    (hf : fs.faults = []) (hs : fs.find w.filename = some nd) :
    ∃ dst fs1, w.rotate fs = some (none, { w with size := 0, history := w.history ++ [dst] }, fs1) ∧
      IsGeneratedName w.filename fs.now dst ∧ fs.find dst = none ∧ fs1.faults = [] ∧
      fs1.find dst = some nd ∧ fs1.find w.filename = none ∧
      ∀ p, p ≠ w.filename → p ≠ dst → fs1.find p = fs.find p := by
  unfold RotateWriter.rotate
  simp only [hfile]
  obtain ⟨r, e1, hst, herr, _⟩ := osStat_cases w.filename fs
  rw [hst]
  cases r with
  | error err =>
    have := herr err rfl hf
    rw [hs] at this
    cases this
  | ok info =>
    simp only
    obtain ⟨dst, evs, ha, _, hgen, hfree⟩ := appendSuffixToFile_props w.filename
      (fs.logAll [⟨.stat w.filename, 0, e1⟩])
    have hfree' : fs.find dst = none := hfree hf
    have hne : w.filename ≠ dst := by
      intro h
      rw [← h, hs] at hfree'
      cases hfree'
    obtain ⟨fs1, hr, h1, h2, h3, h4⟩ := osRename_find w.filename dst
      ((fs.logAll [⟨.stat w.filename, 0, e1⟩]).logAll evs) nd hf hs hne
    rw [ha]
    simp only
    rw [hr]
    exact ⟨dst, fs1, rfl, hgen, hfree', h1, h2, h3, h4⟩

theorem osStat_full (p : Path) (fs : FS) :
    (∃ err, osStat p fs = (.error err, fs.logAll [⟨.stat p, 0, some err⟩]) ∧
      (fs.faults = [] → fs.find p = none)) ∨
    (∃ info nd, osStat p fs = (.ok info, fs.logAll [⟨.stat p, 0, none⟩]) ∧
      fs.find p = some nd) := by
  unfold osStat
  cases hfa : fs.fault with
  | some f =>
    refine Or.inl ⟨f.err, rfl, fun hno => ?_⟩
    simp [FS.fault, hno] at hfa
  | none =>
    cases hf : fs.find p with
    | none => exact Or.inl ⟨_, rfl, fun _ => rfl⟩
    | some nd =>
      cases nd with
      | file c => exact Or.inr ⟨_, _, rfl, rfl⟩
      | dir => exact Or.inr ⟨_, _, rfl, rfl⟩

theorem osRename_ok (src dst : Path) (fs fs1 : FS) (hne : src ≠ dst)
    (h : osRename src dst fs = (none, fs1)) :
    ∃ nd, fs.find src = some nd ∧ fs1.find dst = some nd ∧ fs1.find src = none ∧
      (∀ p, p ≠ src → p ≠ dst → fs1.find p = fs.find p) ∧
      fs1.trace = fs.trace ++ [⟨.rename src dst, 0, none⟩] := by
  have key := fun p => find_rename_nodes src dst p hne fs.nodes
  unfold osRename at h
  cases hfa : fs.fault with
  | some f => rw [hfa] at h; simp at h
  | none =>
    rw [hfa] at h
    cases hs : fs.find src with
    | none => rw [hs] at h; simp at h
    | some nd =>
      rw [hs] at h
      simp only [if_neg hne, Prod.mk.injEq, true_and] at h
      subst h
      refine ⟨nd, rfl, ?_, ?_, ?_, rfl⟩
      · have := key dst
        rw [if_pos rfl] at this
        exact this.trans hs
      · have := key src
        rw [if_neg hne, if_pos rfl] at this
        exact this
      · intro p h1 h2
        have := key p
        rw [if_neg h2, if_neg h1] at this
        exact this

theorem generated_ne_target (target : Path) (t : Time) (name : Path)
    (h : IsGeneratedName target t name) : name ≠ target := by
  obtain ⟨tail, _, hb, _⟩ := generated_base target t name h
  intro e
  rw [e] at hb
  have hl := congrArg List.length hb
  have hs := congrArg List.length
    (TrimSuffix_append target.base _ (filepathExt_suffix target.base))
  simp only [List.length_append, List.length_cons, List.length_nil] at hl hs
  omega

theorem rotate_general (w w1 : RotateWriter) (fs fs1 : FS) (hfile : w.file = none)
    (h : w.rotate fs = some (none, w1, fs1)) :
    ∃ e rest, fs1.trace = fs.trace ++ ⟨.stat w.filename, 0, e⟩ :: rest ∧
      (fs.find w.filename = none → e ≠ none) ∧
      (fs.faults = [] → fs.find w.filename ≠ none → e = none) ∧
      (e ≠ none → w1 = { w with size := 0 } ∧ fs1.nodes = fs.nodes ∧ rest = []) ∧
      (e = none → ∃ nd dst stats, fs.find w.filename = some nd ∧
        IsGeneratedName w.filename fs.now dst ∧
        w1 = { w with size := 0, history := w.history ++ [dst] } ∧
        rest = stats ++ [⟨.rename w.filename dst, 0, none⟩] ∧
        (∀ ev ∈ stats, ev.op.kind = .stat) ∧
        fs1.find dst = some nd ∧ fs1.find w.filename = none ∧
        (∀ p, p ≠ w.filename → p ≠ dst → fs1.find p = fs.find p) ∧
        (fs.faults = [] → fs.find dst = none)) := by
  obtain ⟨fn, mf, ms, sz, ib, fl, hist⟩ := w
  simp only at hfile
  subst hfile
  unfold RotateWriter.rotate at h
  simp only at h ⊢
  rcases osStat_full fn fs with ⟨err, hst, hnf⟩ | ⟨info, nd, hst, hnd⟩
  · rw [hst] at h
    simp only [Option.some.injEq, Prod.mk.injEq, true_and] at h
    obtain ⟨rfl, rfl⟩ := h
    refine ⟨some err, [], rfl, fun _ => (by simp), fun hf hne => absurd (hnf hf) hne,
      fun _ => ⟨rfl, rfl, rfl⟩, fun he => (by cases he)⟩
  · rw [hst] at h
    simp only at h
    obtain ⟨dst, evs, ha, hk, hgen, hfree⟩ := appendSuffixToFile_props fn
      (fs.logAll [⟨.stat fn, 0, none⟩])
    rw [ha] at h
    simp only at h
    have hgen' : IsGeneratedName fn fs.now dst := hgen
    have hne : fn ≠ dst := fun e => generated_ne_target _ _ _ hgen' e.symm
    cases hr : osRename fn dst ((fs.logAll [⟨.stat fn, 0, none⟩]).logAll evs) with
    | mk re fs4 =>
      rw [hr] at h
      cases re with
      | some err => simp at h
      | none =>
        simp only [Option.some.injEq, Prod.mk.injEq, true_and] at h
        obtain ⟨rfl, rfl⟩ := h
        obtain ⟨nd', g1, g2, g3, g4, g5⟩ := osRename_ok _ _ _ _ hne hr
        have g1' : fs.find fn = some nd' := g1
        refine ⟨none, evs ++ [⟨.rename fn dst, 0, none⟩], ?_,
          fun hn => (by rw [hn] at hnd; cases hnd), fun _ _ => rfl, fun he => absurd rfl he,
          fun _ => ⟨nd', dst, evs, g1', hgen', rfl, rfl, hk, g2, g3, fun p h1 h2 => g4 p h1 h2,
            fun hf => hfree hf⟩⟩
        rw [g5]
        simp [FS.logAll]

theorem osStat_noFault (p : Path) (fs : FS) (hf : fs.faults = []) :
    (fs.find p = none →
      osStat p fs = (.error ErrNotExist, fs.logAll [⟨.stat p, 0, some ErrNotExist⟩])) ∧
    (∀ c, fs.find p = some (.file c) →
      osStat p fs = (.ok ⟨false, c.length⟩, fs.logAll [⟨.stat p, 0, none⟩])) ∧
    (fs.find p = some .dir → osStat p fs = (.ok ⟨true, 0⟩, fs.logAll [⟨.stat p, 0, none⟩])) := by
  have hfault : fs.fault = none := FS.fault_of_no_faults fs hf
  refine ⟨fun h => ?_, fun c h => ?_, fun h => ?_⟩ <;>
    simp only [osStat, hfault, h] <;> rfl

theorem prune_find (w w1 : RotateWriter) (fs fs1 : FS) (hm : 0 ≤ w.maxFiles)
    (h : w.prune fs = (none, w1, fs1)) :
    ∃ removed kept,
      w.history = removed ++ kept ∧
      kept.length = min w.history.length (max (w.maxFiles - 1) 0).toNat ∧
      w1 = { w with history := kept } ∧ fs1.faults = fs.faults ∧
      ∀ p, fs1.find p = if p ∈ removed then none else fs.find p := by
  unfold RotateWriter.prune at h
  rw [if_neg (by omega)] at h
  cases hp : pruneLoop w.maxFiles w.history fs with
  | mk err rest =>
    obtain ⟨history1, fs2⟩ := rest
    rw [hp] at h
    simp only [Prod.mk.injEq] at h
    obtain ⟨rfl, rfl, rfl⟩ := h
    obtain ⟨removed, h1, h2, h3⟩ := pruneLoop_ok w.maxFiles hm _ _ _ _ hp
    refine ⟨removed, history1, h1, h2, rfl, by rw [h3]; rfl, fun p => ?_⟩
    rw [h3]
    exact find_filter_notMem removed p fs.nodes

theorem Write_nil_opens (w w4 : RotateWriter) (fs fs4 : FS) (n : Int) (hm : w.maxFiles ≠ 0)
    (hfile : w.file = none) (h : w.Write [] fs = some ((n, none), w4, fs4)) :
    w4.history = w.history ∧
    (∀ q, q ≠ w.filename → fs4.find q = fs.find q) ∧
    ∃ c0, (fs.find w.filename = some (.file c0) ∨ (fs.find w.filename = none ∧ c0 = [])) ∧
      fs4.find w.filename = some (.file c0) := by
  have hs : w.rotateStep fs = some (w, fs) := by
    unfold RotateWriter.rotateStep
    rw [if_neg (by simp [hfile])]
  obtain ⟨r, w1, fs1, evs, h1, h2, _, _, _, h6, h7⟩ :=
    Write_without_rotation w [] fs hm hs (Or.inl hfile)
  rw [h1] at h
  simp only [Option.some.injEq, Prod.mk.injEq] at h
  obtain ⟨rfl, rfl, rfl⟩ := h
  obtain ⟨_, c0, hc0, hfind⟩ := h7 rfl
  refine ⟨by rw [h2], h6, c0, hc0, ?_⟩
  simpa using hfind

theorem prune_then_open (w2 w3 w : RotateWriter) (fs2 fs3 fs' : FS) (n : Int)
    (hm : 0 ≤ w2.maxFiles) (hfile : w2.file = none) (hnot : w2.filename ∉ w2.history)
    (hpr : w2.prune fs2 = (none, w3, fs3)) (hwr : w3.Write [] fs3 = some ((n, none), w, fs')) :
    ∃ removed,
      w2.history = removed ++ w.history ∧
      w.history.length = min w2.history.length (max (w2.maxFiles - 1) 0).toNat ∧
      (∀ p ∈ removed, fs'.find p = none) ∧
      (∀ p, p ≠ w2.filename → p ∉ removed → fs'.find p = fs2.find p) ∧
      (w2.maxFiles = 0 → fs'.find w2.filename = fs2.find w2.filename) ∧
      (w2.maxFiles ≠ 0 →
        ∃ c0, (fs2.find w2.filename = some (.file c0) ∨
            (fs2.find w2.filename = none ∧ c0 = [])) ∧
          fs'.find w2.filename = some (.file c0)) := by
  obtain ⟨removed, kept, h1, h2, rfl, _, h4⟩ := prune_find w2 w3 fs2 fs3 hm hpr
  have htr : w2.filename ∉ removed := fun hmem => hnot (by rw [h1]; exact List.mem_append_left _ hmem)
  have ht3 : fs3.find w2.filename = fs2.find w2.filename := by rw [h4, if_neg htr]
  by_cases h0 : w2.maxFiles = 0
  · have hw : ({ w2 with history := kept } : RotateWriter).Write [] fs3 =
        some ((0, none), { w2 with history := kept }, fs3) := by
      simp [RotateWriter.Write, h0]
    rw [hw] at hwr
    simp only [Option.some.injEq, Prod.mk.injEq] at hwr
    obtain ⟨_, rfl, rfl⟩ := hwr
    refine ⟨removed, h1, h2, fun p hp => by rw [h4, if_pos hp],
      fun p _ hp => by rw [h4, if_neg hp], fun _ => ht3, fun hne => absurd h0 hne⟩
  · obtain ⟨g1, g2, c0, g3, g4⟩ :=
      Write_nil_opens ({ w2 with history := kept } : RotateWriter) w fs3 fs' n h0 hfile hwr
    have g1 : w.history = kept := g1
    refine ⟨removed, by rw [g1]; exact h1, by rw [g1]; exact h2, ?_, ?_, fun h => absurd h h0,
      fun _ => ⟨c0, ?_, g4⟩⟩
    · intro p hp
      have hne : p ≠ w2.filename := fun e => htr (e ▸ hp)
      rw [g2 p hne, h4, if_pos hp]
    · intro p hne hp
      rw [g2 p hne, h4, if_neg hp]
    · have ht3' : fs3.find w2.filename = fs2.find w2.filename := ht3
      rw [← ht3']
      exact g3

/-! ## Properties of the specification: `Close`, and the first and failed writes of a `CollapsingWriter` -/

/-- C21. A `Close` on a writer with a handle `h` makes exactly one system
call, the close of `h`, returns its error and leaves the writer without handle,
all other fields and the files as they were. A `Close` on a writer without
handle returns no error and changes neither the writer nor the system. Hence
a second `Close` right after a first one, failed or not, returns no error and
changes nothing. A `Close` never changes the size or the history. -/
theorem RotateWriter.close_idempotent :
    (∀ (w : RotateWriter) (fs : FS) (h : Path), w.file = some h →
      ∃ e opened, w.Close fs =
          (e, { w with file := none }, (fs.setOpened opened).logAll [⟨.close h, 0, e⟩]) ∧
        (h ∈ fs.opened → opened = fs.opened.erase h) ∧
        (h ∈ fs.opened → fs.faults = [] → e = none)) ∧
    (∀ (w : RotateWriter) (fs : FS), w.file = none → w.Close fs = (none, w, fs)) ∧
    (∀ (w : RotateWriter) (fs : FS),
      (w.Close fs).2.1.Close (w.Close fs).2.2 = (none, (w.Close fs).2.1, (w.Close fs).2.2)) ∧
    (∀ (w : RotateWriter) (fs : FS),
      (w.Close fs).2.1 = { w with file := none } ∧ (w.Close fs).2.1.size = w.size ∧
      (w.Close fs).2.1.history = w.history) := by
  have hnone : ∀ (w : RotateWriter) (fs : FS), w.file = none → w.Close fs = (none, w, fs) := by
    intro w fs hf
    simp only [RotateWriter.Close, hf]
  have hfile : ∀ (w : RotateWriter) (fs : FS), (w.Close fs).2.1 = { w with file := none } := by
    intro w fs
    cases hf : w.file with
    | none =>
      rw [hnone w fs hf]
      cases w
      simp only at hf
      simp [hf]
    | some h =>
      simp only [RotateWriter.Close, hf]
  refine ⟨?_, hnone, ?_, ?_⟩
  · intro w fs h hf
    simp only [RotateWriter.Close, hf]
    unfold fileClose
    by_cases hm : h ∈ fs.opened
    · cases hfa : fs.fault with
      | none =>
        exact ⟨none, fs.opened.erase h, by simp [hm, FS.log, FS.logAll], fun _ => rfl,
          fun _ _ => rfl⟩
      | some f =>
        refine ⟨some f.err, fs.opened.erase h, by simp [hm, FS.log, FS.logAll], fun _ => rfl,
          fun _ hno => ?_⟩
        simp [FS.fault, hno] at hfa
    · exact ⟨some ErrClosed, fs.opened, by simp [hm, FS.log, FS.logAll, FS.setOpened],
        fun h' => absurd h' hm, fun h' => absurd h' hm⟩
  · intro w fs
    exact hnone _ _ (by rw [hfile])
  · intro w fs
    refine ⟨hfile w fs, ?_, ?_⟩ <;> rw [hfile]

theorem RotateWriter.close_idempotent_witness :
    ((some exTarget = some exTarget) ∧
      ∃ e opened,
        RotateWriter.Close ⟨exTarget, 2, 12, 5, true, some exTarget, [exRotated]⟩
            ⟨["tmp".toList], [(exTarget, .file "hello".toList)], [exTarget], exClock, [], []⟩ =
          (e, ⟨exTarget, 2, 12, 5, true, none, [exRotated]⟩,
            (FS.setOpened
              ⟨["tmp".toList], [(exTarget, .file "hello".toList)], [exTarget], exClock, [], []⟩
              opened).logAll [⟨.close exTarget, 0, e⟩]) ∧
        (exTarget ∈ [exTarget] → opened = [exTarget].erase exTarget) ∧
        (exTarget ∈ [exTarget] → ([] : List (Nat × Fault)) = [] → e = none)) ∧
    (((none : Option Path) = none) ∧
      RotateWriter.Close ⟨exTarget, 2, 12, 5, true, none, [exRotated]⟩
          ⟨["tmp".toList], [(exTarget, .file "hello".toList)], [], exClock, [], []⟩ =
        (none, ⟨exTarget, 2, 12, 5, true, none, [exRotated]⟩,
          ⟨["tmp".toList], [(exTarget, .file "hello".toList)], [], exClock, [], []⟩)) :=
  ⟨⟨rfl,
      RotateWriter.close_idempotent.1 ⟨exTarget, 2, 12, 5, true, some exTarget, [exRotated]⟩
        ⟨["tmp".toList], [(exTarget, .file "hello".toList)], [exTarget], exClock, [], []⟩
        exTarget rfl⟩,
    ⟨rfl,
      RotateWriter.close_idempotent.2.1 ⟨exTarget, 2, 12, 5, true, none, [exRotated]⟩
        ⟨["tmp".toList], [(exTarget, .file "hello".toList)], [], exClock, [], []⟩ rfl⟩⟩

/-- C29. On a `CollapsingWriter` that has written nothing yet (`last` empty,
`count` 0), a first `Write` of an empty payload returns `(0, nil)`, forwards
nothing and makes `count` 1. The next `Write`, of a payload `q` that is not
empty, forwards `" ...x2\n"` and then `q`, and returns what the sink gave for
`q`. -/
theorem CollapsingWriter.write_empty_first {σ : Type} (intSize : IntSize) (sink : Writer σ)
    (s : σ) :
    CollapsingWriter.Write intSize sink ⟨[], 0⟩ [] s = ((0, none), ⟨[], 1⟩, s) ∧
    (∀ q : Bytes, q ≠ [] →
      CollapsingWriter.Write intSize sink ⟨[], 1⟩ q s =
        ((sink q (sink " ...x2\n".toList s).2).1, ⟨q, 0⟩,
          (sink q (sink " ...x2\n".toList s).2).2)) ∧
    CollapsingWriter.WriteAll intSize bufferWriter [[], "message".toList] ⟨[], 0⟩ [] =
      (⟨"message".toList, 0⟩, " ...x2\nmessage".toList) := by
  have h1 : wrapInt intSize 1 = 1 := by cases intSize <;> decide
  have hs : summaryLine (wrapInt intSize (1 + 1)) = " ...x2\n".toList := by
    cases intSize <;> decide
  refine ⟨by simp [CollapsingWriter.Write, h1], ?_, by cases intSize <;> decide⟩
  intro q hq
  have hq' : ¬ ([] : Bytes) = q := fun h => hq h.symm
  simp only [CollapsingWriter.Write, hq', if_false, hs]
  simp

theorem CollapsingWriter.write_empty_first_witness :
    ("message".toList ≠ []) ∧
    CollapsingWriter.Write .bits64 bufferWriter ⟨[], 1⟩ "message".toList [] =
      ((bufferWriter "message".toList (bufferWriter " ...x2\n".toList []).2).1,
        ⟨"message".toList, 0⟩,
        (bufferWriter "message".toList (bufferWriter " ...x2\n".toList []).2).2) :=
  ⟨by decide,
    (CollapsingWriter.write_empty_first .bits64 bufferWriter []).2.1 "message".toList
      (by decide)⟩

/-- C30. A `Write` of a payload `p` other than `last`: whatever the sink
returns for `p`, and whatever it returned for the summary line when one was
due, `last` becomes `p`, and the result is what the sink gave for `p` alone.
A `Write` of the same `p` right after it, also when the first one failed,
returns `(0, nil)`, forwards nothing and adds 1 to `count` (in `int`). A sink
that fails every write shows it: the second `Write` of `"message"` returns
`(0, nil)`. -/
theorem CollapsingWriter.write_keeps_failed_payload {σ : Type} (intSize : IntSize)
    (sink : Writer σ) (w : CollapsingWriter) (p : Bytes) (s : σ) (hp : p ≠ w.last) :
    (CollapsingWriter.Write intSize sink w p s).2.1.last = p ∧
    (CollapsingWriter.Write intSize sink w p s).1 =
      (sink p (if w.count > 0 then (sink (summaryLine (wrapInt intSize (w.count + 1))) s).2
        else s)).1 ∧
    (CollapsingWriter.Write intSize sink w p s).2.2 =
      (sink p (if w.count > 0 then (sink (summaryLine (wrapInt intSize (w.count + 1))) s).2
        else s)).2 ∧
    CollapsingWriter.Write intSize sink (CollapsingWriter.Write intSize sink w p s).2.1 p
        (CollapsingWriter.Write intSize sink w p s).2.2 =
      ((0, none),
        ⟨p, wrapInt intSize ((CollapsingWriter.Write intSize sink w p s).2.1.count + 1)⟩,
        (CollapsingWriter.Write intSize sink w p s).2.2) ∧
    CollapsingWriter.Write intSize (failingWriter 0 "disk full".toList) ⟨[], 0⟩
        "message".toList () =
      ((0, some "disk full".toList), ⟨"message".toList, 0⟩, ()) ∧
    CollapsingWriter.Write intSize (failingWriter 0 "disk full".toList) ⟨"message".toList, 0⟩
        "message".toList () =
      ((0, none), ⟨"message".toList, 1⟩, ()) := by
  have hp' : ¬ w.last = p := fun h => hp h.symm
  have h1 : (CollapsingWriter.Write intSize sink w p s).2.1.last = p := by
    by_cases hc : w.count > 0 <;> simp [CollapsingWriter.Write, hp', hc]
  refine ⟨h1, ?_, ?_, ?_, by cases intSize <;> decide, by cases intSize <;> decide⟩
  · by_cases hc : w.count > 0 <;> simp [CollapsingWriter.Write, hp', hc]
  · by_cases hc : w.count > 0 <;> simp [CollapsingWriter.Write, hp', hc]
  · generalize CollapsingWriter.Write intSize sink w p s = r at h1
    obtain ⟨res, w1, s1⟩ := r
    obtain ⟨l, c⟩ := w1
    simp only at h1
    subst h1
    simp [CollapsingWriter.Write]

theorem CollapsingWriter.write_keeps_failed_payload_witness :
    ("message".toList ≠ (⟨[], 3⟩ : CollapsingWriter).last) ∧
    (CollapsingWriter.Write .bits64 (failingWriter 0 "disk full".toList) ⟨[], 3⟩
        "message".toList ()).2.1.last = "message".toList ∧
    CollapsingWriter.Write .bits64 (failingWriter 0 "disk full".toList)
        (CollapsingWriter.Write .bits64 (failingWriter 0 "disk full".toList) ⟨[], 3⟩
          "message".toList ()).2.1 "message".toList
        (CollapsingWriter.Write .bits64 (failingWriter 0 "disk full".toList) ⟨[], 3⟩
          "message".toList ()).2.2 =
      ((0, none),
        ⟨"message".toList,
          wrapInt .bits64 ((CollapsingWriter.Write .bits64 (failingWriter 0 "disk full".toList)
            ⟨[], 3⟩ "message".toList ()).2.1.count + 1)⟩,
        (CollapsingWriter.Write .bits64 (failingWriter 0 "disk full".toList) ⟨[], 3⟩
          "message".toList ()).2.2) :=
  ⟨by decide,
    (CollapsingWriter.write_keeps_failed_payload .bits64 (failingWriter 0 "disk full".toList)
      ⟨[], 3⟩ "message".toList () (by decide)).1,
    (CollapsingWriter.write_keeps_failed_payload .bits64 (failingWriter 0 "disk full".toList)
      ⟨[], 3⟩ "message".toList () (by decide)).2.2.2.1⟩

/-! ## The steps of the constructor -/

theorem NewRotateWriter_steps (target : Path) (m maxSize : Int) (sizeUnit : Bytes)
    (truncate : Bool) (fs fs' : FS) (w : RotateWriter)
    (h : NewRotateWriter target m maxSize sizeUnit truncate fs = some (.ok w, fs')) :
    ∃ (wp : RotateWriter) (fsp : FS) (r : Except Err FileInfo) (fss : FS)
      (w2 : RotateWriter) (fs2 : FS) (w3 : RotateWriter) (fs3 : FS) (n : Int),
      RotateWriter.populate
          ⟨target, m, computeMaxSize maxSize sizeUnit, 0,
            decide (sizeUnit = "bytes".toList ∨ sizeUnit = "kbytes".toList ∨
              sizeUnit = "mbytes".toList), none, []⟩ fs = (.ok wp, fsp) ∧
      osStat wp.filename fsp = (r, fss) ∧
      ((∃ e, r = .error e ∧ w2 = wp ∧ fs2 = fss) ∨
        (∃ info, r = .ok info ∧ info.isDir = false ∧ truncate = false ∧
          w2 = { wp with size := wp.computeSize info } ∧ fs2 = fss) ∨
        (∃ info, r = .ok info ∧ info.isDir = false ∧ truncate = true ∧
          ({ wp with size := wp.computeSize info } : RotateWriter).rotate fss =
            some (none, w2, fs2))) ∧
      w2.prune fs2 = (none, w3, fs3) ∧
      w3.Write [] fs3 = some ((n, none), w, fs') := by
  unfold NewRotateWriter at h
  cases hpop : RotateWriter.populate
      ⟨target, m, computeMaxSize maxSize sizeUnit, 0,
        decide (sizeUnit = "bytes".toList ∨ sizeUnit = "kbytes".toList ∨
          sizeUnit = "mbytes".toList), none, []⟩ fs with
  | mk out fsp =>
    rw [hpop] at h
    cases out with
    | error e => simp at h
    | panicked => simp at h
    | unmodelled => simp at h
    | ok wp =>
      simp only at h
      cases hst : osStat wp.filename fsp with
      | mk r fss =>
        rw [hst] at h
        cases r with
        | error e =>
          simp only at h
          split at h
          · simp at h
          · rename_i w3 fs3 hpr
            split at h
            · cases h
            · simp at h
            · rename_i n w4 fs4 hwr
              simp only [Option.some.injEq, Prod.mk.injEq, Outcome.ok.injEq] at h
              obtain ⟨rfl, rfl⟩ := h
              exact ⟨wp, fsp, _, fss, wp, fss, w3, fs3, n, rfl, hst,
                Or.inl ⟨e, rfl, rfl, rfl⟩, hpr, hwr⟩
        | ok info =>
          simp only at h
          cases hdir : info.isDir with
          | true =>
            rw [hdir] at h
            simp at h
          | false =>
            rw [hdir] at h
            simp only [Bool.false_eq_true, if_false] at h
            cases truncate with
            | false =>
              simp only [Bool.false_eq_true, if_false] at h
              split at h
              · simp at h
              · rename_i w3 fs3 hpr
                split at h
                · cases h
                · simp at h
                · rename_i n w4 fs4 hwr
                  simp only [Option.some.injEq, Prod.mk.injEq, Outcome.ok.injEq] at h
                  obtain ⟨rfl, rfl⟩ := h
                  exact ⟨wp, fsp, _, fss, _, fss, w3, fs3, n, rfl, hst,
                    Or.inr (Or.inl ⟨info, rfl, hdir, rfl, rfl, rfl⟩), hpr, hwr⟩
            | true =>
              simp only [if_true] at h
              cases hrot : ({ wp with size := wp.computeSize info } : RotateWriter).rotate fss with
              | none => rw [hrot] at h; simp at h
              | some x =>
                obtain ⟨err, w2, fs2⟩ := x
                rw [hrot] at h
                cases err with
                | some e => simp at h
                | none =>
                  simp only at h
                  split at h
                  · simp at h
                  · rename_i w3 fs3 hpr
                    split at h
                    · cases h
                    · simp at h
                    · rename_i n w4 fs4 hwr
                      simp only [Option.some.injEq, Prod.mk.injEq, Outcome.ok.injEq] at h
                      obtain ⟨rfl, rfl⟩ := h
                      exact ⟨wp, fsp, _, fss, w2, fs2, w3, fs3, n, rfl, hst,
                        Or.inr (Or.inr ⟨info, rfl, hdir, rfl, hrot⟩), hpr, hwr⟩

/-! ## The size and the configuration through the methods -/

theorem rotate_result (w w1 : RotateWriter) (fs fs1 : FS) (e : Option Err)
    (h : w.rotate fs = some (e, w1, fs1)) :
    w1.config = w.config ∧ w1.file = none ∧
    (w1.size = 0 ∨ (w1.size = w.size ∧ e ≠ none)) ∧ (e = none → w1.size = 0) := by
  have key : ∀ (w : RotateWriter) (fs : FS), w.file = none →
      ∀ e w1 fs1, w.rotate fs = some (e, w1, fs1) →
        w1.config = w.config ∧ w1.file = none ∧ w1.size = 0 := by
    intro w fs hf e w1 fs1 h
    unfold RotateWriter.rotate at h
    simp only [hf] at h
    split at h
    · simp only [Option.some.injEq, Prod.mk.injEq] at h
      obtain ⟨_, rfl, _⟩ := h
      exact ⟨by simp [RotateWriter.config], rfl, rfl⟩
    · split at h
      · cases h
      · split at h
        · simp only [Option.some.injEq, Prod.mk.injEq] at h
          obtain ⟨_, rfl, _⟩ := h
          exact ⟨by simp [RotateWriter.config], rfl, rfl⟩
        · simp only [Option.some.injEq, Prod.mk.injEq] at h
          obtain ⟨_, rfl, _⟩ := h
          exact ⟨by simp [RotateWriter.config], rfl, rfl⟩
  cases hf : w.file with
  | none =>
    obtain ⟨h1, h2, h3⟩ := key w fs hf e w1 fs1 h
    exact ⟨h1, h2, Or.inl h3, fun _ => h3⟩
  | some hd =>
    rw [rotate_some w fs hd hf] at h
    cases hc : fileClose hd fs with
    | mk ce fs2 =>
      rw [hc] at h
      cases ce with
      | some err =>
        simp only [Option.some.injEq, Prod.mk.injEq] at h
        obtain ⟨rfl, rfl, _⟩ := h
        exact ⟨rfl, rfl, Or.inr ⟨rfl, by simp⟩, fun h => by cases h⟩
      | none =>
        simp only at h
        obtain ⟨h1, h2, h3⟩ := key { w with file := none } fs2 rfl e w1 fs1 h
        exact ⟨h1, h2, Or.inl h3, fun _ => h3⟩

theorem report_result (w : RotateWriter) (line : Bytes) (fs : FS) :
    (w.report line fs).1.config = w.config ∧ (w.report line fs).1.file = w.file ∧
    (w.report line fs).1.history = w.history ∧
    ∃ d : Int, 0 ≤ d ∧ (w.file = none → d ≤ 1) ∧
      (w.report line fs).1.size = wrapInt64 (w.size + d) := by
  cases hf : w.file with
  | none =>
    rw [report_none w line fs hf]
    unfold RotateWriter.increaseSize
    cases hb : w.inBytes
    · refine ⟨by simp [RotateWriter.config, hb], by simp [hf], by simp, 1, by omega,
        fun _ => by omega, by simp⟩
    · refine ⟨by simp [RotateWriter.config, hb], by simp [hf], by simp, 0, by omega,
        fun _ => by omega, by simp⟩
  | some h =>
    obtain ⟨k, e, written, h1, _, _, _⟩ := fileWrite_cases h line fs
    simp only [RotateWriter.report, hf, h1]
    unfold RotateWriter.increaseSize
    cases hb : w.inBytes
    · refine ⟨by simp [RotateWriter.config, hb], by simp [hf], by simp, 1, by omega,
        fun hn => (by cases hn), by simp⟩
    · refine ⟨by simp [RotateWriter.config, hb], by simp [hf], by simp, k, by omega,
        fun hn => (by cases hn), by simp⟩

theorem prune_result (w : RotateWriter) (fs : FS) :
    (w.prune fs).2.1.config = w.config ∧ (w.prune fs).2.1.file = w.file ∧
    (w.prune fs).2.1.size = w.size := by
  obtain ⟨err, removed, kept, evs, h, _⟩ := prune_cases w fs
  rw [h]
  exact ⟨rfl, rfl, rfl⟩

theorem rotateAndPrune_result (w w1 : RotateWriter) (fs fs1 : FS)
    (h : w.rotateAndPrune fs = some (w1, fs1)) :
    w1.config = w.config ∧ w1.file = none ∧
    (0 ≤ w.size → w.size + 2 < 2 ^ 63 → 0 ≤ w1.size ∧ w1.size ≤ w.size + 2) := by
  unfold RotateWriter.rotateAndPrune at h
  cases hr : w.rotate fs with
  | none => rw [hr] at h; cases h
  | some x =>
    obtain ⟨e, wr, fsr⟩ := x
    rw [hr] at h
    simp only at h
    obtain ⟨r1, r2, r3, r4⟩ := rotate_result w wr fs fsr e hr
    have mid : ∀ (w2 : RotateWriter) (fs2 : FS),
        w2.config = w.config → w2.file = none →
        ∀ w1 fs1,
          (match w2.prune fs2 with
            | (some e, w3, fs3) =>
              some (w3.report ("failed to prune log file: ".toList ++ e ++ ['\n']) fs3)
            | (none, w3, fs3) => some (w3, fs3)) = some (w1, fs1) →
          w1.config = w.config ∧ w1.file = none ∧
          (0 ≤ w2.size → w2.size + 1 < 2 ^ 63 → 0 ≤ w1.size ∧ w1.size ≤ w2.size + 1) := by
      intro w2 fs2 c1 c2 w1 fs1 hm
      obtain ⟨p1, p2, p3⟩ := prune_result w2 fs2
      cases hp : w2.prune fs2 with
      | mk pe rest =>
        obtain ⟨w3, fs3⟩ := rest
        rw [hp] at hm p1 p2 p3
        simp only at p1 p2 p3
        cases pe with
        | none =>
          simp only [Option.some.injEq, Prod.mk.injEq] at hm
          obtain ⟨rfl, _⟩ := hm
          exact ⟨p1.trans c1, p2.trans c2, fun h0 _ => by omega⟩
        | some e =>
          simp only [Option.some.injEq] at hm
          obtain ⟨q1, q2, _, d, d1, d2, q4⟩ :=
            report_result w3 ("failed to prune log file: ".toList ++ e ++ ['\n']) fs3
          rw [hm] at q1 q2 q4
          simp only at q1 q2 q4
          have hd := d2 (p2.trans c2)
          refine ⟨q1.trans (p1.trans c1), q2.trans (p2.trans c2), fun h0 hlt => ?_⟩
          rw [q4, wrapInt64_eq _ (by omega) (by omega)]
          omega
    cases e with
    | none =>
      simp only at h
      obtain ⟨m1, m2, m3⟩ := mid wr fsr r1 r2 w1 fs1 h
      refine ⟨m1, m2, fun h0 hlt => ?_⟩
      have hz := r4 rfl
      have := m3 (by omega) (by omega)
      omega
    | some err =>
      simp only at h
      obtain ⟨q1, q2, _, d, d1, d2, q4⟩ :=
        report_result wr ("failed to rotate log file: ".toList ++ err ++ ['\n']) fsr
      cases hrep : wr.report ("failed to rotate log file: ".toList ++ err ++ ['\n']) fsr with
      | mk w2 fs2 =>
        rw [hrep] at h q1 q2 q4
        simp only at h q1 q2 q4
        obtain ⟨m1, m2, m3⟩ := mid w2 fs2 (q1.trans r1) (q2.trans r2) w1 fs1 h
        refine ⟨m1, m2, fun h0 hlt => ?_⟩
        have hd := d2 r2
        have hwr : 0 ≤ wr.size ∧ wr.size ≤ w.size := by
          rcases r3 with r3 | ⟨r3, _⟩ <;> omega
        have h2 : w2.size = wr.size + d := by
          rw [q4, wrapInt64_eq _ (by omega) (by omega)]
        have := m3 (by omega) (by omega)
        omega

theorem Write_result (w w1 : RotateWriter) (p : Bytes) (fs fs1 : FS) (r : Int × Option Err)
    (h : w.Write p fs = some (r, w1, fs1)) :
    w1.config = w.config ∧
    (0 ≤ w.size → w.size + p.length + 2 < 2 ^ 63 →
      0 ≤ w1.size ∧ w1.size ≤ w.size + p.length + 2) := by
  by_cases hm : w.maxFiles = 0
  · simp only [RotateWriter.Write, hm, if_true, Option.some.injEq, Prod.mk.injEq] at h
    obtain ⟨_, rfl, _⟩ := h
    exact ⟨rfl, fun h0 _ => by omega⟩
  · rw [Write_eq_steps w p fs hm] at h
    have hstep : ∀ w2 fs2, w.rotateStep fs = some (w2, fs2) →
        w2.config = w.config ∧
        (0 ≤ w.size → w.size + 2 < 2 ^ 63 → 0 ≤ w2.size ∧ w2.size ≤ w.size + 2) := by
      intro w2 fs2 hst
      unfold RotateWriter.rotateStep at hst
      split at hst
      · obtain ⟨a, _, c⟩ := rotateAndPrune_result w w2 fs fs2 hst
        exact ⟨a, c⟩
      · simp only [Option.some.injEq, Prod.mk.injEq] at hst
        obtain ⟨rfl, _⟩ := hst
        exact ⟨rfl, fun h0 _ => by omega⟩
    cases hst : w.rotateStep fs with
    | none => rw [hst] at h; cases h
    | some x =>
      obtain ⟨w2, fs2⟩ := x
      rw [hst] at h
      simp only [Option.some.injEq] at h
      obtain ⟨c1, c2⟩ := hstep w2 fs2 hst
      rcases payloadStep_cases w2 p fs2 with ⟨_, e, _, hp⟩ | ⟨hd, fs3, k, e, _, hp, hk, _⟩
      · rw [hp] at h
        simp only [Prod.mk.injEq] at h
        obtain ⟨_, rfl, _⟩ := h
        exact ⟨c1, fun h0 hlt => by have := c2 h0 (by omega); omega⟩
      · rw [hp] at h
        simp only [Prod.mk.injEq] at h
        obtain ⟨_, rfl, _⟩ := h
        refine ⟨c1, fun h0 hlt => ?_⟩
        have hc := c2 h0 (by omega)
        simp only
        have hl : (0 : Int) ≤ lineCount p ∧ lineCount p ≤ (p.length : Int) := by
          unfold lineCount
          have := List.count_le_length '\n' p
          omega
        have hinc : (0 : Int) ≤ (if w2.inBytes then (k : Int) else lineCount p) ∧
            (if w2.inBytes then (k : Int) else lineCount p) ≤ (p.length : Int) := by
          split <;> omega
        rw [wrapInt64_eq _ (by omega) (by omega)]
        omega

theorem Close_result (w : RotateWriter) (fs : FS) :
    (w.Close fs).2.1.config = w.config ∧ (w.Close fs).2.1.size = w.size ∧
    (w.Close fs).2.1.history = w.history ∧ (w.Close fs).2.1.file = none := by
  cases hf : w.file with
  | none => simp [RotateWriter.Close, hf]
  | some h => simp [RotateWriter.Close, hf, RotateWriter.config]

theorem computeSize_nonneg (w : RotateWriter) (info : FileInfo) : 0 ≤ w.computeSize info := by
  unfold RotateWriter.computeSize
  split <;> omega

theorem computeSize_le (w : RotateWriter) (info : FileInfo) :
    w.computeSize info ≤ (info.size : Int) := by
  unfold RotateWriter.computeSize
  split <;> omega

theorem osStat_size (p : Path) (fs fs1 : FS) (info : FileInfo)
    (h : osStat p fs = (.ok info, fs1)) (hd : info.isDir = false) :
    ∃ c, fs.find p = some (.file c) ∧ info.size = c.length := by
  unfold osStat at h
  cases hfa : fs.fault with
  | some f => rw [hfa] at h; simp at h
  | none =>
    rw [hfa] at h
    cases hf : fs.find p with
    | none => rw [hf] at h; simp at h
    | some nd =>
      rw [hf] at h
      cases nd with
      | file c =>
        simp only [Prod.mk.injEq, Except.ok.injEq] at h
        exact ⟨c, rfl, by rw [← h.1]⟩
      | dir =>
        simp only [Prod.mk.injEq, Except.ok.injEq] at h
        rw [← h.1] at hd
        cases hd

theorem Write_nil_size (w w1 : RotateWriter) (fs fs1 : FS) (r : Int × Option Err)
    (hfile : w.file = none) (h : w.Write [] fs = some (r, w1, fs1)) :
    (-(2 ^ 63) ≤ w.size → w.size < 2 ^ 63 → w1.size = w.size) ∧
    ∃ evs, fs1.trace = fs.trace ++ evs := by
  by_cases hm : w.maxFiles = 0
  · simp only [RotateWriter.Write, hm, if_true, Option.some.injEq, Prod.mk.injEq] at h
    obtain ⟨_, rfl, rfl⟩ := h
    exact ⟨fun _ _ => rfl, [], by simp⟩
  · obtain ⟨_, _, _, evs, _, _, g1, _, _, g3, _⟩ := Write_full w [] fs hm
    rw [g1] at h
    simp only [Option.some.injEq, Prod.mk.injEq] at h
    obtain ⟨_, rfl, rfl⟩ := h
    refine ⟨?_, evs, g3⟩
    intro hlo hhi
    have hs : w.rotateStep fs = some (w, fs) := by
      unfold RotateWriter.rotateStep
      rw [if_neg (by simp [hfile])]
    rw [Write_eq_steps w [] fs hm, hs] at g1
    simp only [Option.some.injEq] at g1
    rcases payloadStep_cases w [] fs with ⟨_, e, _, hp⟩ | ⟨hd, fs3, k, e, _, hp, hk, _⟩
    · rw [hp] at g1
      simp only [Prod.mk.injEq] at g1
      rw [← g1.2.1]
    · rw [hp] at g1
      simp only [Prod.mk.injEq] at g1
      rw [← g1.2.1]
      have hk0 : k = 0 := by simpa using hk
      subst hk0
      simp only
      have h0 : (if w.inBytes then ((0 : Nat) : Int) else lineCount []) = 0 := by
        split <;> simp [lineCount]
      rw [h0, Int.add_zero, wrapInt64_eq _ hlo hhi]

theorem NewRotateWriter_result (target : Path) (m maxSize : Int) (sizeUnit : Bytes)
    (truncate : Bool) (fs fs' : FS) (w : RotateWriter)
    (h : NewRotateWriter target m maxSize sizeUnit truncate fs = some (.ok w, fs')) :
    w.config = (target, m, computeMaxSize maxSize sizeUnit,
      decide (sizeUnit = "bytes".toList ∨ sizeUnit = "kbytes".toList ∨
        sizeUnit = "mbytes".toList)) ∧
    ∀ B : Nat, (B : Int) < 2 ^ 63 → (∀ c, fs.find target = some (.file c) → c.length ≤ B) →
      0 ≤ w.size ∧ w.size ≤ B := by
  obtain ⟨wp, fsp, r, fss, w2, fs2, w3, fs3, n, hpop, hst, hmid, hpr, hwr⟩ :=
    NewRotateWriter_steps target m maxSize sizeUnit truncate fs fs' w h
  obtain ⟨hfsp, added, hwp, _, _⟩ := populate_ok _ _ _ _ hpop
  have c0 : wp.config = (target, m, computeMaxSize maxSize sizeUnit,
      decide (sizeUnit = "bytes".toList ∨ sizeUnit = "kbytes".toList ∨
        sizeUnit = "mbytes".toList)) := by rw [hwp]; rfl
  have s0 : wp.size = 0 := by rw [hwp]
  have f0 : wp.file = none := by rw [hwp]
  have n0 : wp.filename = target := by rw [hwp]
  have c2 : w2.config = wp.config ∧ w2.file = none ∧
      ∀ B : Nat, (∀ c, fs.find target = some (.file c) → c.length ≤ B) →
        0 ≤ w2.size ∧ w2.size ≤ B := by
    rcases hmid with ⟨e, _, rfl, _⟩ | ⟨info, hi, hdir, _, rfl, _⟩ | ⟨info, _, _, _, hrot⟩
    · exact ⟨rfl, f0, fun B _ => by rw [s0]; omega⟩
    · refine ⟨rfl, f0, fun B hB => ?_⟩
      rw [hi] at hst
      obtain ⟨c, hc, hsz⟩ := osStat_size _ _ _ _ hst hdir
      rw [n0, hfsp, FS.find_logAll] at hc
      have := hB c hc
      have h1 := computeSize_nonneg wp info
      have h2 := computeSize_le wp info
      simp only
      omega
    · obtain ⟨a, b, _, d⟩ := rotate_result _ _ _ _ _ hrot
      exact ⟨a, b, fun B _ => by rw [d rfl]; omega⟩
  obtain ⟨p1, p2, p3⟩ := prune_result w2 fs2
  rw [hpr] at p1 p2 p3
  simp only at p1 p2 p3
  obtain ⟨q1, _⟩ := Write_result w3 w [] fs3 fs' _ hwr
  refine ⟨q1.trans (p1.trans (c2.1.trans c0)), fun B hB hle => ?_⟩
  obtain ⟨b1, b2⟩ := c2.2.2 B hle
  obtain ⟨q2, _⟩ := Write_nil_size w3 w fs3 fs' _ (p2.trans c2.2.1) hwr
  rw [q2 (by rw [p3]; omega) (by rw [p3]; omega), p3]
  exact ⟨b1, b2⟩

/-! ## The calls of the constructor after the rotation -/

theorem constructor_tail (w2 w3 w : RotateWriter) (fs2 fs3 fs' : FS) (n : Int)
    (hfile : w2.file = none)
    (hpr : w2.prune fs2 = (none, w3, fs3)) (hwr : w3.Write [] fs3 = some ((n, none), w, fs')) :
    ∃ evs, fs'.trace = fs2.trace ++ evs ∧ ∀ ev ∈ evs, ev.op.kind ≠ .stat := by
  obtain ⟨err, removed, kept, pevs, p1, _, p3, _⟩ := prune_cases w2 fs2
  rw [hpr] at p1
  simp only [Prod.mk.injEq] at p1
  obtain ⟨_, hw3, hfs3⟩ := p1
  have hf3 : w3.file = none := by rw [hw3]; exact hfile
  by_cases hm : w3.maxFiles = 0
  · simp only [RotateWriter.Write, hm, if_true, Option.some.injEq, Prod.mk.injEq] at hwr
    obtain ⟨_, _, rfl⟩ := hwr
    refine ⟨pevs, by rw [hfs3]; rfl, fun ev hev => by rw [p3 ev hev]; simp⟩
  · have hs : w3.rotateStep fs3 = some (w3, fs3) := by
      unfold RotateWriter.rotateStep
      rw [if_neg (by simp [hf3])]
    rw [Write_eq_steps w3 [] fs3 hm, hs] at hwr
    simp only [Option.some.injEq] at hwr
    rcases payloadStep_cases w3 [] fs3 with ⟨_, e, _, hp⟩ | ⟨hd, fs4, k, e, hopen, hp, _, _⟩
    · rw [hp] at hwr
      simp at hwr
    · rw [hp] at hwr
      simp only [Prod.mk.injEq] at hwr
      obtain ⟨_, _, rfl⟩ := hwr
      rcases hopen with ⟨hsome, _⟩ | ⟨_, _, ho⟩
      · rw [hf3] at hsome
        cases hsome
      · rcases osOpenFile_cases w3.filename fs3 with ⟨e', he'⟩ | ⟨nodes, ho', _, _⟩
        · rw [he'] at ho
          cases ho
        · rw [ho'] at ho
          simp only [Prod.mk.injEq] at ho
          obtain ⟨_, rfl⟩ := ho
          refine ⟨pevs ++ [⟨.openFile w3.filename, 0, none⟩, ⟨.write hd [], k, e⟩], ?_, ?_⟩
          · rw [hfs3]
            simp [FS.logAll, FS.append, FS.setNodes, FS.setOpened]
          · intro ev hev
            rcases List.mem_append.mp hev with hev | hev
            · rw [p3 ev hev]; simp
            · simp only [List.mem_cons, List.mem_singleton, List.not_mem_nil, or_false] at hev
              rcases hev with rfl | rfl <;> simp [Op.kind]

/-! ## Properties of the specification: the constructor -/

/-- C13, the failing instances. In the directory `exCrowded`, which holds
the rotated files of one second up to the suffix 9, a rotation gives the
target the suffix 10: that file is the newest of the eleven. A constructor
call with retention 9 and without truncation over the resulting directory
lists the siblings by name, with `.10` between `.1` and `.2`, deletes the
first three (no suffix, `.1`, `.10`) and keeps the suffixes 2 to 9: the
newest sibling is deleted and older ones are kept.
And a constructor call with truncation over the directory `exRelisted`, where
the target is a file holding `"old"`, in which the `os.Stat` of the target
fails (permission denied): the call succeeds, the target is not renamed and
still holds `"old"`. -/
theorem NewRotateWriter_prunes_newest_sibling :
    (RotateWriter.rotate
        ⟨exTarget, -1, 1, 1, true, none,
          [exRotated, withSuffix exRotated 1, withSuffix exRotated 2, withSuffix exRotated 3,
            withSuffix exRotated 4, withSuffix exRotated 5, withSuffix exRotated 6,
            withSuffix exRotated 7, withSuffix exRotated 8, withSuffix exRotated 9]⟩
        exCrowded).map (fun x => (x.1, x.2.1.history, x.2.2.nodes)) =
      some (none,
        [exRotated, withSuffix exRotated 1, withSuffix exRotated 2, withSuffix exRotated 3,
          withSuffix exRotated 4, withSuffix exRotated 5, withSuffix exRotated 6,
          withSuffix exRotated 7, withSuffix exRotated 8, withSuffix exRotated 9,
          withSuffix exRotated 10],
        exEleven.nodes) ∧
    (NewRotateWriter exTarget 9 1 "bytes".toList false exEleven).map
        (fun x => (x.1, x.2.nodes.map Prod.fst)) =
      some (.ok ⟨exTarget, 9, 1, 0, true, some exTarget,
          [withSuffix exRotated 2, withSuffix exRotated 3, withSuffix exRotated 4,
            withSuffix exRotated 5, withSuffix exRotated 6, withSuffix exRotated 7,
            withSuffix exRotated 8, withSuffix exRotated 9]⟩,
        [withSuffix exRotated 2, withSuffix exRotated 3, withSuffix exRotated 4,
          withSuffix exRotated 5, withSuffix exRotated 6, withSuffix exRotated 7,
          withSuffix exRotated 8, withSuffix exRotated 9, exTarget]) ∧
    exEleven.find (withSuffix exRotated 10) ≠ none ∧
    withSuffix exRotated 10 ∉
      [withSuffix exRotated 2, withSuffix exRotated 3, withSuffix exRotated 4,
        withSuffix exRotated 5, withSuffix exRotated 6, withSuffix exRotated 7,
        withSuffix exRotated 8, withSuffix exRotated 9] ∧
    min 11 (max ((9 : Int) - 1) 0).toNat = 8 ∧
    exRelisted.find exTarget = some (.file "old".toList) ∧
    (NewRotateWriter exTarget 2 12 "bytes".toList true
        ⟨exRelisted.dirs, exRelisted.nodes, [], exClock, [(1, exDenied)], []⟩).map
        (fun x => (x.1, x.2.nodes)) =
      some (.ok ⟨exTarget, 2, 12, 0, true, some exTarget,
          [⟨"tmp".toList, "filename.20130915T101501.log".toList⟩]⟩,
        [(⟨"tmp".toList, "filename.20130915T101501.log".toList⟩, .file []),
          (exTarget, .file "old".toList)]) := by
  refine ⟨by decide, by decide, by decide, by decide, by decide, by decide, by decide⟩

/-- C13, amended. A constructor call that succeeds, with a retention `m ≥ 0`.
`discovered` is the history that `populate` builds: the rotated siblings in
the order of their names; the target is not in it and all its paths exist.
The final history is the end of a list whose beginning, `removed`, is gone
from the disk. After the listing of the directory the call makes an `os.Stat`
of the target, and, when the truncate flag is set and that call finds the
target, a second one, within `rotate`.
If the flag is set and both calls find the target, which is then a file of
some content `c`: the list is `discovered ++ [new]`, where `new` is a name
generated for the target at the time of the call; the history has
`min(k + 1, max(m - 1, 0))` paths; `new` holds `c` unless it was removed; the
target is an empty file when `m ≠ 0` and does not exist when `m = 0`.
Otherwise (the flag is not set, or one of the calls does not find the target,
because it does not exist or because the call fails): the list is
`discovered`; the history has `min(k, max(m - 1, 0))` paths; a target that
was a file keeps its content; a target that did not exist is an empty file
when `m ≠ 0` and does not exist when `m = 0`.
In both cases every other path is as before. A target that does not exist is
never found; in a system without injected failures a target that is a file is
found by both calls, and `new` is free before the call. -/
theorem NewRotateWriter_rotates_then_prunes (target : Path) (m maxSize : Int)
    (sizeUnit : Bytes) (truncate : Bool) (fs fs' : FS) (w : RotateWriter) (hm : 0 ≤ m)
    (h : NewRotateWriter target m maxSize sizeUnit truncate fs = some (.ok w, fs')) :
    ∃ (discovered removed : List Path) (e1 : Option Err) (rest1 : List Event),
      (RotateWriter.populate
          ⟨target, m, computeMaxSize maxSize sizeUnit, 0,
            decide (sizeUnit = "bytes".toList ∨ sizeUnit = "kbytes".toList ∨
              sizeUnit = "mbytes".toList), none, []⟩ fs).1 =
        .ok ⟨target, m, computeMaxSize maxSize sizeUnit, 0,
          decide (sizeUnit = "bytes".toList ∨ sizeUnit = "kbytes".toList ∨
            sizeUnit = "mbytes".toList), none, discovered⟩ ∧
      target ∉ discovered ∧ (∀ p ∈ discovered, fs.find p ≠ none) ∧
      (discovered.map (fun p => p.base)).Pairwise (fun a b => a ≤ b) ∧
      (∀ p ∈ removed, fs'.find p = none) ∧
      fs'.trace =
        fs.trace ++ [⟨.readDir target.dir, 0, none⟩, ⟨.stat target, 0, e1⟩] ++ rest1 ∧
      (fs.find target = none → e1 ≠ none) ∧
      (fs.faults = [] → truncate = true → (∃ c, fs.find target = some (.file c)) →
        e1 = none ∧ ∃ rest2, rest1 = ⟨.stat target, 0, none⟩ :: rest2) ∧
      ((truncate = true ∧ e1 = none ∧ ∃ rest2, rest1 = ⟨.stat target, 0, none⟩ :: rest2) →
        ∃ c new, fs.find target = some (.file c) ∧
          IsGeneratedName target fs.now new ∧ (fs.faults = [] → fs.find new = none) ∧
          discovered ++ [new] = removed ++ w.history ∧
          w.history.length = min (discovered.length + 1) (max (m - 1) 0).toNat ∧
          fs'.find target = (if m = 0 then none else some (.file [])) ∧
          (new ∉ removed → fs'.find new = some (.file c)) ∧
          (∀ p, p ≠ target → p ≠ new → p ∉ removed → fs'.find p = fs.find p)) ∧
      (¬ (truncate = true ∧ e1 = none ∧ ∃ rest2, rest1 = ⟨.stat target, 0, none⟩ :: rest2) →
        discovered = removed ++ w.history ∧
        w.history.length = min discovered.length (max (m - 1) 0).toNat ∧
        (∀ c, fs.find target = some (.file c) → fs'.find target = some (.file c)) ∧
        (fs.find target = none → fs'.find target = (if m = 0 then none else some (.file []))) ∧
        (∀ p, p ≠ target → p ∉ removed → fs'.find p = fs.find p)) := by
  obtain ⟨wp, fsp, r, fss, w2, fs2, w3, fs3, n, hpop, hst, hmid, hpr, hwr⟩ :=
    NewRotateWriter_steps target m maxSize sizeUnit truncate fs fs' w h
  obtain ⟨hfsp, discovered, hwp, hnot, hexist⟩ := populate_ok _ _ _ _ hpop
  obtain ⟨added, hadd, _, hsorted⟩ := populate_history_sorted _ _ _ _ hpop
  simp only [List.nil_append] at hwp hadd
  subst hwp
  subst hfsp
  simp only at hadd
  subst hadd
  simp only at hst hmid hnot
  -- the writer that `prune` and the last `Write` start from, when nothing was renamed
  have tailB : ∀ (w2 : RotateWriter) (fs2 : FS),
      w2.prune fs2 = (none, w3, fs3) →
      w2.filename = target → w2.maxFiles = m → w2.file = none → w2.history = discovered →
      (∀ p, fs2.find p = fs.find p) →
      ∃ removed, (∀ p ∈ removed, fs'.find p = none) ∧
        discovered = removed ++ w.history ∧
        w.history.length = min discovered.length (max (m - 1) 0).toNat ∧
        (∀ c, fs.find target = some (.file c) → fs'.find target = some (.file c)) ∧
        (fs.find target = none → fs'.find target = (if m = 0 then none else some (.file []))) ∧
        (∀ p, p ≠ target → p ∉ removed → fs'.find p = fs.find p) := by
    intro w2 fs2 hpr hn hmx hfl hh hfind
    obtain ⟨removed, t1, t2, t3, t4, t5, t6⟩ :=
      prune_then_open w2 w3 w fs2 fs3 fs' n (by rw [hmx]; exact hm) hfl
        (by rw [hn, hh]; exact hnot) hpr hwr
    rw [hn] at t4 t5 t6
    rw [hh] at t1 t2
    rw [hmx] at t2 t5 t6
    simp only [hfind] at t4 t5 t6
    refine ⟨removed, t3, t1, t2, fun c hc => ?_, fun hnone => ?_, t4⟩
    · by_cases h0 : m = 0
      · rw [t5 h0]
        exact hc
      · obtain ⟨c0, hc0, hfin⟩ := t6 h0
        rcases hc0 with hc0 | ⟨hc0, _⟩
        · rw [hc] at hc0
          cases hc0
          exact hfin
        · rw [hc] at hc0
          cases hc0
    · by_cases h0 : m = 0
      · rw [if_pos h0, t5 h0]
        exact hnone
      · rw [if_neg h0]
        obtain ⟨c0, hc0, hfin⟩ := t6 h0
        rcases hc0 with hc0 | ⟨_, rfl⟩
        · rw [hnone] at hc0
          cases hc0
        · exact hfin
  rcases osStat_full target (fs.logAll [⟨.readDir target.dir, 0, none⟩]) with
    ⟨err, hs1, hnf⟩ | ⟨info, nd, hs1, hnd⟩
  · -- the first `os.Stat` does not find the target
    rw [hs1] at hst
    simp only [Prod.mk.injEq] at hst
    obtain ⟨rfl, rfl⟩ := hst
    rcases hmid with ⟨e, _, rfl, rfl⟩ | ⟨info, hi, _⟩ | ⟨info, hi, _⟩
    · obtain ⟨evs, htr, _⟩ := constructor_tail _ w3 w _ fs3 fs' n rfl hpr hwr
      obtain ⟨removed, b1, b2, b3, b4, b5, b6⟩ :=
        tailB _ _ hpr rfl rfl rfl rfl (fun p => rfl)
      refine ⟨discovered, removed, some err, evs, by rw [hpop], hnot, hexist, hsorted, b1, ?_,
        fun _ => (by simp), ?_, ?_, fun _ => ⟨b2, b3, b4, b5, b6⟩⟩
      · rw [htr]
        simp [FS.logAll]
      · rintro hf _ ⟨c, hc⟩
        have := hnf hf
        rw [FS.find_logAll, hc] at this
        cases this
      · rintro ⟨_, he, _⟩
        cases he
    · cases hi
    · cases hi
  · -- the first `os.Stat` finds the target
    rw [hs1] at hst
    simp only [Prod.mk.injEq] at hst
    obtain ⟨rfl, rfl⟩ := hst
    have hnd' : fs.find target = some nd := hnd
    rcases hmid with ⟨e, he, _⟩ | ⟨info', hi, hdir, rfl, rfl, rfl⟩ |
      ⟨info', hi, hdir, rfl, hrot⟩
    · cases he
    · -- no truncation
      obtain ⟨evs, htr, _⟩ := constructor_tail _ w3 w _ fs3 fs' n rfl hpr hwr
      obtain ⟨removed, b1, b2, b3, b4, b5, b6⟩ :=
        tailB _ _ hpr rfl rfl rfl rfl (fun p => rfl)
      refine ⟨discovered, removed, none, evs, by rw [hpop], hnot, hexist, hsorted, b1, ?_,
        fun hn => (by rw [hn] at hnd'; cases hnd'), ?_, ?_, fun _ => ⟨b2, b3, b4, b5, b6⟩⟩
      · rw [htr]
        simp [FS.logAll]
      · intro _ ht
        cases ht
      · rintro ⟨ht, _⟩
        cases ht
    · -- truncation: `rotate` runs
      cases hi
      obtain ⟨c, hc, _⟩ := osStat_size _ _ _ _ hs1 hdir
      have hc' : fs.find target = some (.file c) := hc
      obtain ⟨e2, rest, g1, g2, g3, g4, g5⟩ := rotate_general _ w2 _ fs2 rfl hrot
      simp only at g1 g2 g3 g4 g5
      have hf2 : w2.file = none := (rotate_result _ _ _ _ _ hrot).2.1
      obtain ⟨evs, htr, hns⟩ := constructor_tail w2 w3 w fs2 fs3 fs' n hf2 hpr hwr
      have htrace : fs'.trace = fs.trace ++
          [⟨.readDir target.dir, 0, none⟩, ⟨.stat target, 0, none⟩] ++
          (⟨.stat target, 0, e2⟩ :: (rest ++ evs)) := by
        rw [htr, g1]
        simp [FS.logAll]
      cases he2 : e2 with
      | some err2 =>
        obtain ⟨k1, k2, _⟩ := g4 (by rw [he2]; simp)
        have hfind2 : ∀ p, fs2.find p = fs.find p := by
          intro p
          unfold FS.find
          rw [k2]
          rfl
        obtain ⟨removed, b1, b2, b3, b4, b5, b6⟩ :=
          tailB w2 fs2 hpr (by rw [k1]) (by rw [k1]) hf2 (by rw [k1]) hfind2
        refine ⟨discovered, removed, none, ⟨.stat target, 0, e2⟩ :: (rest ++ evs), by rw [hpop],
          hnot, hexist, hsorted, b1, htrace, fun hn => (by rw [hn] at hnd'; cases hnd'), ?_, ?_,
          fun _ => ⟨b2, b3, b4, b5, b6⟩⟩
        · intro hf _ _
          have := g3 hf (by rw [FS.find_logAll, FS.find_logAll, hc']; simp)
          rw [he2] at this
          cases this
        · rintro ⟨_, _, rest2, hr2⟩
          rw [he2] at hr2
          simp at hr2
      | none =>
        obtain ⟨nd2, new, stats, k1, k2, k3, k4, k5, k6, k7, k8, k9⟩ := g5 he2
        have k1' : fs.find target = some nd2 := k1
        rw [hc'] at k1'
        cases k1'
        have hgen : IsGeneratedName target fs.now new := k2
        have hne : new ≠ target := generated_ne_target _ _ _ hgen
        have hnot' : target ∉ discovered ++ [new] := by
          intro hmem
          rcases List.mem_append.mp hmem with hmem | hmem
          · exact hnot hmem
          · exact hne (List.mem_singleton.mp hmem).symm
        obtain ⟨removed, t1, t2, t3, t4, t5, t6⟩ :=
          prune_then_open w2 w3 w fs2 fs3 fs' n (by rw [k3]; exact hm) hf2
            (by rw [k3]; exact hnot') hpr hwr
        rw [k3] at t1 t2 t4 t5 t6
        simp only at t1 t2 t4 t5 t6
        refine ⟨discovered, removed, none, ⟨.stat target, 0, e2⟩ :: (rest ++ evs), by rw [hpop],
          hnot, hexist, hsorted, t3, htrace, fun hn => (by rw [hn] at hnd'; cases hnd'), ?_, ?_, ?_⟩
        · intro _ _ _
          exact ⟨rfl, rest ++ evs, by rw [he2]⟩
        · intro _
          refine ⟨c, new, hc', hgen, fun hf => k9 hf, t1, ?_, ?_, ?_, ?_⟩
          · rw [t2]
            simp
          · by_cases h0 : m = 0
            · rw [if_pos h0, t5 h0]
              exact k7
            · rw [if_neg h0]
              obtain ⟨c0, hc0, hfin⟩ := t6 h0
              rcases hc0 with hc0 | ⟨_, rfl⟩
              · rw [k7] at hc0
                cases hc0
              · exact hfin
          · intro hnr
            rw [t4 new hne hnr]
            exact k6
          · intro p h1 h2 h3
            rw [t4 p h1 h3]
            exact k8 p h1 h2
        · intro hneg
          exact absurd ⟨rfl, rfl, rest ++ evs, by rw [he2]⟩ hneg

theorem NewRotateWriter_rotates_then_prunes_witness :
    (0 : Int) ≤ 2 ∧
    NewRotateWriter exTarget 2 12 "bytes".toList true exRelisted =
      some (.ok ⟨exTarget, 2, 12, 0, true, some exTarget, [exRotated]⟩, exRelistedAfter) ∧
    ∃ (discovered removed : List Path) (e1 : Option Err) (rest1 : List Event),
      (RotateWriter.populate
          ⟨exTarget, (2 : Int), computeMaxSize 12 "bytes".toList, 0,
            decide ("bytes".toList = "bytes".toList ∨ "bytes".toList = "kbytes".toList ∨
              "bytes".toList = "mbytes".toList), none, []⟩ exRelisted).1 =
        .ok ⟨exTarget, (2 : Int), computeMaxSize 12 "bytes".toList, 0,
          decide ("bytes".toList = "bytes".toList ∨ "bytes".toList = "kbytes".toList ∨
            "bytes".toList = "mbytes".toList), none, discovered⟩ ∧
      exTarget ∉ discovered ∧ (∀ p ∈ discovered, exRelisted.find p ≠ none) ∧
      (discovered.map (fun p => p.base)).Pairwise (fun a b => a ≤ b) ∧
      (∀ p ∈ removed, exRelistedAfter.find p = none) ∧
      exRelistedAfter.trace =
        exRelisted.trace ++ [⟨.readDir exTarget.dir, 0, none⟩, ⟨.stat exTarget, 0, e1⟩] ++ rest1 ∧
      (exRelisted.find exTarget = none → e1 ≠ none) ∧
      (exRelisted.faults = [] → true = true → (∃ c, exRelisted.find exTarget = some (.file c)) →
        e1 = none ∧ ∃ rest2, rest1 = ⟨.stat exTarget, 0, none⟩ :: rest2) ∧
      ((true = true ∧ e1 = none ∧ ∃ rest2, rest1 = ⟨.stat exTarget, 0, none⟩ :: rest2) →
        ∃ c new, exRelisted.find exTarget = some (.file c) ∧
          IsGeneratedName exTarget exRelisted.now new ∧ (exRelisted.faults = [] → exRelisted.find new = none) ∧
          discovered ++ [new] = removed ++ (⟨exTarget, 2, 12, 0, true, some exTarget, [exRotated]⟩ : RotateWriter).history ∧
          (⟨exTarget, 2, 12, 0, true, some exTarget, [exRotated]⟩ : RotateWriter).history.length = min (discovered.length + 1) (max ((2 : Int) - 1) 0).toNat ∧
          exRelistedAfter.find exTarget = (if (2 : Int) = 0 then none else some (.file [])) ∧
          (new ∉ removed → exRelistedAfter.find new = some (.file c)) ∧
          (∀ p, p ≠ exTarget → p ≠ new → p ∉ removed → exRelistedAfter.find p = exRelisted.find p)) ∧
      (¬ (true = true ∧ e1 = none ∧ ∃ rest2, rest1 = ⟨.stat exTarget, 0, none⟩ :: rest2) →
        discovered = removed ++ (⟨exTarget, 2, 12, 0, true, some exTarget, [exRotated]⟩ : RotateWriter).history ∧
        (⟨exTarget, 2, 12, 0, true, some exTarget, [exRotated]⟩ : RotateWriter).history.length = min discovered.length (max ((2 : Int) - 1) 0).toNat ∧
        (∀ c, exRelisted.find exTarget = some (.file c) → exRelistedAfter.find exTarget = some (.file c)) ∧
        (exRelisted.find exTarget = none → exRelistedAfter.find exTarget = (if (2 : Int) = 0 then none else some (.file []))) ∧
        (∀ p, p ≠ exTarget → p ∉ removed → exRelistedAfter.find p = exRelisted.find p)) :=
  ⟨by decide, by decide,
    NewRotateWriter_rotates_then_prunes exTarget 2 12 "bytes".toList true exRelisted
      exRelistedAfter ⟨exTarget, 2, 12, 0, true, some exTarget, [exRotated]⟩ (by decide)
      (by decide)⟩

/-! ## Properties of the specification: threshold and initial size -/

/-- C22, the failing instance. A threshold of `2^53` kilobytes, an `int64`
value: the product `2^53 * 1024 = 2^63` does not fit `int64`, and
`computeMaxSize` returns `-2^63`. The same happens with `2^43` megabytes. -/
theorem computeMaxSize_wraps :
    computeMaxSize (2 ^ 53) "kbytes".toList = -(2 ^ 63) ∧
    computeMaxSize (2 ^ 53) "kbytes".toList ≠ 2 ^ 53 * 1024 ∧
    computeMaxSize (2 ^ 43) "mbytes".toList = -(2 ^ 63) ∧
    computeMaxSize (2 ^ 43) "mbytes".toList ≠ 2 ^ 43 * 1048576 ∧
    (-(2 ^ 63) ≤ (2 ^ 53 : Int) ∧ (2 ^ 53 : Int) < 2 ^ 63) := by
  refine ⟨by decide, by decide, by decide, by decide, by decide, by decide⟩

/-- C22, amended. The threshold is `m` for the units `bytes` and `lines`;
it is `m * 1024` for `kbytes` when `-2^53 ≤ m < 2^53` and `m * 1048576` for
`mbytes` when `-2^43 ≤ m < 2^43`; for every `m` the result for these two
units is the product reduced modulo `2^64` to the range of `int64`. Every
writer that the constructor returns has this threshold, and counts in bytes
exactly when the unit is `bytes`, `kbytes` or `mbytes`. -/
theorem computeMaxSize_normalizes :
    (∀ m : Int, computeMaxSize m "bytes".toList = m ∧ computeMaxSize m "lines".toList = m) ∧
    (∀ m : Int, -(2 ^ 53) ≤ m → m < 2 ^ 53 → computeMaxSize m "kbytes".toList = m * 1024) ∧
    (∀ m : Int, -(2 ^ 43) ≤ m → m < 2 ^ 43 → computeMaxSize m "mbytes".toList = m * 1048576) ∧
    (∀ m : Int, ∃ k : Int,
      computeMaxSize m "kbytes".toList = m * 1024 + k * 2 ^ 64 ∧
      -(2 ^ 63) ≤ computeMaxSize m "kbytes".toList ∧ computeMaxSize m "kbytes".toList < 2 ^ 63) ∧
    (∀ m : Int, ∃ k : Int,
      computeMaxSize m "mbytes".toList = m * 1048576 + k * 2 ^ 64 ∧
      -(2 ^ 63) ≤ computeMaxSize m "mbytes".toList ∧ computeMaxSize m "mbytes".toList < 2 ^ 63) ∧
    (∀ (target : Path) (maxFiles m : Int) (sizeUnit : Bytes) (truncate : Bool) (fs fs' : FS)
        (w : RotateWriter),
      NewRotateWriter target maxFiles m sizeUnit truncate fs = some (.ok w, fs') →
      w.maxSize = computeMaxSize m sizeUnit ∧
      (w.inBytes = true ↔
        sizeUnit = "bytes".toList ∨ sizeUnit = "kbytes".toList ∨ sizeUnit = "mbytes".toList)) := by
  have hk : ∀ m : Int, computeMaxSize m "kbytes".toList = wrapInt64 (m * 1024) := by
    intro m
    unfold computeMaxSize
    rw [if_pos rfl]
  have hmb : ∀ m : Int, computeMaxSize m "mbytes".toList = wrapInt64 (m * 1048576) := by
    intro m
    unfold computeMaxSize
    rw [if_neg (by decide), if_pos rfl]
  have hwrap : ∀ x : Int, ∃ k : Int, wrapInt64 x = x + k * 2 ^ 64 ∧
      -(2 ^ 63) ≤ wrapInt64 x ∧ wrapInt64 x < 2 ^ 63 := by
    intro x
    unfold wrapInt64
    refine ⟨-((x + 2 ^ 63) / 2 ^ 64), ?_, ?_, ?_⟩
    · have := Int.emod_add_ediv (x + 2 ^ 63) (2 ^ 64)
      linarith
    · have := Int.emod_nonneg (x + 2 ^ 63) (show (2 ^ 64 : Int) ≠ 0 by norm_num)
      linarith
    · have := Int.emod_lt_of_pos (x + 2 ^ 63) (show (0 : Int) < 2 ^ 64 by norm_num)
      linarith
  have hsmall : ∀ x : Int, -(2 ^ 63) ≤ x → x < 2 ^ 63 → wrapInt64 x = x := by
    intro x h1 h2
    unfold wrapInt64
    rw [Int.emod_eq_of_lt (by linarith) (by linarith)]
    ring
  refine ⟨?_, ?_, ?_, ?_, ?_, ?_⟩
  · intro m
    constructor
    · unfold computeMaxSize
      rw [if_neg (by decide), if_neg (by decide)]
    · unfold computeMaxSize
      rw [if_neg (by decide), if_neg (by decide)]
  · intro m h1 h2
    rw [hk, hsmall _ (by linarith) (by linarith)]
  · intro m h1 h2
    rw [hmb, hsmall _ (by linarith) (by linarith)]
  · intro m
    rw [hk]
    exact hwrap _
  · intro m
    rw [hmb]
    exact hwrap _
  · intro target maxFiles m sizeUnit truncate fs fs' w h
    obtain ⟨hc, _⟩ := NewRotateWriter_result target maxFiles m sizeUnit truncate fs fs' w h
    simp only [RotateWriter.config, Prod.mk.injEq] at hc
    obtain ⟨_, _, h3, h4⟩ := hc
    refine ⟨h3, ?_⟩
    rw [h4]
    simp

theorem computeMaxSize_normalizes_witness :
    ((-(2 ^ 53) ≤ (5 : Int) ∧ (5 : Int) < 2 ^ 53) ∧
      computeMaxSize 5 "kbytes".toList = 5 * 1024) ∧
    ((-(2 ^ 43) ≤ (5 : Int) ∧ (5 : Int) < 2 ^ 43) ∧
      computeMaxSize 5 "mbytes".toList = 5 * 1048576) ∧
    (NewRotateWriter exTarget 2 12 "kbytes".toList true ⟨["tmp".toList], [], [], exClock, [], []⟩ =
        some (.ok ⟨exTarget, 2, 12288, 0, true, some exTarget, []⟩,
          ⟨["tmp".toList], [(exTarget, .file [])], [exTarget], exClock, [],
            [⟨.readDir "tmp".toList, 0, none⟩, ⟨.stat exTarget, 0, some ErrNotExist⟩,
              ⟨.openFile exTarget, 0, none⟩, ⟨.write exTarget [], 0, none⟩]⟩) ∧
      (⟨exTarget, 2, 12288, 0, true, some exTarget, []⟩ : RotateWriter).maxSize =
        computeMaxSize 12 "kbytes".toList ∧
      ((⟨exTarget, 2, 12288, 0, true, some exTarget, []⟩ : RotateWriter).inBytes = true ↔
        "kbytes".toList = "bytes".toList ∨ "kbytes".toList = "kbytes".toList ∨
          "kbytes".toList = "mbytes".toList)) :=
  ⟨⟨⟨by decide, by decide⟩, computeMaxSize_normalizes.2.1 5 (by decide) (by decide)⟩,
    ⟨⟨by decide, by decide⟩, computeMaxSize_normalizes.2.2.1 5 (by decide) (by decide)⟩,
    ⟨by decide,
      computeMaxSize_normalizes.2.2.2.2.2 exTarget 2 12 "kbytes".toList true
        ⟨["tmp".toList], [], [], exClock, [], []⟩
        ⟨["tmp".toList], [(exTarget, .file [])], [exTarget], exClock, [],
          [⟨.readDir "tmp".toList, 0, none⟩, ⟨.stat exTarget, 0, some ErrNotExist⟩,
            ⟨.openFile exTarget, 0, none⟩, ⟨.write exTarget [], 0, none⟩]⟩
        ⟨exTarget, 2, 12288, 0, true, some exTarget, []⟩ (by decide)⟩⟩

/-- C23. `computeSize` on a file of `B` bytes is `B` in byte mode and the
quotient `B / 200`, rounded down, in line mode. In a system without injected
failures, a constructor call that succeeds over a target that is a file of
`B` bytes, `B` an `int64` as `info.Size()` is: without truncation the writer returned has that size, and the
system calls start with the listing of the directory and one `os.Stat` of the
target, the call that gives `B`; with truncation the rotation that follows
resets the size, and the writer returned has size 0. -/
theorem NewRotateWriter_initial_size :
    (∀ (w : RotateWriter) (B : Nat), w.inBytes = true → w.computeSize ⟨false, B⟩ = (B : Int)) ∧
    (∀ (w : RotateWriter) (B : Nat), w.inBytes = false →
      w.computeSize ⟨false, B⟩ = ((B / 200 : Nat) : Int)) ∧
    (∀ (target : Path) (m maxSize : Int) (sizeUnit : Bytes) (truncate : Bool) (fs fs' : FS)
        (w : RotateWriter) (c : Bytes),
      fs.faults = [] → fs.find target = some (.file c) → (c.length : Int) < 2 ^ 63 →
      NewRotateWriter target m maxSize sizeUnit truncate fs = some (.ok w, fs') →
      (truncate = false →
        w.size = (if w.inBytes then (c.length : Int) else ((c.length / 200 : Nat) : Int)) ∧
        ∃ rest, fs'.trace =
          fs.trace ++ [⟨.readDir target.dir, 0, none⟩, ⟨.stat target, 0, none⟩] ++ rest) ∧
      (truncate = true → w.size = 0)) := by
  have hb : ∀ (w : RotateWriter) (B : Nat), w.inBytes = true →
      w.computeSize ⟨false, B⟩ = (B : Int) := by
    intro w B h
    simp [RotateWriter.computeSize, h]
  have hl : ∀ (w : RotateWriter) (B : Nat), w.inBytes = false →
      w.computeSize ⟨false, B⟩ = ((B / 200 : Nat) : Int) := by
    intro w B h
    simp [RotateWriter.computeSize, h]
  refine ⟨hb, hl, ?_⟩
  intro target m maxSize sizeUnit truncate fs fs' w c hf hfind hB h
  obtain ⟨hcfg, _⟩ := NewRotateWriter_result target m maxSize sizeUnit truncate fs fs' w h
  obtain ⟨wp, fsp, r, fss, w2, fs2, w3, fs3, n, hpop, hst, hmid, hpr, hwr⟩ :=
    NewRotateWriter_steps target m maxSize sizeUnit truncate fs fs' w h
  obtain ⟨hfsp, added, hwp, _, _⟩ := populate_ok _ _ _ _ hpop
  have hname : wp.filename = target := by rw [hwp]
  have hwpfile : wp.file = none := by rw [hwp]
  have hin : w.inBytes = wp.inBytes := by
    have h1 : w.config.2.2.2 = w.inBytes := rfl
    rw [← h1, hcfg, hwp]
  subst hfsp
  have hstat := (osStat_noFault target (fs.logAll [⟨.readDir target.dir, 0, none⟩]) hf).2.1 c hfind
  rw [hname, hstat] at hst
  simp only [Prod.mk.injEq] at hst
  obtain ⟨rfl, rfl⟩ := hst
  obtain ⟨p1, p2, p3⟩ := prune_result w2 fs2
  obtain ⟨_, removed, kept, pevs, p4, _⟩ := prune_cases w2 fs2
  rw [hpr] at p1 p2 p3 p4
  simp only [Prod.mk.injEq] at p1 p2 p3 p4
  constructor
  · intro ht
    rcases hmid with ⟨e, he, _, _⟩ | ⟨info, hi, _, _, rfl, rfl⟩ | ⟨info, _, _, ht', _⟩
    · cases he
    · cases hi
      obtain ⟨q1, evs, q2⟩ := Write_nil_size w3 w fs3 fs' _ (by rw [p2]; exact hwpfile) hwr
      have hc1 := computeSize_nonneg wp ⟨false, c.length⟩
      have hc2 := computeSize_le wp ⟨false, c.length⟩
      simp only at hc2
      refine ⟨?_, pevs ++ evs, ?_⟩
      · rw [q1 (by rw [p3]; simp only; omega) (by rw [p3]; simp only; omega), p3, hin]
        cases hbytes : wp.inBytes
        · simp [hl wp c.length hbytes]
        · simp [hb wp c.length hbytes]
      · rw [q2, p4.2.2]
        simp [FS.logAll, FS.setNodes]
    · rw [ht] at ht'
      cases ht'
  · intro ht
    rcases hmid with ⟨e, he, _, _⟩ | ⟨info, _, _, ht', _, _⟩ | ⟨info, _, _, _, hrot⟩
    · cases he
    · rw [ht] at ht'
      cases ht'
    · obtain ⟨_, r2, _, r4⟩ := rotate_result _ _ _ _ _ hrot
      obtain ⟨q1, _, _⟩ := Write_nil_size w3 w fs3 fs' _ (by rw [p2]; exact r2) hwr
      rw [q1 (by rw [p3, r4 rfl]; omega) (by rw [p3, r4 rfl]; omega), p3, r4 rfl]

theorem NewRotateWriter_initial_size_witness :
    (((⟨exTarget, 5, 3, 0, false, none, []⟩ : RotateWriter).inBytes = false) ∧
      RotateWriter.computeSize ⟨exTarget, 5, 3, 0, false, none, []⟩ ⟨false, 450⟩ =
        ((450 / 200 : Nat) : Int)) ∧
    ((exLong.faults = [] ∧ exLong.find exTarget = some (.file (List.replicate 450 'x')) ∧
        (((List.replicate 450 'x').length : Nat) : Int) < 2 ^ 63 ∧
        NewRotateWriter exTarget 5 3 "lines".toList false exLong =
          some (.ok ⟨exTarget, 5, 3, 2, false, some exTarget, []⟩,
            ⟨["tmp".toList], [(exTarget, .file (List.replicate 450 'x'))], [exTarget], exClock, [],
              [⟨.readDir "tmp".toList, 0, none⟩, ⟨.stat exTarget, 0, none⟩,
                ⟨.openFile exTarget, 0, none⟩, ⟨.write exTarget [], 0, none⟩]⟩)) ∧
      ((false = false →
        (⟨exTarget, 5, 3, 2, false, some exTarget, []⟩ : RotateWriter).size =
          (if (⟨exTarget, 5, 3, 2, false, some exTarget, []⟩ : RotateWriter).inBytes then
            (((List.replicate 450 'x').length : Nat) : Int)
          else (((List.replicate 450 'x').length / 200 : Nat) : Int)) ∧
        ∃ rest,
          (⟨["tmp".toList], [(exTarget, .file (List.replicate 450 'x'))], [exTarget], exClock, [],
              [⟨.readDir "tmp".toList, 0, none⟩, ⟨.stat exTarget, 0, none⟩,
                ⟨.openFile exTarget, 0, none⟩, ⟨.write exTarget [], 0, none⟩]⟩ : FS).trace =
            exLong.trace ++ [⟨.readDir exTarget.dir, 0, none⟩, ⟨.stat exTarget, 0, none⟩] ++ rest) ∧
      (false = true →
        (⟨exTarget, 5, 3, 2, false, some exTarget, []⟩ : RotateWriter).size = 0))) :=
  ⟨⟨rfl, NewRotateWriter_initial_size.2.1 ⟨exTarget, 5, 3, 0, false, none, []⟩ 450 rfl⟩,
    ⟨⟨rfl, by decide, by decide, by decide⟩,
      NewRotateWriter_initial_size.2.2 exTarget 5 3 "lines".toList false exLong
        ⟨["tmp".toList], [(exTarget, .file (List.replicate 450 'x'))], [exTarget], exClock, [],
          [⟨.readDir "tmp".toList, 0, none⟩, ⟨.stat exTarget, 0, none⟩,
            ⟨.openFile exTarget, 0, none⟩, ⟨.write exTarget [], 0, none⟩]⟩
        ⟨exTarget, 5, 3, 2, false, some exTarget, []⟩ (List.replicate 450 'x') rfl (by decide)
        (by decide) (by decide)⟩⟩

/-! ## The name of a rotated file -/

theorem appendSuffixLoop_least (filename : Path) : ∀ (fuel suffix : Nat) (fs : FS) (dst : Path)
    (fs1 : FS), appendSuffixLoop filename fuel suffix fs = some (dst, fs1) →
    ∃ n, suffix < n ∧ dst = withSuffix filename n ∧
      ∀ k, suffix < k → k < n → fs.find (withSuffix filename k) ≠ none := by
  intro fuel
  induction fuel with
  | zero => intro suffix fs dst fs1 h; simp [appendSuffixLoop] at h
  | succ fuel ih =>
    intro suffix fs dst fs1 h
    obtain ⟨r, e, hs, _, hok⟩ := osStat_cases (withSuffix filename (suffix + 1)) fs
    cases r with
    | error err =>
      simp only [appendSuffixLoop, hs, Option.some.injEq, Prod.mk.injEq] at h
      obtain ⟨rfl, _⟩ := h
      exact ⟨suffix + 1, by omega, rfl, fun k h1 h2 => by omega⟩
    | ok i =>
      simp only [appendSuffixLoop, hs] at h
      obtain ⟨n, h1, h2, h3⟩ := ih _ _ _ _ h
      refine ⟨n, by omega, h2, fun k hk1 hk2 => ?_⟩
      by_cases hk : k = suffix + 1
      · subst hk
        exact hok i rfl
      · have := h3 k (by omega) hk2
        rwa [FS.find_logAll] at this

/-! ## Properties of the specification: rotation, generated names, the size invariant -/

/-- C26. The call `appendSuffixToFile(src)` always returns, after calls of
`os.Stat` only. With `base` the path of `src` with `'.'` and the time in the
layout `20060102T150405` put before its extension, it returns `base`, or
`base + "." + n` with `n ≥ 1` where `base` and every `base + "." + k`,
`1 ≤ k < n`, exist. In a system without injected failures the returned name
does not exist, so that it is `base` when `base` does not exist and otherwise
the name of the least free `n`. The example clock is written
`20130916T115500`, and every clock reading with a year of at most four digits
is written as eight digits, `T` and six digits. -/
theorem appendSuffixToFile_least_free :
    (∀ (src : Path) (fs : FS),
      ∃ dst evs, appendSuffixToFile src fs = some (dst, fs.logAll evs) ∧
        (∀ ev ∈ evs, ev.op.kind = .stat) ∧
        (dst = rotatedName src fs.now ∨
          ∃ n, 1 ≤ n ∧ dst = withSuffix (rotatedName src fs.now) n ∧
            fs.find (rotatedName src fs.now) ≠ none ∧
            ∀ k, 1 ≤ k → k < n → fs.find (withSuffix (rotatedName src fs.now) k) ≠ none) ∧
        (fs.faults = [] → fs.find dst = none ∧
          (fs.find (rotatedName src fs.now) = none → dst = rotatedName src fs.now))) ∧
    (∀ (src : Path) (t : Time) (n : Nat),
      (rotatedName src t).dir = src.dir ∧
      (rotatedName src t).base =
        TrimSuffix src.base (filepathExt src.base) ++ ['.'] ++ t.formatCompact ++
          filepathExt src.base ∧
      TrimSuffix src.base (filepathExt src.base) ++ filepathExt src.base = src.base ∧
      withSuffix (rotatedName src t) n =
        ⟨src.dir, (rotatedName src t).base ++ ['.'] ++ Itoa n⟩) ∧
    exClock.formatCompact = "20130916T115500".toList ∧
    (∀ t : Time, t.valid →
      ∃ date time : Bytes, t.formatCompact = date ++ ['T'] ++ time ∧
        date.length = 8 ∧ (∀ c ∈ date, c ∈ decimalDigits) ∧
        time.length = 6 ∧ (∀ c ∈ time, c ∈ decimalDigits)) := by
  refine ⟨?_, ?_, by decide, formatCompact_digits⟩
  · intro src fs
    obtain ⟨dst, evs, h, hk, _, hfree⟩ := appendSuffixToFile_props src fs
    refine ⟨dst, evs, h, hk, ?_, fun hf => ⟨hfree hf, ?_⟩⟩
    · obtain ⟨r, e, hs, _, hok⟩ := osStat_cases (rotatedName src fs.now) fs
      cases r with
      | error err =>
        simp only [appendSuffixToFile, hs, Option.some.injEq, Prod.mk.injEq] at h
        exact Or.inl h.1.symm
      | ok i =>
        simp only [appendSuffixToFile, hs] at h
        obtain ⟨n, h1, h2, h3⟩ := appendSuffixLoop_least _ _ _ _ _ _ h
        refine Or.inr ⟨n, h1, h2, hok i rfl, fun k hk1 hk2 => ?_⟩
        have := h3 k (by omega) hk2
        rwa [FS.find_logAll] at this
    · intro hnone
      have hs := (osStat_noFault (rotatedName src fs.now) fs hf).1 hnone
      simp only [appendSuffixToFile, hs, Option.some.injEq, Prod.mk.injEq] at h
      exact h.1.symm
  · intro src t n
    exact ⟨rfl, rfl, TrimSuffix_append _ _ (filepathExt_suffix _), rfl⟩

theorem appendSuffixToFile_least_free_witness :
    (exCrowded.faults = [] ∧ Time.valid exClock) ∧
    (∃ dst evs, appendSuffixToFile exTarget exCrowded = some (dst, exCrowded.logAll evs) ∧
        (∀ ev ∈ evs, ev.op.kind = .stat) ∧
        (dst = rotatedName exTarget exCrowded.now ∨
          ∃ n, 1 ≤ n ∧ dst = withSuffix (rotatedName exTarget exCrowded.now) n ∧
            exCrowded.find (rotatedName exTarget exCrowded.now) ≠ none ∧
            ∀ k, 1 ≤ k → k < n →
              exCrowded.find (withSuffix (rotatedName exTarget exCrowded.now) k) ≠ none) ∧
        (exCrowded.faults = [] → exCrowded.find dst = none ∧
          (exCrowded.find (rotatedName exTarget exCrowded.now) = none →
            dst = rotatedName exTarget exCrowded.now))) ∧
    (appendSuffixToFile exTarget exCrowded).map Prod.fst = some (withSuffix exRotated 10) ∧
    (∃ date time : Bytes, exClock.formatCompact = date ++ ['T'] ++ time ∧
        date.length = 8 ∧ (∀ c ∈ date, c ∈ decimalDigits) ∧
        time.length = 6 ∧ (∀ c ∈ time, c ∈ decimalDigits)) :=
  ⟨⟨rfl, by decide⟩, appendSuffixToFile_least_free.1 exTarget exCrowded, by decide,
    appendSuffixToFile_least_free.2.2.2 exClock (by decide)⟩

theorem fileClose_ok (h : Path) (fs fs1 : FS) (hc : fileClose h fs = (none, fs1)) :
    fs1.nodes = fs.nodes ∧ fs1.faults = fs.faults ∧ fs1.now = fs.now ∧
    ∀ p, fs1.find p = fs.find p := by
  obtain ⟨e, opened, he⟩ := fileClose_cases h fs
  rw [he] at hc
  simp only [Prod.mk.injEq] at hc
  obtain ⟨_, rfl⟩ := hc
  exact ⟨rfl, rfl, rfl, fun _ => rfl⟩

theorem rotate_absent (w : RotateWriter) (fs : FS) (hfile : w.file = none)
    (hf : fs.faults = []) (hs : fs.find w.filename = none) :
    w.rotate fs =
      some (none, { w with size := 0 }, fs.logAll [⟨.stat w.filename, 0, some ErrNotExist⟩]) := by
  unfold RotateWriter.rotate
  simp only [hfile, (osStat_noFault w.filename fs hf).1 hs]

/-- C25, the failing instance. The target exists, but the call of `os.Stat`
fails (permission denied): `rotate` returns no error, the target is not
renamed and nothing is added to the history. -/
theorem RotateWriter.rotate_skips_on_failed_stat :
    RotateWriter.rotate ⟨exTarget, 2, 12, 12, true, none, []⟩
        ⟨["tmp".toList], [(exTarget, .file "some content".toList)], [], exClock,
          [(0, exDenied)], []⟩ =
      some (none, ⟨exTarget, 2, 12, 0, true, none, []⟩,
        ⟨["tmp".toList], [(exTarget, .file "some content".toList)], [], exClock,
          [(0, exDenied)], [⟨.stat exTarget, 0, some "permission denied".toList⟩]⟩) ∧
    FS.find ⟨["tmp".toList], [(exTarget, .file "some content".toList)], [], exClock,
        [(0, exDenied)], []⟩ exTarget = some (.file "some content".toList) ∧
    FS.find ⟨["tmp".toList], [(exTarget, .file "some content".toList)], [], exClock,
        [(0, exDenied)], [⟨.stat exTarget, 0, some "permission denied".toList⟩]⟩ exTarget =
      some (.file "some content".toList) ∧
    (⟨exTarget, 2, 12, 0, true, none, []⟩ : RotateWriter).history = [] := by
  refine ⟨by decide, by decide, by decide, rfl⟩

/-- C25, amended. Whenever `rotate` returns no error, the writer has no
handle and size 0, and the call has made one `os.Stat` of the target, after
the close of the handle if there was one. If that `os.Stat` found the target,
the target now bears a name generated for it at the time of the call, the
target path is gone, every other path is as before, and the history is the
former one with that name added at its end. If it did not, because the path
does not exist or because the call failed, the history and the directory
entries are as before. A path that does not exist is never found; in a system
without injected failures a path that exists is found, and the generated name
was free. -/
theorem RotateWriter.rotate_success (w w1 : RotateWriter) (fs fs1 : FS)
    (h : w.rotate fs = some (none, w1, fs1)) :
    w1.file = none ∧ w1.size = 0 ∧
    (fs.faults = [] →
      (∀ nd, fs.find w.filename = some nd →
        ∃ dst, IsGeneratedName w.filename fs.now dst ∧ fs.find dst = none ∧
          w1.history = w.history ++ [dst] ∧
          fs1.find dst = some nd ∧ fs1.find w.filename = none ∧
          ∀ p, p ≠ w.filename → p ≠ dst → fs1.find p = fs.find p)) ∧
    (fs.find w.filename = none → w1.history = w.history ∧ fs1.nodes = fs.nodes) ∧
    (∃ closes e rest,
      fs1.trace = fs.trace ++ closes ++ ⟨.stat w.filename, 0, e⟩ :: rest ∧
      (∀ ev ∈ closes, ev.op.kind = .close) ∧
      (e ≠ none → w1.history = w.history ∧ fs1.nodes = fs.nodes) ∧
      (e = none → ∃ nd dst, fs.find w.filename = some nd ∧
        IsGeneratedName w.filename fs.now dst ∧
        w1.history = w.history ++ [dst] ∧
        fs1.find dst = some nd ∧ fs1.find w.filename = none ∧
        ∀ p, p ≠ w.filename → p ≠ dst → fs1.find p = fs.find p)) := by
  obtain ⟨_, r2, _, r4⟩ := rotate_result w w1 fs fs1 none h
  refine ⟨r2, r4 rfl, ?_⟩
  have key : ∀ (w : RotateWriter) (fs : FS), w.file = none →
      ∀ w1 fs1, w.rotate fs = some (none, w1, fs1) →
      (fs.faults = [] →
        (∀ nd, fs.find w.filename = some nd →
          ∃ dst, IsGeneratedName w.filename fs.now dst ∧ fs.find dst = none ∧
            w1.history = w.history ++ [dst] ∧
            fs1.find dst = some nd ∧ fs1.find w.filename = none ∧
            ∀ p, p ≠ w.filename → p ≠ dst → fs1.find p = fs.find p)) ∧
      (fs.find w.filename = none → w1.history = w.history ∧ fs1.nodes = fs.nodes) ∧
      (∃ e rest,
        fs1.trace = fs.trace ++ ⟨.stat w.filename, 0, e⟩ :: rest ∧
        (e ≠ none → w1.history = w.history ∧ fs1.nodes = fs.nodes) ∧
        (e = none → ∃ nd dst, fs.find w.filename = some nd ∧
          IsGeneratedName w.filename fs.now dst ∧
          w1.history = w.history ++ [dst] ∧
          fs1.find dst = some nd ∧ fs1.find w.filename = none ∧
          ∀ p, p ≠ w.filename → p ≠ dst → fs1.find p = fs.find p)) := by
    intro w fs hfile w1 fs1 h
    obtain ⟨e, rest, g1, g2, g3, g4, g5⟩ := rotate_general w w1 fs fs1 hfile h
    refine ⟨fun hf nd hnd => ?_, fun hnone => ?_, e, rest, g1, fun he => ?_, fun he => ?_⟩
    · have he : e = none := g3 hf (by rw [hnd]; simp)
      obtain ⟨nd', dst, stats, k1, k2, k3, _, _, k6, k7, k8, k9⟩ := g5 he
      rw [hnd] at k1
      cases k1
      exact ⟨dst, k2, k9 hf, by rw [k3], k6, k7, k8⟩
    · obtain ⟨k1, k2, _⟩ := g4 (g2 hnone)
      exact ⟨by rw [k1], k2⟩
    · obtain ⟨k1, k2, _⟩ := g4 he
      exact ⟨by rw [k1], k2⟩
    · obtain ⟨nd', dst, stats, k1, k2, k3, _, _, k6, k7, k8, _⟩ := g5 he
      exact ⟨nd', dst, k1, k2, by rw [k3], k6, k7, k8⟩
  cases hfile : w.file with
  | none =>
    obtain ⟨a, b, e, rest, c1, c2, c3⟩ := key w fs hfile w1 fs1 h
    exact ⟨a, b, [], e, rest, by simpa using c1, by simp, c2, c3⟩
  | some hd =>
    rw [rotate_some w fs hd hfile] at h
    obtain ⟨ce0, opened, hcl⟩ := fileClose_cases hd fs
    cases hc : fileClose hd fs with
    | mk ce fs2 =>
      rw [hc] at h
      cases ce with
      | some err => simp at h
      | none =>
        simp only at h
        obtain ⟨c1, c2, c3, c4⟩ := fileClose_ok hd fs fs2 hc
        rw [hc] at hcl
        simp only [Prod.mk.injEq] at hcl
        obtain ⟨hce, hfs2⟩ := hcl
        subst hce
        have htr : fs2.trace = fs.trace ++ [⟨.close hd, 0, none⟩] := by rw [hfs2]; rfl
        obtain ⟨a, b, e, rest, d1, d2, d3⟩ := key { w with file := none } fs2 rfl w1 fs1 h
        simp only [c3, c4, c1, c2] at a b d2 d3
        refine ⟨a, b, [⟨.close hd, 0, none⟩], e, rest, ?_, by simp [Op.kind], d2, d3⟩
        rw [d1, htr]

theorem RotateWriter.rotate_success_witness :
    RotateWriter.rotate ⟨exTarget, 2, 12, 12, true, some exTarget, []⟩
        ⟨["tmp".toList], [(exTarget, .file "some content".toList)], [exTarget], exClock, [], []⟩ =
      some (none, ⟨exTarget, 2, 12, 0, true, none, [exRotated]⟩,
        ⟨["tmp".toList], [(exRotated, .file "some content".toList)], [], exClock, [],
          [⟨.close exTarget, 0, none⟩, ⟨.stat exTarget, 0, none⟩,
            ⟨.stat exRotated, 0, some ErrNotExist⟩, ⟨.rename exTarget exRotated, 0, none⟩]⟩) ∧
    (⟨exTarget, 2, 12, 0, true, none, [exRotated]⟩ : RotateWriter).file = none ∧
    (⟨exTarget, 2, 12, 0, true, none, [exRotated]⟩ : RotateWriter).size = 0 ∧
    (([] : List (Nat × Fault)) = [] →
      ∀ nd,
        FS.find ⟨["tmp".toList], [(exTarget, .file "some content".toList)], [exTarget],
            exClock, [], []⟩ exTarget = some nd →
        ∃ dst, IsGeneratedName exTarget exClock dst ∧
          FS.find ⟨["tmp".toList], [(exTarget, .file "some content".toList)], [exTarget],
            exClock, [], []⟩ dst = none ∧
          [exRotated] = [] ++ [dst] ∧
          FS.find ⟨["tmp".toList], [(exRotated, .file "some content".toList)], [], exClock, [],
              [⟨.close exTarget, 0, none⟩, ⟨.stat exTarget, 0, none⟩,
                ⟨.stat exRotated, 0, some ErrNotExist⟩,
                ⟨.rename exTarget exRotated, 0, none⟩]⟩ dst = some nd ∧
          FS.find ⟨["tmp".toList], [(exRotated, .file "some content".toList)], [], exClock, [],
              [⟨.close exTarget, 0, none⟩, ⟨.stat exTarget, 0, none⟩,
                ⟨.stat exRotated, 0, some ErrNotExist⟩,
                ⟨.rename exTarget exRotated, 0, none⟩]⟩ exTarget = none ∧
          ∀ p, p ≠ exTarget → p ≠ dst →
            FS.find ⟨["tmp".toList], [(exRotated, .file "some content".toList)], [], exClock, [],
                [⟨.close exTarget, 0, none⟩, ⟨.stat exTarget, 0, none⟩,
                  ⟨.stat exRotated, 0, some ErrNotExist⟩,
                  ⟨.rename exTarget exRotated, 0, none⟩]⟩ p =
              FS.find ⟨["tmp".toList], [(exTarget, .file "some content".toList)], [exTarget],
                exClock, [], []⟩ p) :=
  ⟨by decide,
    (RotateWriter.rotate_success ⟨exTarget, 2, 12, 12, true, some exTarget, []⟩
      ⟨exTarget, 2, 12, 0, true, none, [exRotated]⟩
      ⟨["tmp".toList], [(exTarget, .file "some content".toList)], [exTarget], exClock, [], []⟩
      ⟨["tmp".toList], [(exRotated, .file "some content".toList)], [], exClock, [],
        [⟨.close exTarget, 0, none⟩, ⟨.stat exTarget, 0, none⟩,
          ⟨.stat exRotated, 0, some ErrNotExist⟩, ⟨.rename exTarget exRotated, 0, none⟩]⟩
      (by decide)).1,
    (RotateWriter.rotate_success ⟨exTarget, 2, 12, 12, true, some exTarget, []⟩
      ⟨exTarget, 2, 12, 0, true, none, [exRotated]⟩
      ⟨["tmp".toList], [(exTarget, .file "some content".toList)], [exTarget], exClock, [], []⟩
      ⟨["tmp".toList], [(exRotated, .file "some content".toList)], [], exClock, [],
        [⟨.close exTarget, 0, none⟩, ⟨.stat exTarget, 0, none⟩,
          ⟨.stat exRotated, 0, some ErrNotExist⟩, ⟨.rename exTarget exRotated, 0, none⟩]⟩
      (by decide)).2.1,
    (RotateWriter.rotate_success ⟨exTarget, 2, 12, 12, true, some exTarget, []⟩
      ⟨exTarget, 2, 12, 0, true, none, [exRotated]⟩
      ⟨["tmp".toList], [(exTarget, .file "some content".toList)], [exTarget], exClock, [], []⟩
      ⟨["tmp".toList], [(exRotated, .file "some content".toList)], [], exClock, [],
        [⟨.close exTarget, 0, none⟩, ⟨.stat exTarget, 0, none⟩,
          ⟨.stat exRotated, 0, some ErrNotExist⟩, ⟨.rename exTarget exRotated, 0, none⟩]⟩
      (by decide)).2.2.1⟩

theorem Write_plain (w : RotateWriter) (p : Bytes) (fs : FS) (h : Path) (hm : w.maxFiles ≠ 0)
    (hz : ¬ (w.maxSize > 0)) (hb : w.inBytes = true) (hf : w.file = some h)
    (ho : h ∈ fs.opened) (hfa : fs.faults = []) :
    w.Write p fs =
      some (((p.length : Int), none), { w with size := wrapInt64 (w.size + p.length) },
        (fs.append h p).log (.write h p) p.length none) := by
  have hz' : ¬ (0 < w.maxSize) := hz
  simp [RotateWriter.Write, hm, hz', hf, fileWrite, ho, FS.fault, hfa, RotateWriter.increaseSize,
    hb]

theorem writeAll_repeat (p : Bytes) (h : Path) : ∀ (n : Nat) (w : RotateWriter) (fs : FS),
    w.maxFiles ≠ 0 → ¬ (w.maxSize > 0) → w.inBytes = true → w.file = some h →
    h ∈ fs.opened → fs.faults = [] → -(2 ^ 63) ≤ w.size → w.size < 2 ^ 63 →
    ∃ rs fs1,
      RotateWriter.WriteAll (List.replicate n p) w fs =
        some (rs, { w with size := wrapInt64 (w.size + n * p.length) }, fs1)
  | 0, w, fs, _, _, _, _, _, _, h1, h2 => by
    refine ⟨[], fs, ?_⟩
    simp only [List.replicate_zero, RotateWriter.WriteAll]
    have : wrapInt64 (w.size + ((0 : Nat) : Int) * p.length) = w.size := by
      rw [wrapInt64_eq _ (by simp; omega) (by simp; omega)]
      simp
    rw [this]
  | n + 1, w, fs, hm, hz, hb, hf, ho, hfa, _, _ => by
    have hw := Write_plain w p fs h hm hz hb hf ho hfa
    obtain ⟨r1, r2⟩ := wrapInt64_range (w.size + p.length)
    obtain ⟨rs, fs1, ih⟩ := writeAll_repeat p h n
      { w with size := wrapInt64 (w.size + p.length) }
      ((fs.append h p).log (.write h p) p.length none) hm hz hb hf ho hfa r1 r2
    refine ⟨((p.length : Int), none) :: rs, fs1, ?_⟩
    simp only [List.replicate_succ, RotateWriter.WriteAll, hw, ih]
    have : wrapInt64 (wrapInt64 (w.size + p.length) + (n : Int) * p.length) =
        wrapInt64 (w.size + ((n + 1 : Nat) : Int) * p.length) := by
      rw [wrapInt64_add]
      congr 1
      push_cast
      ring
    rw [this]

theorem reachable_writeAll : ∀ (ps : List Bytes) (w : RotateWriter) (fs : FS)
    (rs : List (Int × Option Err)) (w1 : RotateWriter) (fs1 : FS),
    Reachable w → RotateWriter.WriteAll ps w fs = some (rs, w1, fs1) → Reachable w1
  | [], w, fs, rs, w1, fs1, hr, h => by
    simp only [RotateWriter.WriteAll, Option.some.injEq, Prod.mk.injEq] at h
    obtain ⟨_, rfl, _⟩ := h
    exact hr
  | p :: ps, w, fs, rs, w1, fs1, hr, h => by
    simp only [RotateWriter.WriteAll] at h
    cases hw : w.Write p fs with
    | none => rw [hw] at h; cases h
    | some x =>
      obtain ⟨r, w2, fs2⟩ := x
      rw [hw] at h
      simp only at h
      cases hall : RotateWriter.WriteAll ps w2 fs2 with
      | none => rw [hall] at h; cases h
      | some y =>
        obtain ⟨rs2, w3, fs3⟩ := y
        rw [hall] at h
        simp only [Option.some.injEq, Prod.mk.injEq] at h
        obtain ⟨_, rfl, _⟩ := h
        exact reachable_writeAll ps w2 fs2 rs2 w3 fs3 (Reachable.write w w2 p fs fs2 r hr hw) hall

/-- C27, the failing instance. A writer constructed in an empty directory
with the threshold 0, which never rotates, in byte mode: after `2^43` writes
of `2^20` bytes each, `2^63` bytes in all, the size is `-2^63`. -/
theorem RotateWriter.size_wraps_negative :
    NewRotateWriter exTarget 2 0 "bytes".toList true ⟨["tmp".toList], [], [], exClock, [], []⟩ =
      some (.ok ⟨exTarget, 2, 0, 0, true, some exTarget, []⟩, exOpened) ∧
    (∃ rs fs1,
      RotateWriter.WriteAll (List.replicate (2 ^ 43) (List.replicate (2 ^ 20) 'x'))
          ⟨exTarget, 2, 0, 0, true, some exTarget, []⟩ exOpened =
        some (rs, ⟨exTarget, 2, 0, -(2 ^ 63), true, some exTarget, []⟩, fs1)) ∧
    Reachable ⟨exTarget, 2, 0, -(2 ^ 63), true, some exTarget, []⟩ ∧
    (⟨exTarget, 2, 0, -(2 ^ 63), true, some exTarget, []⟩ : RotateWriter).size < 0 := by
  have hc : NewRotateWriter exTarget 2 0 "bytes".toList true
      ⟨["tmp".toList], [], [], exClock, [], []⟩ =
      some (.ok ⟨exTarget, 2, 0, 0, true, some exTarget, []⟩, exOpened) := by decide
  have hr0 : Reachable ⟨exTarget, 2, 0, 0, true, some exTarget, []⟩ :=
    Reachable.construct _ _ _ _ _ _ _ _ hc
  obtain ⟨rs, fs1, hall⟩ := writeAll_repeat (List.replicate (2 ^ 20) 'x') exTarget (2 ^ 43)
    ⟨exTarget, 2, 0, 0, true, some exTarget, []⟩ exOpened (by decide) (by decide) rfl rfl
    (by decide) rfl (by decide) (by decide)
  have hsize : wrapInt64 ((0 : Int) + ((2 ^ 43 : Nat) : Int) *
      ((List.replicate (2 ^ 20) 'x').length : Int)) = -(2 ^ 63) := by
    rw [List.length_replicate]
    decide
  have hw : ({ (⟨exTarget, 2, 0, 0, true, some exTarget, []⟩ : RotateWriter) with
      size := wrapInt64 ((0 : Int) + ((2 ^ 43 : Nat) : Int) *
        ((List.replicate (2 ^ 20) 'x').length : Int)) } : RotateWriter) =
      ⟨exTarget, 2, 0, -(2 ^ 63), true, some exTarget, []⟩ := by
    rw [hsize]
  rw [hw] at hall
  exact ⟨hc, ⟨rs, fs1, hall⟩, reachable_writeAll _ _ _ _ _ _ hr0 hall, by decide⟩

/-- C27, amended. A state reached from a constructor call by calls of
`Write` and `Close` has a size that is not negative, and at most `b`, as long
as `b` is below `2^63`, where `b` is the size of the target that the
constructor call found plus `len(p) + 2` for every call `Write(p)` made
since; every reachable state has such a `b`. Every call of `rotate` that
returns no error leaves the size 0. A call `Write(p)` on a size `s ≥ 0` with
`s + len(p) + 2 < 2^63` leaves a size between 0 and `s + len(p) + 2`. -/
theorem RotateWriter.size_nonneg :
    (∀ (b : Int) (w : RotateWriter), ReachableWithin b w → b < 2 ^ 63 →
      0 ≤ w.size ∧ w.size ≤ b) ∧
    (∀ w : RotateWriter, Reachable w → ∃ b, ReachableWithin b w) ∧
    (∀ (w w1 : RotateWriter) (fs fs1 : FS), w.rotate fs = some (none, w1, fs1) → w1.size = 0) ∧
    (∀ (w w1 : RotateWriter) (p : Bytes) (fs fs1 : FS) (r : Int × Option Err),
      0 ≤ w.size → w.size + p.length + 2 < 2 ^ 63 → w.Write p fs = some (r, w1, fs1) →
      0 ≤ w1.size ∧ w1.size ≤ w.size + p.length + 2) := by
  refine ⟨?_, ?_, ?_, fun w w1 p fs fs1 r hs hlt h => (Write_result w w1 p fs fs1 r h).2 hs hlt⟩
  · intro b w hw
    induction hw with
    | construct target maxFiles maxSize sizeUnit truncate fs fs1 w B hle h =>
      intro hb
      exact (NewRotateWriter_result target maxFiles maxSize sizeUnit truncate fs fs1 w h).2 B hb hle
    | write b w w1 p fs fs1 r _ h ih =>
      intro hb
      have hp : (0 : Int) ≤ p.length := Int.ofNat_nonneg _
      obtain ⟨i1, i2⟩ := ih (by omega)
      obtain ⟨j1, j2⟩ := (Write_result w w1 p fs fs1 r h).2 i1 (by omega)
      exact ⟨j1, by omega⟩
    | close b w fs _ ih =>
      intro hb
      rw [(Close_result w fs).2.1]
      exact ih hb
  · intro w hw
    induction hw with
    | construct target maxFiles maxSize sizeUnit truncate fs fs1 w h =>
      cases hf : fs.find target with
      | none =>
        exact ⟨((0 : Nat) : Int), ReachableWithin.construct target maxFiles maxSize sizeUnit
          truncate fs fs1 w 0 (fun c hc => by rw [hf] at hc; cases hc) h⟩
      | some nd =>
        cases nd with
        | dir =>
          exact ⟨((0 : Nat) : Int), ReachableWithin.construct target maxFiles maxSize sizeUnit
            truncate fs fs1 w 0 (fun c hc => by rw [hf] at hc; cases hc) h⟩
        | file c0 =>
          exact ⟨((c0.length : Nat) : Int), ReachableWithin.construct target maxFiles maxSize
            sizeUnit truncate fs fs1 w c0.length
            (fun c hc => by
              rw [hf] at hc
              simp only [Option.some.injEq, Node.file.injEq] at hc
              rw [hc]) h⟩
    | write w w1 p fs fs1 r _ h ih =>
      obtain ⟨b, hb⟩ := ih
      exact ⟨b + p.length + 2, ReachableWithin.write b w w1 p fs fs1 r hb h⟩
    | close w fs _ ih =>
      obtain ⟨b, hb⟩ := ih
      exact ⟨b, ReachableWithin.close b w fs hb⟩
  · intro w w1 fs fs1 h
    exact (rotate_result w w1 fs fs1 none h).2.2.2 rfl

theorem RotateWriter.size_nonneg_witness :
    ReachableWithin ((0 : Nat) : Int) ⟨exTarget, 2, 12, 0, true, some exTarget, []⟩ ∧
    (((0 : Nat) : Int) < 2 ^ 63) ∧
    ((0 : Int) ≤ (⟨exTarget, 2, 12, 0, true, some exTarget, []⟩ : RotateWriter).size ∧
      (⟨exTarget, 2, 12, 0, true, some exTarget, []⟩ : RotateWriter).size ≤ ((0 : Nat) : Int)) ∧
    RotateWriter.rotate ⟨exTarget, 2, 12, 12, true, some exTarget, []⟩
        ⟨["tmp".toList], [(exTarget, .file "some content".toList)], [exTarget], exClock, [], []⟩ =
      some (none, ⟨exTarget, 2, 12, 0, true, none, [exRotated]⟩,
        ⟨["tmp".toList], [(exRotated, .file "some content".toList)], [], exClock, [],
          [⟨.close exTarget, 0, none⟩, ⟨.stat exTarget, 0, none⟩,
            ⟨.stat exRotated, 0, some ErrNotExist⟩, ⟨.rename exTarget exRotated, 0, none⟩]⟩) ∧
    (⟨exTarget, 2, 12, 0, true, none, [exRotated]⟩ : RotateWriter).size = 0 :=
  have hr : ReachableWithin ((0 : Nat) : Int) ⟨exTarget, 2, 12, 0, true, some exTarget, []⟩ :=
    ReachableWithin.construct exTarget 2 12 "bytes".toList true
      ⟨["tmp".toList], [], [], exClock, [], []⟩
      ⟨["tmp".toList], [(exTarget, .file [])], [exTarget], exClock, [],
        [⟨.readDir "tmp".toList, 0, none⟩, ⟨.stat exTarget, 0, some ErrNotExist⟩,
          ⟨.openFile exTarget, 0, none⟩, ⟨.write exTarget [], 0, none⟩]⟩
      _ 0 (fun c hc => by cases hc) NewRotateWriter_on_empty_directory
  ⟨hr, by decide, RotateWriter.size_nonneg.1 _ _ hr (by decide), by decide,
    RotateWriter.size_nonneg.2.2.1 ⟨exTarget, 2, 12, 12, true, some exTarget, []⟩
      ⟨exTarget, 2, 12, 0, true, none, [exRotated]⟩
      ⟨["tmp".toList], [(exTarget, .file "some content".toList)], [exTarget], exClock, [], []⟩
      ⟨["tmp".toList], [(exRotated, .file "some content".toList)], [], exClock, [],
        [⟨.close exTarget, 0, none⟩, ⟨.stat exTarget, 0, none⟩,
          ⟨.stat exRotated, 0, some ErrNotExist⟩, ⟨.rename exTarget exRotated, 0, none⟩]⟩
      (by decide)⟩

end Log

namespace Ts

open Log

set_option maxRecDepth 100000

/-! ## `FindTranslation` as one scan -/

theorem findInMessages_append (unescape : Bytes → Bytes) (source : Bytes)
    (b : List (Option Message)) : ∀ a : List (Option Message),
    findInMessages unescape source (a ++ b) =
      (findInMessages unescape source a).or (findInMessages unescape source b)
  | [] => by simp [findInMessages]
  | none :: rest => by simp [findInMessages]
  | some m :: rest => by
    have ih := findInMessages_append unescape source b rest
    cases hs : m.source with
    | none => simp [findInMessages, hs]
    | some src =>
      by_cases he : unescape src.text = unescape source
      · simp [findInMessages, hs, he]
      · simp [findInMessages, hs, he, ih]

theorem findInMessages_skip (unescape : Bytes → Bytes) (source : Bytes)
    (rest : List (Option Message)) : ∀ pre : List (Option Message),
    (∀ x ∈ pre, Passes unescape source x) →
    findInMessages unescape source (pre ++ rest) = findInMessages unescape source rest
  | [], _ => rfl
  | x :: pre, h => by
    obtain ⟨m, src, rfl, hs, he⟩ := h x (List.mem_cons_self _ _)
    have ih := findInMessages_skip unescape source rest pre
      (fun y hy => h y (List.mem_cons_of_mem _ hy))
    simp [findInMessages, hs, he, ih]

theorem findInContexts_scan (unescape : Bytes → Bytes) (context source : Bytes) :
    ∀ contexts : List (Option Context),
      findInContexts unescape context source contexts =
        (findInMessages unescape source
          (contexts.flatMap (fun c =>
            match c with
            | none => [none]
            | some ctx => if context = [] ∨ ctx.name = context then ctx.messages else []))).getD
          (.ok none)
  | [] => by simp [findInContexts, findInMessages]
  | none :: rest => by simp [findInContexts, findInMessages]
  | some ctx :: rest => by
    have ih := findInContexts_scan unescape context source rest
    unfold findInContexts
    by_cases hc : context = [] ∨ ctx.name = context
    · have hn : ¬ (context.length ≠ 0 ∧ ctx.name ≠ context) := by
        rintro ⟨h1, h2⟩
        rcases hc with hc | hc
        · exact h1 (by simp [hc])
        · exact h2 hc
      rw [if_neg hn, List.flatMap_cons]
      simp only [hc, if_true]
      rw [findInMessages_append]
      cases hm : findInMessages unescape source ctx.messages with
      | none => simpa using ih
      | some r => simp
    · have hp : context.length ≠ 0 ∧ ctx.name ≠ context := by
        constructor
        · intro h0
          exact hc (Or.inl (List.length_eq_zero.mp h0))
        · intro h
          exact hc (Or.inr h)
      rw [if_pos hp, List.flatMap_cons]
      simp only [hc, if_false, List.nil_append]
      exact ih

/-! ## Properties of the specification: `FindTranslation` -/

/-- C24, the failing instance. The only message of `sourcelessTs` has no
source, so no message has an unescaped source text equal to that of `"A"`;
`FindTranslation("context A", "A")` does not return nil: it panics on
`message.Source.Text`, whatever `html.UnescapeString` does. -/
theorem TS.findTranslation_panics_without_source :
    (∀ unescape : Bytes → Bytes,
      TS.FindTranslation unescape sourcelessTs "context A".toList "A".toList = .panicked) ∧
    (∀ c ∈ sourcelessTs.contexts, ∀ ctx, c = some ctx →
      ∀ x ∈ ctx.messages, ∀ m, x = some m → m.source = none) := by
  constructor
  · intro unescape
    simp [TS.FindTranslation, sourcelessTs, findInContexts, findInMessages]
  · decide

/-- C24, amended. `FindTranslation(context, source)` scans the messages of
the contexts named `context` (of all contexts when `context` is empty), in
order. If the first message that it cannot pass over has a source whose
unescaped text equals the unescaped `source`, it returns the translation of
that message; if it passes over all of them, it returns nil; if the first
message that it cannot pass over is nil, has no source, or stands for a nil
context, the call panics. A message is passed over when it has a source
whose unescaped text differs from the unescaped `source`. -/
theorem TS.findTranslation_first_match (unescape : Bytes → Bytes) (ts : TS)
    (context source : Bytes) :
    (∀ pre m post, ts.scanned context = pre ++ some m :: post →
      (∀ x ∈ pre, Passes unescape source x) → Matches unescape source m →
      ts.FindTranslation unescape context source = .ok m.translation) ∧
    ((∀ x ∈ ts.scanned context, Passes unescape source x) →
      ts.FindTranslation unescape context source = .ok none) ∧
    (∀ pre x post, ts.scanned context = pre ++ x :: post →
      (∀ y ∈ pre, Passes unescape source y) → Broken x →
      ts.FindTranslation unescape context source = .panicked) := by
  have hscan : ts.FindTranslation unescape context source =
      (findInMessages unescape source (ts.scanned context)).getD (.ok none) :=
    findInContexts_scan unescape context source ts.contexts
  refine ⟨?_, ?_, ?_⟩
  · intro pre m post hS hpre ⟨src, hs, he⟩
    rw [hscan, hS, findInMessages_skip unescape source _ pre hpre]
    simp [findInMessages, hs, he]
  · intro hall
    rw [hscan]
    have := findInMessages_skip unescape source [] (ts.scanned context) hall
    rw [List.append_nil] at this
    rw [this]
    rfl
  · intro pre x post hS hpre hx
    rw [hscan, hS, findInMessages_skip unescape source _ pre hpre]
    rcases hx with rfl | ⟨m, rfl, hs⟩
    · rfl
    · simp [findInMessages, hs]

theorem TS.findTranslation_first_match_witness :
    simpleTs.FindTranslation id "context A".toList "B".toList =
      .ok (some ⟨"unfinished".toList, "tB".toList⟩) ∧
    simpleTs.FindTranslation id "context A".toList "C".toList = .ok none ∧
    sourcelessTs.FindTranslation id "context A".toList "A".toList = .panicked :=
  ⟨(TS.findTranslation_first_match id simpleTs "context A".toList "B".toList).1
      [some ⟨[], some ⟨"&ltA&gt".toList⟩, none, some ⟨[], "tA".toList⟩, [], none, false⟩]
      ⟨[], some ⟨"B".toList⟩, none, some ⟨"unfinished".toList, "tB".toList⟩, [], none, false⟩
      [] (by decide)
      (by
        intro x hx
        simp only [List.mem_singleton] at hx
        exact ⟨_, _, hx, rfl, by decide⟩)
      ⟨_, rfl, rfl⟩,
    (TS.findTranslation_first_match id simpleTs "context A".toList "C".toList).2.1
      (by
        intro x hx
        have hS : simpleTs.scanned "context A".toList =
            [some ⟨[], some ⟨"&ltA&gt".toList⟩, none, some ⟨[], "tA".toList⟩, [], none, false⟩,
              some ⟨[], some ⟨"B".toList⟩, none, some ⟨"unfinished".toList, "tB".toList⟩, [],
                none, false⟩] := by decide
        rw [hS] at hx
        simp only [List.mem_cons, List.mem_singleton, List.not_mem_nil, or_false] at hx
        rcases hx with rfl | rfl
        · exact ⟨_, _, rfl, rfl, by decide⟩
        · exact ⟨_, _, rfl, rfl, by decide⟩),
    (TS.findTranslation_first_match id sourcelessTs "context A".toList "A".toList).2.2
      [] (some ⟨[], none, none, some ⟨[], "tA".toList⟩, [], none, false⟩) []
      (by decide) (by intro y hy; cases hy) (Or.inr ⟨_, rfl, rfl⟩)⟩

/-! ## `escapeString` as one replacement for each character, and `sort.Strings` -/

theorem replaceApos_step (c : Char) (rest : Bytes) :
    replaceAllFrom "&#39;".toList "&apos;".toList 0 (htmlEscapeChar c ++ rest) =
      aposEscapeChar c ++ replaceAllFrom "&#39;".toList "&apos;".toList 0 rest := by
  unfold htmlEscapeChar aposEscapeChar
  by_cases h1 : c = '&'
  · subst h1; simp [replaceAllFrom]
  by_cases h2 : c = Char.ofNat 39
  · subst h2; simp [replaceAllFrom]
  by_cases h3 : c = '<'
  · subst h3; simp [replaceAllFrom]
  by_cases h4 : c = '>'
  · subst h4; simp [replaceAllFrom]
  by_cases h5 : c = Char.ofNat 34
  · subst h5; simp [replaceAllFrom]
  simp [replaceAllFrom, h1, h2, h3, h4, h5]
  intro h; exact absurd h.symm h1

theorem replaceQuot_step (c : Char) (rest : Bytes) :
    replaceAllFrom "&#34;".toList "&quot;".toList 0 (aposEscapeChar c ++ rest) =
      qtEscapeChar c ++ replaceAllFrom "&#34;".toList "&quot;".toList 0 rest := by
  unfold qtEscapeChar aposEscapeChar
  by_cases h1 : c = '&'
  · subst h1; simp [replaceAllFrom]
  by_cases h2 : c = Char.ofNat 39
  · subst h2; simp [replaceAllFrom]
  by_cases h3 : c = '<'
  · subst h3; simp [replaceAllFrom]
  by_cases h4 : c = '>'
  · subst h4; simp [replaceAllFrom]
  by_cases h5 : c = Char.ofNat 34
  · subst h5; simp [replaceAllFrom]
  simp [replaceAllFrom, h1, h2, h3, h4, h5]
  intro h; exact absurd h.symm h1

theorem escapeString_eq_qtEscape (s : Bytes) : escapeString s = qtEscape s := by
  have h1 : ∀ s : Bytes, replaceAllFrom "&#39;".toList "&apos;".toList 0 (htmlEscapeString s) =
      s.flatMap aposEscapeChar := by
    intro s
    induction s with
    | nil => rfl
    | cons c rest ih =>
      show replaceAllFrom _ _ 0 (htmlEscapeChar c ++ htmlEscapeString rest) = _
      rw [replaceApos_step, ih]; rfl
  have h2 : ∀ s : Bytes, replaceAllFrom "&#34;".toList "&quot;".toList 0 (s.flatMap aposEscapeChar) =
      qtEscape s := by
    intro s
    induction s with
    | nil => rfl
    | cons c rest ih =>
      show replaceAllFrom _ _ 0 (aposEscapeChar c ++ rest.flatMap aposEscapeChar) = _
      rw [replaceQuot_step, ih]; rfl
  have e1 : "&#39;".toList ≠ [] := by decide
  have e2 : "&#34;".toList ≠ [] := by decide
  simp only [escapeString, stringsReplaceAll, if_neg e1, if_neg e2, h1, h2]

theorem mem_escapedKeys (e : Bytes) : ∀ slice : List Bytes,
    e ∈ escapedKeys slice ↔ ∃ entry ∈ slice, e = escapeString entry
  | [] => by simp [escapedKeys]
  | entry :: rest => by
    have ih := mem_escapedKeys e rest
    simp only [escapedKeys, List.mem_cons, List.mem_filter, ih, decide_eq_true_eq]
    constructor
    · rintro (h | ⟨⟨x, hx, rfl⟩, _⟩)
      · exact ⟨entry, Or.inl rfl, h⟩
      · exact ⟨x, Or.inr hx, rfl⟩
    · rintro ⟨x, (rfl | hx), rfl⟩
      · exact Or.inl rfl
      · by_cases h : escapeString x = escapeString entry
        · exact Or.inl h
        · exact Or.inr ⟨⟨x, hx, rfl⟩, h⟩

theorem nodup_escapedKeys : ∀ slice : List Bytes, (escapedKeys slice).Nodup
  | [] => List.nodup_nil
  | entry :: rest => by
    simp only [escapedKeys, List.nodup_cons, List.mem_filter, decide_eq_true_eq]
    exact ⟨fun h => h.2 rfl, (nodup_escapedKeys rest).filter _⟩

theorem sortStrings_perm (list : List Bytes) : (sortStrings list).Perm list :=
  List.perm_insertionSort _ list

theorem sortStrings_sorted (list : List Bytes) :
    List.Sorted (fun a b : Bytes => a ≤ b) (sortStrings list) :=
  List.sorted_insertionSort _ list

theorem sortStrings_strict (list : List Bytes) (h : list.Nodup) :
    List.Sorted (fun a b : Bytes => a < b) (sortStrings list) := by
  have hs := sortStrings_sorted list
  have hn : (sortStrings list).Nodup := (sortStrings_perm list).nodup_iff.mpr h
  exact (List.pairwise_and_iff.mpr ⟨hs, hn⟩).imp (fun ⟨h1, h2⟩ => lt_of_le_of_ne h1 h2)

theorem sortStrings_unique (a b : List Bytes) (ha : a.Nodup) (hb : b.Nodup)
    (h : ∀ e, e ∈ a ↔ e ∈ b) : sortStrings a = sortStrings b := by
  have hp : a.Perm b := (List.perm_ext_iff_of_nodup ha hb).mpr h
  exact List.eq_of_perm_of_sorted
    (((sortStrings_perm a).trans hp).trans (sortStrings_perm b).symm)
    (sortStrings_sorted a) (sortStrings_sorted b)

/-! ## Properties of the specification: `removeDuplicate` -/

/-- C28. `removeDuplicate` returns the escaped forms of the entries of its
argument, each distinct value once, in strictly ascending lexical order;
the escaped form is the HTML escaping of the entry with the apostrophe
written as `&apos;` and the double quote as `&quot;`. The order in which the
map of the function is ranged over does not matter: every list that holds
the keys once each is sorted to the same result. The two cases of
`TestRemoveDuplicate` are instances. -/
theorem removeDuplicate_escaped_sorted (slice : List Bytes) :
    (∀ e, e ∈ removeDuplicate slice ↔ ∃ entry ∈ slice, e = qtEscape entry) ∧
    (removeDuplicate slice).Nodup ∧
    List.Sorted (fun a b : Bytes => a < b) (removeDuplicate slice) ∧
    (∀ keys : List Bytes, keys.Nodup →
      (∀ e, e ∈ keys ↔ ∃ entry ∈ slice, e = escapeString entry) →
      sortStrings keys = removeDuplicate slice) ∧
    (∀ str, escapeString str = qtEscape str) ∧
    removeDuplicate ["<".toList, ">".toList, "c".toList, ">".toList] =
      ["&gt;".toList, "&lt;".toList, "c".toList] ∧
    removeDuplicate ["a".toList, "a".toList, "b".toList, "c".toList] =
      ["a".toList, "b".toList, "c".toList] := by
  refine ⟨?_, ?_, ?_, ?_, escapeString_eq_qtEscape, by decide, by decide⟩
  · intro e
    rw [removeDuplicate, (sortStrings_perm _).mem_iff, mem_escapedKeys]
    simp only [escapeString_eq_qtEscape]
  · exact (sortStrings_perm _).nodup_iff.mpr (nodup_escapedKeys slice)
  · exact sortStrings_strict _ (nodup_escapedKeys slice)
  · intro keys hk hm
    exact sortStrings_unique keys (escapedKeys slice) hk (nodup_escapedKeys slice)
      (fun e => (hm e).trans (mem_escapedKeys e slice).symm)

theorem removeDuplicate_escaped_sorted_witness :
    sortStrings ["c".toList, "&lt;".toList, "&gt;".toList] =
      removeDuplicate ["<".toList, ">".toList, "c".toList, ">".toList] ∧
    removeDuplicate ["<".toList, ">".toList, "c".toList, ">".toList] =
      ["&gt;".toList, "&lt;".toList, "c".toList] :=
  ⟨(removeDuplicate_escaped_sorted
      ["<".toList, ">".toList, "c".toList, ">".toList]).2.2.2.1
      ["c".toList, "&lt;".toList, "&gt;".toList] (by decide)
      (by
        have h1 : escapeString "<".toList = "&lt;".toList := by decide
        have h2 : escapeString ">".toList = "&gt;".toList := by decide
        have h3 : escapeString "c".toList = "c".toList := by decide
        intro e
        simp only [List.mem_cons, List.mem_singleton, List.not_mem_nil, or_false,
          exists_eq_or_imp, exists_eq_left, h1, h2, h3]
        tauto),
    by decide⟩

end Ts
